import Mathlib

/-!
# Lattice L1 consensus core: block graph, PoS engine and block validation

A shallow embedding of `core/dag/ghostdag.go`, `core/dag/pos_engine.go` and
`node/consensus/validate_block.go`, followed by theorems about them.

Conventions of the embedding

* Go maps are association lists (`List (K × V)`) holding each key at most once;
  `range` over a map yields its entries in an unspecified order, so every function
  that ranges over a map takes the order of that particular iteration as an
  argument (a permutation of the stored entries).
* `int64` values that are only compared are `Int`; `uint64` arithmetic is `Nat`
  arithmetic reduced modulo `2 ^ 64`.
* Go strings are compared bytewise; on valid UTF-8 this is the order of the code
  points, which is how `strLess` compares.
* A run-time panic (index out of range) is the result `none`.
* Pointers are replaced by the values they point to; blocks are never mutated
  after insertion and the validators of an engine are distinct objects.
-/

namespace Lattice

/-! ## Data model (`core/dag`) -/

/-- Transaction of `transaction_pool.go`; `Value` and `GasPrice` are `*big.Int`, with
`none` for the nil pointer that the transaction validator tests for. -/
structure Transaction where
  Hash : String
  From : String
  To : String
  Value : Option Int
  GasPrice : Option Int
  GasLimit : Nat
  Nonce : Nat
  Data : List Nat
  Timestamp : Int
deriving DecidableEq, Repr, Inhabited

/-- Block of `ghostdag.go`. -/
structure Block where
  Hash : String
  Parents : List String
  Height : Int
  BlueScore : Int
  SelectedParent : String
  BlueWork : Int
  Timestamp : Int
  Signature : String
  Transactions : List Transaction
  ProducerID : String
  ProducerPubKeyHash : String
deriving DecidableEq, Repr, Inhabited

/-- Go's `a < b` on strings. -/
def strLess (a b : String) : Bool := decide (a.data < b.data)

/-- The heap slice `type BlockHeap []*Block`. -/
abbrev BlockHeap := List Block

/-- The element `h[i]` of a heap slice. -/
def BlockHeap.at (h : BlockHeap) (i : Nat) : Block := h.getD i default

/-- The comparison made by `BlockHeap.Less` on the two blocks `h[i]`, `h[j]`. -/
def blockLess (a b : Block) : Bool :=
  if a.BlueScore ≠ b.BlueScore then decide (a.BlueScore > b.BlueScore)
  else if a.BlueWork ≠ b.BlueWork then decide (a.BlueWork > b.BlueWork)
  else strLess a.Hash b.Hash

/-- `func (h BlockHeap) Less(i, j int) bool`. -/
def BlockHeap.Less (h : BlockHeap) (i j : Nat) : Bool := blockLess (h.at i) (h.at j)

/-- `func (h BlockHeap) Swap(i, j int)`: `h[i], h[j] = h[j], h[i]`. -/
def BlockHeap.Swap (h : BlockHeap) (i j : Nat) : BlockHeap :=
  (h.set i (h.at j)).set j (h.at i)

/-! ## `container/heap` (Go standard library) on a `BlockHeap` -/

/-- The loop of `heap.up(h, j)`; the first argument bounds the number of iterations. -/
def heapUp : Nat → BlockHeap → Nat → BlockHeap
  | 0, h, _ => h
  | fuel + 1, h, j =>
    let i := (j - 1) / 2
    if i = j ∨ h.Less j i = false then h
    else heapUp fuel (h.Swap i j) i

/-- The loop of `heap.down(h, i0, n)`; the first argument bounds the number of iterations.
The boolean result of the Go function is not used by `Push`, `Pop` or `Init`. -/
def heapDown : Nat → BlockHeap → Nat → Nat → BlockHeap
  | 0, h, _, _ => h
  | fuel + 1, h, i, n =>
    let j1 := 2 * i + 1
    if j1 ≥ n then h
    else
      let j := if j1 + 1 < n ∧ h.Less (j1 + 1) j1 = true then j1 + 1 else j1
      if h.Less j i = false then h
      else heapDown fuel (h.Swap i j) j n

/-- `heap.Init(h)`: `for i := n/2 - 1; i >= 0; i-- { down(h, i, n) }`. -/
def heapInit (h : BlockHeap) : BlockHeap :=
  (List.range (h.length / 2)).reverse.foldl (fun acc i => heapDown h.length acc i h.length) h

/-- `heap.Push(h, x)`: append `x`, then `up(h, h.Len()-1)`. -/
def heapPush (h : BlockHeap) (x : Block) : BlockHeap :=
  heapUp (h.length + 1) (h ++ [x]) h.length

/-- `heap.Pop(h)`: `n := h.Len() - 1; h.Swap(0, n); down(h, 0, n); return h.Pop()`.
On the empty heap the Go code panics. -/
def heapPop (h : BlockHeap) : Option (Block × BlockHeap) :=
  if h.length = 0 then none
  else
    let n := h.length - 1
    let h1 := heapDown n (h.Swap 0 n) 0 n
    some (h1.at n, h1.take n)

/-! ## The block graph (`GhostDAG`) -/

deriving instance DecidableEq for Except

/-- Lookup `m[k]` in a Go map. -/
def mapGet {K V : Type} [DecidableEq K] : List (K × V) → K → Option V
  | [], _ => none
  | (k, v) :: rest, key => if k = key then some v else mapGet rest key

/-- Assignment `m[k] = v` in a Go map. -/
def mapSet {K V : Type} [DecidableEq K] : List (K × V) → K → V → List (K × V)
  | [], key, v => [(key, v)]
  | (k, w) :: rest, key, v => if k = key then (k, v) :: rest else (k, w) :: mapSet rest key v

/-- `delete(m, k)` on a Go map. -/
def mapDelete {K V : Type} [DecidableEq K] : List (K × V) → K → List (K × V)
  | [], _ => []
  | (k, w) :: rest, key => if k = key then mapDelete rest key else (k, w) :: mapDelete rest key

/-- The struct `GhostDAG`. -/
structure GhostDAG where
  blocks : List (String × Block)
  heap : BlockHeap
  processed : List (String × Bool)
deriving DecidableEq, Repr

/-- `NewGhostDAG()`. -/
def NewGhostDAG : GhostDAG := { blocks := [], heap := [], processed := [] }

/-- Errors returned by the block graph. -/
inductive DagError where
  /-- The error "block %s already exists". -/
  | alreadyExists (hash : String)
  /-- The error "block %s not found". -/
  | notFound (hash : String)
  /-- The error "block %s references non-existent parent %s". -/
  | nonExistentParent (hash parent : String)
  /-- The error "block %s has selected parent %s not in parents list". -/
  | selectedParentNotInParents (hash selectedParent : String)
deriving DecidableEq, Repr

/-- `GhostDAG.AddBlock`: the graph after the call and the returned error, if any. -/
def GhostDAG.AddBlock (gd : GhostDAG) (block : Block) : GhostDAG × Option DagError :=
  match mapGet gd.blocks block.Hash with
  | some _ => (gd, some (DagError.alreadyExists block.Hash))
  | none =>
    ({ gd with blocks := mapSet gd.blocks block.Hash block, heap := heapPush gd.heap block }, none)

/-- `GhostDAG.GetBlock`: `none` stands for `(nil, false)`. -/
def GhostDAG.GetBlock (gd : GhostDAG) (hash : String) : Option Block := mapGet gd.blocks hash

/-- `GhostDAG.GetBlockCount`. -/
def GhostDAG.GetBlockCount (gd : GhostDAG) : Nat := gd.blocks.length

/-- The blocks stored in the graph (the values of the map `gd.blocks`). -/
def GhostDAG.stored (gd : GhostDAG) : List Block := gd.blocks.map Prod.snd

/-- The loop `for tempHeap.Len() > 0 { ordered = append(ordered, heap.Pop(tempHeap)) }`. -/
def drainHeap : Nat → BlockHeap → List Block → List Block
  | 0, _, ordered => ordered
  | fuel + 1, h, ordered =>
    match heapPop h with
    | none => ordered
    | some (block, h1) => drainHeap fuel h1 (ordered ++ [block])

/-- `GhostDAG.GetTotalOrder`; `iter` is the order in which `range gd.blocks` yields the
stored blocks during this call. The returned error is always `nil`. -/
def GhostDAG.GetTotalOrder (gd : GhostDAG) (iter : List Block) : Except DagError (List Block) :=
  if gd.blocks.length = 0 then Except.ok []
  else
    let tempHeap := iter.foldl heapPush (heapInit [])
    Except.ok (drainHeap tempHeap.length tempHeap [])

/-! ## Proof-of-stake engine (`core/dag/pos_engine.go`) -/

/-- Validator of `core/pq/keys.go`; `Stake` and `Weight` are `uint64`. -/
structure Validator where
  ID : String
  PQPubKeyHash : String
  Stake : Nat
  Weight : Nat
deriving DecidableEq, Repr, Inhabited

/-- A `float64` value, kept as its IEEE-754 binary64 bit pattern. -/
structure Float64 where
  bits : Nat
deriving DecidableEq, Repr, Inhabited

/-- The struct `FinalityConfig` of `types.go`. -/
structure FinalityConfig where
  SoftFinalityThreshold : Float64
  SoftFinalityLayers : Int
  HardFinalityThreshold : Float64
  HardFinalityEpochWindow : Int
deriving DecidableEq, Repr, Inhabited

/-- The struct `StakeSnapshot`; it is stored by value in `StakeHistory`, its `Stake`
field is a reference to a map. -/
structure StakeSnapshot where
  Layer : Int
  Stake : List (String × Nat)
  Total : Nat
deriving DecidableEq, Repr, Inhabited

/-- The struct `POSEngine`. -/
structure POSEngine where
  Validators : List Validator
  FinalityConfig : FinalityConfig
  CurrentLayer : Int
  LayerTimestamps : List Int
  StakeHistory : List StakeSnapshot
  Participation : List (Nat × List (String × Bool))
deriving DecidableEq, Repr, Inhabited

/-- Errors returned by the engine. -/
inductive PosError where
  /-- The error "validator %s already exists". -/
  | alreadyExists (id : String)
  /-- The error "validator %s not found". -/
  | notFound (id : String)
deriving DecidableEq, Repr

/-- Reduction of an integer to the `uint64` range. -/
def u64 (n : Nat) : Nat := n % 2 ^ 64

/-- Reduction of an integer to the `int64` range (two's complement wrap-around). -/
def wrap64 (x : Int) : Int := (x + 2 ^ 63) % 2 ^ 64 - 2 ^ 63

/-- `NewPOSEngine(validators, finalityConfig)`. -/
def NewPOSEngine (validators : List Validator) (finalityConfig : FinalityConfig) : POSEngine :=
  let stake := validators.foldl (fun m v => mapSet m v.ID v.Stake) []
  let totalStake := validators.foldl (fun t v => u64 (t + v.Stake)) 0
  { Validators := validators
    FinalityConfig := finalityConfig
    CurrentLayer := 0
    LayerTimestamps := []
    StakeHistory := [{ Layer := 0, Stake := stake, Total := totalStake }]
    Participation := [] }

/-- The accumulation loop of `SelectValidator`: the validator at which the loop breaks,
or `none` when it runs to the end (`selected == nil`). -/
def selectLoop (stake : List (String × Nat)) (target : Nat) :
    List Validator → Nat → Option Validator
  | [], _ => none
  | v :: rest, accumulated =>
    match mapGet stake v.ID with
    | some s =>
      if u64 (accumulated + s) ≥ target then some v
      else selectLoop stake target rest (u64 (accumulated + s))
    | none => selectLoop stake target rest accumulated

/-- The part of `SelectValidator` that follows the choice of `target`: the loop and the
fallback `selected = p.Validators[0]`. -/
def POSEngine.selectForTarget (p : POSEngine) (currentStake : StakeSnapshot) (target : Nat) :
    Option Validator :=
  match selectLoop currentStake.Stake target p.Validators 0 with
  | some v => some v
  | none => p.Validators.head?

/-- `POSEngine.SelectValidator`; `unixNano` is the value of `time.Now().UnixNano()`.
The outer `none` is a panic (empty `StakeHistory`), the inner `none` is `nil`. -/
def POSEngine.SelectValidator (p : POSEngine) (unixNano : Int) : Option (Option Validator) :=
  if p.Validators.length = 0 then some none
  else
    match p.StakeHistory.getLast? with
    | none => none
    | some currentStake =>
      let totalWeight := currentStake.Total
      if totalWeight = 0 then some p.Validators.head?
      else
        let target := (unixNano % 2 ^ 64).toNat % totalWeight
        some (p.selectForTarget currentStake target)

/-- `POSEngine.ValidatorExists`. -/
def POSEngine.ValidatorExists (p : POSEngine) (validatorID : String) : Bool :=
  p.Validators.any (fun validator => validator.ID = validatorID)

/-- `POSEngine.GetValidatorPQHash`. -/
def POSEngine.GetValidatorPQHash (p : POSEngine) (validatorID : String) : String :=
  match p.Validators.find? (fun validator => validator.ID = validatorID) with
  | some validator => validator.PQPubKeyHash
  | none => ""

/-- `POSEngine.RecordParticipation`. The log output is left out. The `Participation` map
is allocated, as `NewPOSEngine` leaves it: the type `POSEngine` has no value for the nil
map of a struct literal such as `&dag.POSEngine{}`, on which the Go assignment
`p.Participation[layer] = ...` panics. Statements about an accepted block therefore hold
for engines made by `NewPOSEngine`. -/
def POSEngine.RecordParticipation (p : POSEngine) (layer : Nat) (validatorID : String) :
    POSEngine :=
  let participation :=
    match mapGet p.Participation layer with
    | some _ => p.Participation
    | none => mapSet p.Participation layer []
  let atLayer := (mapGet participation layer).getD []
  if (mapGet atLayer validatorID).getD false = false then
    { p with Participation := mapSet participation layer (mapSet atLayer validatorID true) }
  else { p with Participation := participation }

/-- The loop of `checkLayerStakeThreshold` that sums the stake of the current validators
found in the snapshot. -/
def participatingStake (stake : List (String × Nat)) (validators : List Validator) : Nat :=
  validators.foldl
    (fun acc v => match mapGet stake v.ID with
      | some s => u64 (acc + s)
      | none => acc) 0

/-- `POSEngine.checkLayerStakeThreshold`. The argument `scale total threshold` stands for
the floating-point expression `uint64(float64(total) * threshold)`. The result `none` is
the panic of `p.StakeHistory[layer]` on a negative index. -/
def POSEngine.checkLayerStakeThreshold (scale : Nat → Float64 → Nat) (p : POSEngine)
    (layer : Int) (threshold : Float64) : Option Bool :=
  let layer1 := if layer ≥ (p.StakeHistory.length : Int) then (p.StakeHistory.length : Int) - 1
    else layer
  if layer1 < 0 then none
  else
    match p.StakeHistory[layer1.toNat]? with
    | none => none
    | some stakeSnapshot =>
      let requiredStake := scale stakeSnapshot.Total threshold
      some (decide (participatingStake stakeSnapshot.Stake p.Validators ≥ requiredStake))

/-- The loop `for i := ...; i <= layer; i++` of `CheckSoftFinality`, started at `i`; the
first argument bounds the number of iterations. -/
def softFinalityLoop (scale : Nat → Float64 → Nat) (p : POSEngine) (layer : Int) :
    Nat → Int → Option Bool
  | 0, _ => some true
  | fuel + 1, i =>
    if i ≤ layer then
      match p.checkLayerStakeThreshold scale i p.FinalityConfig.SoftFinalityThreshold with
      | none => none
      | some false => some false
      | some true => softFinalityLoop scale p layer fuel (wrap64 (i + 1))
    else some true

/-- `POSEngine.CheckSoftFinality`; `none` is a panic. The loop runs at most
`layer - start + 2` times before it returns or panics. -/
def POSEngine.CheckSoftFinality (scale : Nat → Float64 → Nat) (p : POSEngine) (layer : Int) :
    Option Bool :=
  if layer < p.FinalityConfig.SoftFinalityLayers then some false
  else
    let start := wrap64 (wrap64 (layer - p.FinalityConfig.SoftFinalityLayers) + 1)
    softFinalityLoop scale p layer ((layer - start).toNat + 2) start

/-- `POSEngine.AdvanceLayer`; `now` is the value of `time.Now().Unix()`. The copy of the
stake map into `newStake` has the entries of the original; `CurrentLayer` counts the calls
and stays below `2^63`. -/
def POSEngine.AdvanceLayer (p : POSEngine) (now : Int) : POSEngine :=
  let p1 := { p with CurrentLayer := p.CurrentLayer + 1, LayerTimestamps := p.LayerTimestamps ++ [now] }
  match p1.StakeHistory.getLast? with
  | some lastStake =>
    let newStake := lastStake.Stake
    { p1 with StakeHistory := p1.StakeHistory ++
        [{ Layer := p1.CurrentLayer, Stake := newStake, Total := lastStake.Total }] }
  | none => p1

/-- `POSEngine.AddValidator`. In the Go code `currentStake := p.StakeHistory[len-1]` copies
the snapshot struct; the assignments `currentStake.Stake = newStake` and
`currentStake.Total += validator.Stake` change that local copy, and `newStake` is a fresh
map, so the stored history is not touched. -/
def POSEngine.AddValidator (p : POSEngine) (validator : Validator) : POSEngine × Option PosError :=
  if p.Validators.any (fun v => v.ID = validator.ID) then
    (p, some (PosError.alreadyExists validator.ID))
  else
    let p1 := { p with Validators := p.Validators ++ [validator] }
    match p1.StakeHistory.getLast? with
    | some currentStake =>
      let newStake := mapSet currentStake.Stake validator.ID validator.Stake
      let _currentStake : StakeSnapshot :=
        { currentStake with Stake := newStake, Total := u64 (currentStake.Total + validator.Stake) }
      (p1, none)
    | none => (p1, none)

/-- Replace the last element of a slice. -/
def setLast {α : Type} (l : List α) (a : α) : List α := l.dropLast ++ [a]

/-- `POSEngine.RemoveValidator`. `delete(currentStake.Stake, validatorID)` acts on the map
shared with the stored snapshot; `currentStake.Total -= stake` changes the local copy of
the struct only. -/
def POSEngine.RemoveValidator (p : POSEngine) (validatorID : String) : POSEngine × Option PosError :=
  if p.Validators.any (fun v => v.ID = validatorID) then
    let p1 := { p with Validators := p.Validators.eraseP (fun v => v.ID = validatorID) }
    match p1.StakeHistory.getLast? with
    | some currentStake =>
      match mapGet currentStake.Stake validatorID with
      | some stake =>
        let _currentStake : StakeSnapshot :=
          { currentStake with Stake := mapDelete currentStake.Stake validatorID,
                              Total := u64 (currentStake.Total + 2 ^ 64 - stake) }
        let stored : StakeSnapshot :=
          { currentStake with Stake := mapDelete currentStake.Stake validatorID }
        ({ p1 with StakeHistory := setLast p1.StakeHistory stored }, none)
      | none => (p1, none)
    | none => (p1, none)
  else (p, some (PosError.notFound validatorID))

/-- The assignment `v.Stake = newStake` on the first validator with the given ID. -/
def setStake (validatorID : String) (newStake : Nat) : List Validator → List Validator
  | [] => []
  | v :: rest =>
    if v.ID = validatorID then { v with Stake := newStake } :: rest
    else v :: setStake validatorID newStake rest

/-- `POSEngine.UpdateValidatorStake`. `currentStake.Stake[validatorID] = newStake` acts on
the map shared with the stored snapshot; the assignment to `currentStake.Total` changes the
local copy of the struct only. -/
def POSEngine.UpdateValidatorStake (p : POSEngine) (validatorID : String) (newStake : Nat) :
    POSEngine × Option PosError :=
  match p.Validators.find? (fun v => v.ID = validatorID) with
  | some v =>
    let oldStake := v.Stake
    let p1 := { p with Validators := setStake validatorID newStake p.Validators }
    match p1.StakeHistory.getLast? with
    | some currentStake =>
      match mapGet currentStake.Stake validatorID with
      | some _ =>
        let _currentStake : StakeSnapshot :=
          { currentStake with Total := u64 (u64 (currentStake.Total + 2 ^ 64 - oldStake) + newStake),
                              Stake := mapSet currentStake.Stake validatorID newStake }
        let stored : StakeSnapshot :=
          { currentStake with Stake := mapSet currentStake.Stake validatorID newStake }
        ({ p1 with StakeHistory := setLast p1.StakeHistory stored }, none)
      | none => (p1, none)
    | none => (p1, none)
  | none => (p, some (PosError.notFound validatorID))

/-- `POSEngine.GetActiveValidators`. -/
def POSEngine.GetActiveValidators (p : POSEngine) : List Validator := p.Validators

/-- `POSEngine.GetTotalStake`. -/
def POSEngine.GetTotalStake (p : POSEngine) : Nat :=
  match p.StakeHistory.getLast? with
  | none => 0
  | some last => last.Total

/-! ## Block validation (`node/consensus/validate_block.go`) -/

/-- The errors built by `fmt.Errorf` in `validate_block.go`, one constructor per message. -/
inductive ValidationError where
  /-- The error "invalid hash: expected %s, got %s". -/
  | invalidHash (expected got : String)
  /-- The error "unknown block producer: %s". -/
  | unknownProducer (producerID : String)
  /-- The error "producer key hash mismatch for %s: expected %s, got %s". -/
  | producerKeyHashMismatch (producerID expected got : String)
  /-- The error "duplicate block: %s". -/
  | duplicateBlock (hash : String)
  /-- The error "missing parent: %s". -/
  | missingParent (parentHash : String)
  /-- The error "timestamp too far in future: %d > %d". -/
  | timestampTooFarInFuture (timestamp maxFutureTime : Int)
  /-- The error "timestamp too far in past: %d < %d". -/
  | timestampTooFarInPast (timestamp minPastTime : Int)
  /-- The error "parent not found: %s". -/
  | parentNotFound (parentHash : String)
  /-- The error "cycle detected: block height %d <= parent height %d". -/
  | cycleDetected (height parentHeight : Int)
  /-- The error "empty signature". -/
  | emptySignature
  /-- The error "invalid signature format: %v". -/
  | invalidSignatureFormat
  /-- The error "signature too short: %d bytes". -/
  | signatureTooShort (length : Nat)
  /-- The error "signature appears corrupted (all zeros)". -/
  | signatureAllZeros
  /-- The error "no active validators". -/
  | noActiveValidators
  /-- The wrapper "BLOCK REJECTED: %v" put around the error of a failed check. -/
  | blockRejected (cause : ValidationError)
deriving DecidableEq, Repr

/-- The verb `%s` of `fmt.Sprintf` applied to a `[]string`: the elements separated by
blanks, in square brackets. -/
def sprintStrings (xs : List String) : String := "[" ++ " ".intercalate xs ++ "]"

/-- `computeBlockHash`. The argument `keccakHex` stands for the lower-case hexadecimal
rendering (`%x`) of the Keccak-256 digest of a string. -/
def computeBlockHash (keccakHex : String → String) (block : Block) : String :=
  if block.Hash = "genesis" then "genesis"
  else
    let hashInput := sprintStrings block.Parents ++ ":" ++ toString block.Height ++ ":" ++
      toString block.BlueScore ++ ":" ++ toString block.Timestamp ++ ":" ++
      block.SelectedParent ++ ":" ++ block.ProducerID ++ ":" ++ block.ProducerPubKeyHash
    (keccakHex hashInput).take 16

/-- `validateHash`. -/
def validateHash (keccakHex : String → String) (block : Block) : Except ValidationError Unit :=
  let expectedHash := computeBlockHash keccakHex block
  if block.Hash ≠ expectedHash then Except.error (ValidationError.invalidHash expectedHash block.Hash)
  else Except.ok ()

/-- `validateProducer`. -/
def validateProducer (block : Block) (posEngine : POSEngine) : Except ValidationError Unit :=
  if posEngine.ValidatorExists block.ProducerID = false then
    Except.error (ValidationError.unknownProducer block.ProducerID)
  else
    let expectedHash := posEngine.GetValidatorPQHash block.ProducerID
    if block.ProducerPubKeyHash ≠ expectedHash then
      Except.error (ValidationError.producerKeyHashMismatch block.ProducerID expectedHash
        block.ProducerPubKeyHash)
    else Except.ok ()

/-- The loop of `validateParents` over `block.Parents`. -/
def checkParentsExist (dag : GhostDAG) : List String → Except ValidationError Unit
  | [] => Except.ok ()
  | parentHash :: rest =>
    match dag.GetBlock parentHash with
    | none => Except.error (ValidationError.missingParent parentHash)
    | some _ => checkParentsExist dag rest

/-- `validateParents`. -/
def validateParents (block : Block) (dag : GhostDAG) : Except ValidationError Unit :=
  match dag.GetBlock block.Hash with
  | some _ => Except.error (ValidationError.duplicateBlock block.Hash)
  | none => checkParentsExist dag block.Parents

/-- The loop of `validateNoCycles` over `block.Parents`. -/
def checkParentHeights (block : Block) (dag : GhostDAG) : List String → Except ValidationError Unit
  | [] => Except.ok ()
  | parentHash :: rest =>
    match dag.GetBlock parentHash with
    | none => Except.error (ValidationError.parentNotFound parentHash)
    | some parentBlock =>
      if block.Height ≤ parentBlock.Height then
        Except.error (ValidationError.cycleDetected block.Height parentBlock.Height)
      else checkParentHeights block dag rest

/-- `validateNoCycles`. -/
def validateNoCycles (block : Block) (dag : GhostDAG) : Except ValidationError Unit :=
  checkParentHeights block dag block.Parents

/-- `validateTimestamp`; `currentTime` is the value of `time.Now().Unix()`. -/
def validateTimestamp (currentTime : Int) (block : Block) : Except ValidationError Unit :=
  let maxFutureTime := currentTime + 300
  let minPastTime := currentTime - 3600
  if block.Timestamp > maxFutureTime then
    Except.error (ValidationError.timestampTooFarInFuture block.Timestamp maxFutureTime)
  else if block.Timestamp < minPastTime then
    Except.error (ValidationError.timestampTooFarInPast block.Timestamp minPastTime)
  else Except.ok ()

/-- The value of a hexadecimal digit (`fromHexChar` of `encoding/hex`). -/
def fromHexChar (c : Char) : Option Nat :=
  if '0'.toNat ≤ c.toNat ∧ c.toNat ≤ '9'.toNat then some (c.toNat - '0'.toNat)
  else if 'a'.toNat ≤ c.toNat ∧ c.toNat ≤ 'f'.toNat then some (c.toNat - 'a'.toNat + 10)
  else if 'A'.toNat ≤ c.toNat ∧ c.toNat ≤ 'F'.toNat then some (c.toNat - 'A'.toNat + 10)
  else none

/-- `hex.DecodeString` on the characters of a string: the decoded bytes, or `none` when
the call returns an error (a character that is no hexadecimal digit, or an odd length). -/
def hexDecode : List Char → Option (List Nat)
  | [] => some []
  | [_] => none
  | a :: b :: rest =>
    match fromHexChar a, fromHexChar b, hexDecode rest with
    | some x, some y, some bytes => some ((16 * x + y) :: bytes)
    | _, _, _ => none

/-- `validateSignature` (the `pqValidator` argument is not used by the Go code). -/
def validateSignature (block : Block) : Except ValidationError Unit :=
  if block.Signature = "" then Except.error ValidationError.emptySignature
  else
    match hexDecode block.Signature.data with
    | none => Except.error ValidationError.invalidSignatureFormat
    | some signatureBytes =>
      if signatureBytes.length < 100 then
        Except.error (ValidationError.signatureTooShort signatureBytes.length)
      else if signatureBytes.any (fun b => b ≠ 0) then Except.ok ()
      else Except.error ValidationError.signatureAllZeros

/-- `validateAuthorization`; the outer `none` is a panic inside `SelectValidator`. -/
def validateAuthorization (unixNano : Int) (posEngine : POSEngine) :
    Option (Except ValidationError Unit) :=
  match posEngine.SelectValidator unixNano with
  | none => none
  | some none => some (Except.error ValidationError.noActiveValidators)
  | some (some _) => some (Except.ok ())

/-- `ValidateBlock`. `currentTime` and `unixNano` are the two readings of the clock made
by the call. The result is `none` for a panic, an error for a rejected block, and for an
accepted block the engine after `RecordParticipation(uint64(block.Height), block.ProducerID)`. -/
def ValidateBlock (keccakHex : String → String) (currentTime unixNano : Int) (block : Block)
    (dag : GhostDAG) (posEngine : POSEngine) : Option (Except ValidationError POSEngine) :=
  match validateHash keccakHex block with
  | Except.error err => some (Except.error (ValidationError.blockRejected err))
  | Except.ok _ =>
    match validateProducer block posEngine with
    | Except.error err => some (Except.error (ValidationError.blockRejected err))
    | Except.ok _ =>
      match validateParents block dag with
      | Except.error err => some (Except.error (ValidationError.blockRejected err))
      | Except.ok _ =>
        match validateTimestamp currentTime block with
        | Except.error err => some (Except.error (ValidationError.blockRejected err))
        | Except.ok _ =>
          match validateNoCycles block dag with
          | Except.error err => some (Except.error (ValidationError.blockRejected err))
          | Except.ok _ =>
            match validateSignature block with
            | Except.error err => some (Except.error (ValidationError.blockRejected err))
            | Except.ok _ =>
              match validateAuthorization unixNano posEngine with
              | none => none
              | some (Except.error err) => some (Except.error (ValidationError.blockRejected err))
              | some (Except.ok _) =>
                let layer := (block.Height % 2 ^ 64).toNat
                some (Except.ok (posEngine.RecordParticipation layer block.ProducerID))

/-- A sequence of `AddBlock` calls, all of which succeed (`none` as soon as one call
returns an error). -/
def GhostDAG.AddBlocks (gd : GhostDAG) : List Block → Option GhostDAG
  | [] => some gd
  | block :: rest =>
    match gd.AddBlock block with
    | (gd1, none) => GhostDAG.AddBlocks gd1 rest
    | (_, some _) => none

/-- The parent/height invariant of the block graph: every parent of every stored block is
itself stored and has a strictly smaller `Height`. -/
def GhostDAG.ParentsBelow (gd : GhostDAG) : Prop :=
  ∀ h b, gd.GetBlock h = some b →
    ∀ p ∈ b.Parents, ∃ pb, gd.GetBlock p = some pb ∧ pb.Height < b.Height

/-- The sum of the values of a stake map. -/
def stakeSum (m : List (String × Nat)) : Nat := (m.map Prod.snd).sum

/-- A call of one of the state-changing methods of the engine, with its arguments
(`now` is the clock reading of `AdvanceLayer`). -/
inductive EngineCall where
  | AddValidator (validator : Validator)
  | RemoveValidator (validatorID : String)
  | UpdateValidatorStake (validatorID : String) (newStake : Nat)
  | AdvanceLayer (now : Int)
  | RecordParticipation (layer : Nat) (validatorID : String)
deriving DecidableEq, Repr

/-- The engine after one call. -/
def POSEngine.call (p : POSEngine) : EngineCall → POSEngine
  | EngineCall.AddValidator validator => (p.AddValidator validator).1
  | EngineCall.RemoveValidator validatorID => (p.RemoveValidator validatorID).1
  | EngineCall.UpdateValidatorStake validatorID newStake =>
    (p.UpdateValidatorStake validatorID newStake).1
  | EngineCall.AdvanceLayer now => p.AdvanceLayer now
  | EngineCall.RecordParticipation layer validatorID => p.RecordParticipation layer validatorID

/-- The engine after a sequence of calls. -/
def POSEngine.calls (p : POSEngine) (cs : List EngineCall) : POSEngine := cs.foldl POSEngine.call p

/-- The calls that neither remove a validator nor change a stake: `AddValidator`,
`AdvanceLayer` and `RecordParticipation`. -/
def EngineCall.keepsStake : EngineCall → Bool
  | EngineCall.AddValidator _ => true
  | EngineCall.AdvanceLayer _ => true
  | EngineCall.RecordParticipation _ _ => true
  | EngineCall.RemoveValidator _ => false
  | EngineCall.UpdateValidatorStake _ _ => false

/-! ## Transaction validator and mempool (`node/mempool`) -/

/-- The struct `AccountState`. `Balance` is dereferenced without a nil test by the
validator; it is a big integer here. -/
structure AccountState where
  Balance : Int
  Nonce : Nat
  Address : String
deriving DecidableEq, Repr, Inhabited

/-- The struct `TransactionValidator` (without its lock); `minGasPrice` is a big integer,
`maxGasLimit` a `uint64`. -/
structure TransactionValidator where
  accountStates : List (String × AccountState)
  minGasPrice : Int
  maxGasLimit : Nat
deriving DecidableEq, Repr, Inhabited

/-- The errors built by `fmt.Errorf` in `transaction_validator.go` and `mempool.go`, one
constructor per message. -/
inductive TxError where
  /-- The error "from address is empty". -/
  | fromEmpty
  /-- The error "to address is empty". -/
  | toEmpty
  /-- The error "cannot send transaction to self". -/
  | sendToSelf
  /-- The error "invalid transaction value". -/
  | invalidValue
  /-- The error "transaction value cannot be zero". -/
  | zeroValue
  /-- The error "transaction hash is empty". -/
  | hashEmpty
  /-- The error "invalid gas price". -/
  | invalidGasPrice
  /-- The error "gas price %s below minimum %s". -/
  | gasPriceBelowMinimum (gasPrice minGasPrice : Int)
  /-- The error "gas limit cannot be zero". -/
  | gasLimitZero
  /-- The error "gas limit %d exceeds maximum %d". -/
  | gasLimitExceedsMaximum (gasLimit maxGasLimit : Nat)
  /-- The error "account %s not found for gas validation". -/
  | accountNotFoundForGas (address : String)
  /-- The error "insufficient balance: have %s, need %s (value: %s, gas: %s)". -/
  | insufficientBalance (balance totalCost value gasCost : Int)
  /-- The error "account %s not found". -/
  | accountNotFound (address : String)
  /-- The error "nonce %d is too low, current nonce is %d". -/
  | nonceTooLow (nonce current : Nat)
  /-- The error "nonce %d is too far ahead, current nonce is %d". -/
  | nonceTooFarAhead (nonce current : Nat)
  /-- The wrapper "basic validation failed: %v". -/
  | basicValidationFailed (cause : TxError)
  /-- The wrapper "gas validation failed: %v". -/
  | gasValidationFailed (cause : TxError)
  /-- The wrapper "account state validation failed: %v". -/
  | accountStateValidationFailed (cause : TxError)
  /-- The wrapper "signature validation failed: %v". -/
  | signatureValidationFailed (cause : TxError)
  /-- The error "mempool is full (max size: %d)". -/
  | mempoolFull (maxSize : Int)
  /-- The wrapper "transaction validation failed: %v". -/
  | transactionValidationFailed (cause : TxError)
deriving DecidableEq, Repr

/-- `NewTransactionValidator(minGasPrice, maxGasLimit)`. -/
def NewTransactionValidator (minGasPrice : Int) (maxGasLimit : Nat) : TransactionValidator :=
  { accountStates := [], minGasPrice := minGasPrice, maxGasLimit := maxGasLimit }

/-- `TransactionValidator.SetAccountState`. -/
def TransactionValidator.SetAccountState (tv : TransactionValidator) (address : String)
    (balance : Int) (nonce : Nat) : TransactionValidator :=
  { tv with accountStates :=
      mapSet tv.accountStates address { Balance := balance, Nonce := nonce, Address := address } }

/-- `TransactionValidator.validateBasicFields`. -/
def TransactionValidator.validateBasicFields (_tv : TransactionValidator) (tx : Transaction) :
    Except TxError Unit :=
  if tx.From = "" then Except.error TxError.fromEmpty
  else if tx.To = "" then Except.error TxError.toEmpty
  else if tx.From = tx.To then Except.error TxError.sendToSelf
  else
    match tx.Value with
    | none => Except.error TxError.invalidValue
    | some value =>
      if value < 0 then Except.error TxError.invalidValue
      else if value = 0 then Except.error TxError.zeroValue
      else if tx.Hash = "" then Except.error TxError.hashEmpty
      else Except.ok ()

/-- `TransactionValidator.validateGas`. The conversion `int64(tx.GasLimit)` wraps around
from `2^63` on; `value` is the dereferenced `tx.Value`, which is not nil after
`validateBasicFields` (a nil `tx.Value` makes `Add` panic in the Go code, `none` here). -/
def TransactionValidator.validateGas (tv : TransactionValidator) (tx : Transaction) :
    Option (Except TxError Unit) :=
  match tx.GasPrice with
  | none => some (Except.error TxError.invalidGasPrice)
  | some gasPrice =>
    if gasPrice ≤ 0 then some (Except.error TxError.invalidGasPrice)
    else if gasPrice < tv.minGasPrice then
      some (Except.error (TxError.gasPriceBelowMinimum gasPrice tv.minGasPrice))
    else if tx.GasLimit = 0 then some (Except.error TxError.gasLimitZero)
    else if tx.GasLimit > tv.maxGasLimit then
      some (Except.error (TxError.gasLimitExceedsMaximum tx.GasLimit tv.maxGasLimit))
    else
      let gasCost := gasPrice * wrap64 (tx.GasLimit : Int)
      match mapGet tv.accountStates tx.From with
      | none => some (Except.error (TxError.accountNotFoundForGas tx.From))
      | some account =>
        match tx.Value with
        | none => none
        | some value =>
          let totalCost := value + gasCost
          if account.Balance < totalCost then
            some (Except.error (TxError.insufficientBalance account.Balance totalCost value gasCost))
          else some (Except.ok ())

/-- `TransactionValidator.validateAccountState`; `account.Nonce+10` is a `uint64` sum. -/
def TransactionValidator.validateAccountState (tv : TransactionValidator) (tx : Transaction) :
    Except TxError Unit :=
  match mapGet tv.accountStates tx.From with
  | none => Except.error (TxError.accountNotFound tx.From)
  | some account =>
    if tx.Nonce < account.Nonce then Except.error (TxError.nonceTooLow tx.Nonce account.Nonce)
    else if tx.Nonce > u64 (account.Nonce + 10) then
      Except.error (TxError.nonceTooFarAhead tx.Nonce account.Nonce)
    else Except.ok ()

/-- `TransactionValidator.validateSignature`: a placeholder that returns `nil`. -/
def TransactionValidator.validateSignature (_tv : TransactionValidator) (_tx : Transaction) :
    Except TxError Unit :=
  Except.ok ()

/-- `TransactionValidator.ValidateTransaction`; `none` is a panic. -/
def TransactionValidator.ValidateTransaction (tv : TransactionValidator) (tx : Transaction) :
    Option (Except TxError Unit) :=
  match tv.validateBasicFields tx with
  | Except.error err => some (Except.error (TxError.basicValidationFailed err))
  | Except.ok _ =>
    match tv.validateGas tx with
    | none => none
    | some (Except.error err) => some (Except.error (TxError.gasValidationFailed err))
    | some (Except.ok _) =>
      match tv.validateAccountState tx with
      | Except.error err => some (Except.error (TxError.accountStateValidationFailed err))
      | Except.ok _ =>
        match tv.validateSignature tx with
        | Except.error err => some (Except.error (TxError.signatureValidationFailed err))
        | Except.ok _ => some (Except.ok ())

/-- The struct `Mempool` (without its lock); `maxSize` is an `int`. -/
structure Mempool where
  txs : List (String × Transaction)
  validator : TransactionValidator
  maxSize : Int
deriving DecidableEq, Repr, Inhabited

/-- `NewMempool(maxSize)`: minimum gas price 1 gwei, maximum gas limit 1M. -/
def NewMempool (maxSize : Int) : Mempool :=
  { txs := [], validator := NewTransactionValidator 1000000000 1000000, maxSize := maxSize }

/-- `Mempool.Add`: the pool after the call and the returned error, if any; `none` is a
panic inside `ValidateTransaction`. -/
def Mempool.Add (m : Mempool) (tx : Transaction) : Option (Mempool × Option TxError) :=
  if (m.txs.length : Int) ≥ m.maxSize then some (m, some (TxError.mempoolFull m.maxSize))
  else
    match mapGet m.txs tx.Hash with
    | some _ => some (m, none)
    | none =>
      match m.validator.ValidateTransaction tx with
      | none => none
      | some (Except.error err) => some (m, some (TxError.transactionValidationFailed err))
      | some (Except.ok _) => some ({ m with txs := mapSet m.txs tx.Hash tx }, none)

/-- `Mempool.AddWithAccountState`. -/
def Mempool.AddWithAccountState (m : Mempool) (tx : Transaction) (fromBalance : Int)
    (fromNonce : Nat) : Option (Mempool × Option TxError) :=
  Mempool.Add { m with validator := m.validator.SetAccountState tx.From fromBalance fromNonce } tx

/-- `Mempool.Size`. -/
def Mempool.Size (m : Mempool) : Nat := m.txs.length

/-- The pending transactions (the values of the map `m.txs`). -/
def Mempool.pending (m : Mempool) : List Transaction := m.txs.map Prod.snd

/-- The `less` function that `Pop` hands to `sort.Slice`:
`txs[i].GasPrice.Cmp(txs[j].GasPrice) > 0`. Both prices are dereferenced; the value chosen
for a nil price plays no role for pools whose transactions have a gas price. -/
def gasPriceLess (a b : Transaction) : Bool :=
  match a.GasPrice, b.GasPrice with
  | some x, some y => decide (x > y)
  | _, _ => false

/-- The `less` function that `PopByNonce` hands to `sort.Slice`. -/
def nonceLess (a b : Transaction) : Bool := decide (a.Nonce < b.Nonce)

/-- What `sort.Slice(xs, less)` of the Go standard library guarantees about the slice
`sorted` it leaves behind: it is a rearrangement of `xs` in which no element is `less`
than an element before it. The order of elements that `less` does not separate is not
specified (the sort is not stable). -/
def SortSliceResult {α : Type} (less : α → α → Bool) (xs sorted : List α) : Prop :=
  sorted.Perm xs ∧ sorted.Pairwise (fun a b => less b a = false)

/-- `delete(m.txs, tx.Hash)` for each transaction of a slice, in order. -/
def deleteAll (txs : List (String × Transaction)) (removed : List Transaction) :
    List (String × Transaction) :=
  removed.foldl (fun t tx => mapDelete t tx.Hash) txs

/-- `Mempool.Pop(max)`: the pool after the call and the returned slice. `sorted` is the
slice `txs` after the `range` over the map and `sort.Slice`. -/
def Mempool.Pop (m : Mempool) (max : Int) (sorted : List Transaction) :
    Mempool × List Transaction :=
  if max ≤ 0 ∨ m.txs.length = 0 then (m, [])
  else
    let count : Int := if (m.txs.length : Int) < max then (m.txs.length : Int) else max
    let result := sorted.take count.toNat
    ({ m with txs := deleteAll m.txs result }, result)

/-- `Mempool.PopByNonce(from, max)`. `sorted` is the slice `accountTxs` (the pending
transactions of the account) after `sort.Slice`; `none` is the panic of `make` with a
negative capacity. -/
def Mempool.PopByNonce (m : Mempool) (_fromAddress : String) (max : Int)
    (sorted : List Transaction) : Option (Mempool × List Transaction) :=
  let count : Int := if (sorted.length : Int) < max then (sorted.length : Int) else max
  if count < 0 then none
  else
    let result := sorted.take count.toNat
    some ({ m with txs := deleteAll m.txs result }, result)

/-- `Mempool.RemoveTransactions`. -/
def Mempool.RemoveTransactions (m : Mempool) (txHashes : List String) : Mempool :=
  { m with txs := txHashes.foldl (fun t hash => mapDelete t hash) m.txs }

/-- `Mempool.UpdateAccountState`. -/
def Mempool.UpdateAccountState (m : Mempool) (address : String) (balance : Int) (nonce : Nat) :
    Mempool :=
  { m with validator := m.validator.SetAccountState address balance nonce }

/-- The representation invariant of the pool map, which `Add` is the only method to write:
every key occurs once and is the `Hash` of the transaction stored under it. -/
def Mempool.WellFormed (m : Mempool) : Prop :=
  (m.txs.map Prod.fst).Nodup ∧ ∀ kv ∈ m.txs, kv.1 = kv.2.Hash

/-- A call of one of the methods of the mempool that change the pool, with its arguments.
For `Pop` and `PopByNonce` the argument `sorted` is the slice left behind by `sort.Slice`
in that call. -/
inductive MempoolCall where
  | Add (tx : Transaction)
  | AddWithAccountState (tx : Transaction) (fromBalance : Int) (fromNonce : Nat)
  | Pop (max : Int) (sorted : List Transaction)
  | PopByNonce (fromAddress : String) (max : Int) (sorted : List Transaction)
  | RemoveTransactions (txHashes : List String)
deriving DecidableEq, Repr

/-- The pool after one call; `none` when the call panics. -/
def Mempool.call (m : Mempool) : MempoolCall → Option Mempool
  | MempoolCall.Add tx => (m.Add tx).map Prod.fst
  | MempoolCall.AddWithAccountState tx fromBalance fromNonce =>
    (m.AddWithAccountState tx fromBalance fromNonce).map Prod.fst
  | MempoolCall.Pop max sorted => some (m.Pop max sorted).1
  | MempoolCall.PopByNonce fromAddress max sorted =>
    (m.PopByNonce fromAddress max sorted).map Prod.fst
  | MempoolCall.RemoveTransactions txHashes => some (m.RemoveTransactions txHashes)

/-- The pool after a sequence of calls, none of which panics. -/
def Mempool.calls (m : Mempool) : List MempoolCall → Option Mempool
  | [] => some m
  | c :: rest =>
    match m.call c with
    | none => none
    | some m1 => Mempool.calls m1 rest

/-- The body of the loop of `ValidateDAG` for one entry of the block map: the error it
returns, if any. -/
def validateDAGEntry (gd : GhostDAG) (hash : String) (block : Block) : Option DagError :=
  match block.Parents.find? (fun parent => (mapGet gd.blocks parent).isNone) with
  | some parent => some (DagError.nonExistentParent hash parent)
  | none =>
    if block.SelectedParent ≠ "" then
      if block.Parents.any (fun parent => parent = block.SelectedParent) then none
      else some (DagError.selectedParentNotInParents hash block.SelectedParent)
    else none

/-- `GhostDAG.ValidateDAG`: the returned error, `none` for `nil`. `iter` is the order in
which `range gd.blocks` yields the entries of the map during this call. -/
def GhostDAG.ValidateDAG (gd : GhostDAG) : List (String × Block) → Option DagError
  | [] => none
  | (hash, block) :: rest =>
    match validateDAGEntry gd hash block with
    | some err => some err
    | none => GhostDAG.ValidateDAG gd rest

/-- The PoS engine after a call of `ValidateBlock` with the given result. The checks of
`ValidateBlock` only read the engine; `RecordParticipation`, the one statement that writes
to it, runs after all of them have passed. -/
def engineAfterValidateBlock (posEngine : POSEngine) :
    Except ValidationError POSEngine → POSEngine
  | Except.ok posEngine1 => posEngine1
  | Except.error _ => posEngine

/-! ## Block producer (`node/producer/block_producer.go`) -/

/-- The fields of type `int` of the struct `BlockProducerConfig`. -/
structure BlockProducerConfig where
  MaxBlockSize : Int
  MaxTxsPerBlock : Int
  MinTxsPerBlock : Int
  MaxGasLimit : Int
  MinGasLimit : Int
deriving DecidableEq, Repr, Inhabited

/-- `returnTransactionsToMempool`, and the loop
`for _, remainingTx := range ... { bp.mempool.Add(remainingTx) }`: the transactions are
added one by one, the returned error being at most logged; `none` is a panic inside
`Add`. -/
def returnTransactionsToMempool (m : Mempool) : List Transaction → Option Mempool
  | [] => some m
  | tx :: rest =>
    match m.Add tx with
    | none => none
    | some (m1, _) => returnTransactionsToMempool m1 rest

/-- The variables of the loop of `selectAndValidateTransactions`, together with the
mempool; `totalGas` is a `uint64`, `processedNonces` a map. -/
structure Selection where
  mempool : Mempool
  validTxs : List Transaction
  totalGas : Nat
  processedNonces : List (String × Nat)
deriving DecidableEq, Repr, Inhabited

/-- The loop `for _, tx := range candidateTxs` of `selectAndValidateTransactions` on the
candidates that are still to be visited; `candidateTxs` is the whole slice, of which the
`break` branch hands `candidateTxs[len(validTxs):]` back to the mempool. The sum
`totalGas+tx.GasLimit` is a `uint64` sum, `uint64(bp.config.MaxGasLimit)` a conversion of
an `int`; `none` is a panic. -/
def selectionLoop (config : BlockProducerConfig) (candidateTxs : List Transaction) :
    List Transaction → Selection → Option Selection
  | [], s => some s
  | tx :: rest, s =>
    if (match mapGet s.processedNonces tx.From with
        | some lastNonce => decide (tx.Nonce ≤ lastNonce)
        | none => false) = true then
      selectionLoop config candidateTxs rest s
    else if config.MaxGasLimit > 0 ∧
        u64 (s.totalGas + tx.GasLimit) > (config.MaxGasLimit % 2 ^ 64).toNat then
      match returnTransactionsToMempool s.mempool (candidateTxs.drop s.validTxs.length) with
      | none => none
      | some m => some { s with mempool := m }
    else
      match s.mempool.validator.ValidateTransaction tx with
      | none => none
      | some (Except.error _) => selectionLoop config candidateTxs rest s
      | some (Except.ok _) =>
        selectionLoop config candidateTxs rest
          { s with
            validTxs := s.validTxs ++ [tx]
            totalGas := u64 (s.totalGas + tx.GasLimit)
            processedNonces := mapSet s.processedNonces tx.From tx.Nonce }

/-- `BlockProducer.selectAndValidateTransactions`: the mempool after the call and the
returned slice (the returned error is always `nil`); `none` is a panic. `sorted` is the
slice that `sort.Slice` leaves behind inside `Pop`. The argument `validator` is not used
by the Go code. -/
def selectAndValidateTransactions (config : BlockProducerConfig) (m : Mempool)
    (sorted : List Transaction) : Option (Mempool × List Transaction) :=
  if m.Size = 0 then some (m, [])
  else
    let popped := m.Pop config.MaxTxsPerBlock sorted
    let candidateTxs := popped.2
    if candidateTxs.length = 0 then some (popped.1, [])
    else
      match selectionLoop config candidateTxs candidateTxs
          { mempool := popped.1, validTxs := [], totalGas := 0, processedNonces := [] } with
      | none => none
      | some s =>
        if s.validTxs.length > 0 ∧ (s.validTxs.length : Int) < config.MinTxsPerBlock then
          match returnTransactionsToMempool s.mempool s.validTxs with
          | none => none
          | some m2 => some (m2, [])
        else some (s.mempool, s.validTxs)

/-- The `less` function that `SortByHeight` hands to `sort.Slice`. -/
def heightLess (a b : Block) : Bool :=
  if a.Height ≠ b.Height then decide (a.Height < b.Height) else strLess a.Hash b.Hash

/-- The slice `tips` of `GetTips` before `SortByHeight`: the blocks, in the order `iter` of
the second `range` over the map, whose hash is not marked in `hasChildren`; a hash is
marked when it is a parent of a stored block. -/
def GhostDAG.unsortedTips (gd : GhostDAG) (iter : List Block) : List Block :=
  iter.filter (fun block => ¬ (gd.stored.any (fun child => child.Parents.contains block.Hash)))

/-- What `GetTips` returns: `tips` is a result of `SortByHeight` on the unsorted slice. -/
def GhostDAG.GetTipsResult (gd : GhostDAG) (iter tips : List Block) : Prop :=
  SortSliceResult heightLess (gd.unsortedTips iter) tips

/-- The bytes `[]byte(s)` of a string. -/
def stringBytes (s : String) : List Nat :=
  s.data.flatMap (fun c => (String.utf8EncodeChar c).map (fun b => b.toNat))

/-- `prepareEnhancedBlockData`; `dataTime` is the reading of `time.Now().Unix()`. -/
def prepareEnhancedBlockData (gd : GhostDAG) (transactions : List Transaction)
    (parents : List String) (totalGas : Nat) (dataTime : Int) : List Nat :=
  stringBytes ("height:" ++ toString (gd.GetBlockCount + 1) ++ ",parents:" ++
    sprintStrings parents ++ ",timestamp:" ++ toString dataTime ++ ",txs:" ++
    toString transactions.length ++ ",gas:" ++ toString totalGas)

/-- `POSEngine.SignBlock`: the mock signature of 2420 bytes; `none` is the panic of
`i%len(blockData)` on empty data. The engine, the validator and the key are not read. -/
def SignBlock (blockData : List Nat) : Option (List Nat) :=
  if blockData.length = 0 then none
  else some ((List.range 2420).map
    (fun i => (i * 7 + blockData.getD (i % blockData.length) 0) % 256))

/-- The hexadecimal digit of a value below 16. -/
def hexDigit (n : Nat) : Char := "0123456789abcdef".data.getD n '0'

/-- `hex.EncodeToString`. -/
def hexEncode (bytes : List Nat) : String :=
  String.mk (bytes.flatMap (fun b => [hexDigit (b / 16), hexDigit (b % 16)]))

/-- `generateBlockHash` of the producer; `random` stands for the 32 bytes that `rand.Read`
writes. The argument `data` is not used by the Go code. -/
def generateBlockHash (random : List Nat) : String :=
  "block_" ++ (hexEncode random).take 16

/-- `BlockProducer.createEnhancedBlock`. `tips` is the slice returned by `GetTips`,
`random` the bytes drawn by `generateBlockHash`, `dataTime` and `now` the two readings of
`time.Now().Unix()`; `none` is a panic. -/
def createEnhancedBlock (gd : GhostDAG) (tips : List Block) (random : List Nat)
    (dataTime now : Int) (transactions : List Transaction) (validator : Validator)
    (totalGas : Nat) : Option Block :=
  let tipHashes := tips.map (fun tip => tip.Hash)
  let parents := if tipHashes.length = 0 then ["genesis"] else tipHashes
  let blockData := prepareEnhancedBlockData gd transactions parents totalGas dataTime
  match SignBlock blockData with
  | none => none
  | some signature =>
    some { Hash := generateBlockHash random
           Parents := parents
           Height := ((gd.GetBlockCount + 1 : Nat) : Int)
           BlueScore := 1
           SelectedParent := ""
           BlueWork := 0
           Timestamp := now
           Signature := hexEncode signature
           Transactions := transactions
           ProducerID := validator.ID
           ProducerPubKeyHash := validator.PQPubKeyHash }

/-- The sum `totalGas` of `createBlockWithTransactions` and `createBlock`, a `uint64`. -/
def totalGasOf (transactions : List Transaction) : Nat :=
  transactions.foldl (fun totalGas tx => u64 (totalGas + tx.GasLimit)) 0

/-- `BlockProducer.createBlockWithTransactions` (and the legacy `createBlock`, which has
the same body). -/
def createBlockWithTransactions (gd : GhostDAG) (tips : List Block) (random : List Nat)
    (dataTime now : Int) (transactions : List Transaction) (validator : Validator) :
    Option Block :=
  createEnhancedBlock gd tips random dataTime now transactions validator
    (totalGasOf transactions)

/-- The errors built by `fmt.Errorf` in `block_producer.go`. -/
inductive ProducerError where
  /-- The error "no validator available". -/
  | noValidatorAvailable
  /-- The error "failed to add block to DAG: %v". -/
  | failedToAddBlock (cause : DagError)
  /-- The wrapper "failed to submit block for voting: %v". -/
  | failedToSubmit (cause : ProducerError)
deriving DecidableEq, Repr

/-- `BlockProducer.submitBlockForVoting` on the graph and the engine: the block is handed
to `AddBlock` as it is, and the layer is advanced when the insertion succeeded (`layerTime`
is the clock reading of `AdvanceLayer`). The writes to the block store and to the peers
do not touch the graph. -/
def submitBlockForVoting (gd : GhostDAG) (posEngine : POSEngine) (layerTime : Int)
    (block : Block) : (GhostDAG × POSEngine) × Option ProducerError :=
  match gd.AddBlock block with
  | (gd1, some err) => ((gd1, posEngine), some (ProducerError.failedToAddBlock err))
  | (gd1, none) => ((gd1, posEngine.AdvanceLayer layerTime), none)

/-! ## Past and anticone (`core/dag/ghostdag.go`) -/

/-- The loop `for len(queue) > 0` of `getPast`. `past` lists the keys of the map `past`
(every key is mapped to `true`), `queue` is the slice `queue`. `fuel` bounds the number of
iterations; `none` means that the bound was reached with a non-empty queue. -/
def getPastLoop (gd : GhostDAG) : Nat → List String → List String → Option (List String)
  | _, past, [] => some past
  | 0, _, _ :: _ => none
  | fuel + 1, past, current :: queue =>
    if current ∈ past then getPastLoop gd fuel past queue
    else
      match mapGet gd.blocks current with
      | none => getPastLoop gd fuel (current :: past) queue
      | some block =>
        getPastLoop gd fuel (current :: past)
          (queue ++ block.Parents.filter (fun parent => parent ∉ current :: past))

/-- `GhostDAG.getPast`: the keys of the returned map. Every iteration of the loop takes
one element from the queue, and the queue receives `blockHash` and, once per stored
hash, the parents of the block stored there; the fuel is that number of elements. -/
def GhostDAG.getPast (gd : GhostDAG) (blockHash : String) : Option (List String) :=
  getPastLoop gd (1 + (gd.blocks.map (fun kv => kv.2.Parents.length)).sum) [] [blockHash]

/-- `GhostDAG.isInPast`: the lookup `past[blockHash]`. -/
def GhostDAG.isInPast (_gd : GhostDAG) (blockHash : String) (past : List String) : Bool :=
  decide (blockHash ∈ past)

/-- `GhostDAG.GetAnticone`. `iter` is the order in which `range gd.blocks` yields the
stored blocks; the outer `none` means that `getPast` ran out of fuel. -/
def GhostDAG.GetAnticone (gd : GhostDAG) (iter : List Block) (blockHash : String) :
    Option (Except DagError (List Block)) :=
  match mapGet gd.blocks blockHash with
  | none => some (Except.error (DagError.notFound blockHash))
  | some _ =>
    match gd.getPast blockHash with
    | none => none
    | some past =>
      some (Except.ok (iter.filter (fun candidate =>
        candidate.Hash ≠ blockHash ∧ gd.isInPast candidate.Hash past = false)))

/-- The second loop of `CheckHardFinality`, over the indices `i` that are still to be
visited; `none` is a panic inside `checkLayerStakeThreshold`. -/
def hardFinalityLoop (scale : Nat → Float64 → Nat) (p : POSEngine) : List Nat → Option Bool
  | [] => some true
  | i :: rest =>
    match p.checkLayerStakeThreshold scale (i : Int) p.FinalityConfig.HardFinalityThreshold with
    | none => none
    | some false => some false
    | some true => hardFinalityLoop scale p rest

/-- `POSEngine.CheckHardFinality`; `currentTime` is the value of `time.Now().Unix()`. The
first loop counts, from the last timestamp backwards, the timestamps `t` with
`currentTime - t <= epochWindow` (an `int64` difference) up to the first one that is
older; `none` is a panic. -/
def POSEngine.CheckHardFinality (scale : Nat → Float64 → Nat) (p : POSEngine)
    (currentTime : Int) : Option Bool :=
  let epochWindow := p.FinalityConfig.HardFinalityEpochWindow
  let validLayers := (p.LayerTimestamps.reverse.takeWhile
    (fun t => decide (wrap64 (currentTime - t) ≤ epochWindow))).length
  if validLayers = 0 then some false
  else
    hardFinalityLoop scale p
      ((List.range validLayers).map (fun k => p.LayerTimestamps.length - validLayers + k))

/-! ## Selected-parent chain and blue score (`core/dag/ghostdag.go`) -/

/-- The loop `for current != ""` of `GetSelectedParentChain`, with the chain built so far
(`append([]*Block{block}, chain...)` puts the block in front). `fuel` bounds the number of
iterations; `none` means that the bound was reached while the loop was still running. -/
def selectedParentChainLoop (gd : GhostDAG) :
    Nat → String → List Block → Option (Except DagError (List Block))
  | 0, current, chain => if current = "" then some (Except.ok chain) else none
  | fuel + 1, current, chain =>
    if current = "" then some (Except.ok chain)
    else
      match mapGet gd.blocks current with
      | none => some (Except.error (DagError.notFound current))
      | some block => selectedParentChainLoop gd fuel block.SelectedParent (block :: chain)

/-- `GhostDAG.GetSelectedParentChain`. -/
def GhostDAG.GetSelectedParentChain (gd : GhostDAG) (fuel : Nat) (blockHash : String) :
    Option (Except DagError (List Block)) :=
  selectedParentChainLoop gd fuel blockHash []

/-- `GhostDAG.CalculateBlueScore`. `fuel` bounds the depth of the recursion; `none` means
that the bound was reached. `parentScore + 1` is an `int64` sum. -/
def GhostDAG.CalculateBlueScore (gd : GhostDAG) : Nat → String → Option (Except DagError Int)
  | 0, _ => none
  | fuel + 1, blockHash =>
    match mapGet gd.blocks blockHash with
    | none => some (Except.error (DagError.notFound blockHash))
    | some block =>
      if block.SelectedParent = "" then some (Except.ok 1)
      else
        match GhostDAG.CalculateBlueScore gd fuel block.SelectedParent with
        | none => none
        | some (Except.error err) => some (Except.error err)
        | some (Except.ok parentScore) => some (Except.ok (wrap64 (parentScore + 1)))

/-! ## Block storage (`node/storage/block_storage.go`) -/

/-- The JSON object that `StoreBlock` writes into a block file: the map `blockData` with
its eight keys. -/
structure StoredBlockData where
  hash : String
  parents : List String
  height : Int
  blue_score : Int
  selected_parent : String
  blue_work : Int
  timestamp : Int
  signature : String
deriving DecidableEq, Repr, Inhabited

/-- A record of the append-only log `blocks.log`: the map `logEntry`. -/
structure LogEntry where
  action : String
  height : Int
  hash : String
  timestamp : Int
  parents : List String
deriving DecidableEq, Repr, Inhabited

/-- The data directory of a `BlockStorage`: the files of the block directory and the
records of the log. A block file has the name `<height>_<hash>.json`; it is kept under the
pair of height and hash that `LoadBlocks` and `GetBlock` read back from the name. -/
structure BlockStorage where
  files : List ((Int × String) × StoredBlockData)
  log : List LogEntry
deriving DecidableEq, Repr, Inhabited

/-- `NewBlockStorage` on a fresh data directory. -/
def NewBlockStorage : BlockStorage := { files := [], log := [] }

/-- The errors built by `fmt.Errorf` in `block_storage.go` on the paths modelled here. -/
inductive StorageError where
  /-- The error "failed to read block file: %v". -/
  | failedToReadBlockFile
  /-- The wrapper "failed to load block %d_%s: %v". -/
  | failedToLoadBlock (height : Int) (hash : String) (cause : StorageError)
  /-- The error "block %s not found". -/
  | blockNotFound (hash : String)
deriving DecidableEq, Repr

/-- The map `blockData` that `StoreBlock` marshals. -/
def storedBlockData (block : Block) : StoredBlockData :=
  { hash := block.Hash, parents := block.Parents, height := block.Height,
    blue_score := block.BlueScore, selected_parent := block.SelectedParent,
    blue_work := block.BlueWork, timestamp := block.Timestamp, signature := block.Signature }

/-- The map `logEntry` that `StoreBlock` appends to the log. -/
def storeLogEntry (block : Block) : LogEntry :=
  { action := "store_block", height := block.Height, hash := block.Hash,
    timestamp := block.Timestamp, parents := block.Parents }

/-- `BlockStorage.StoreBlock` when no file operation fails: `ioutil.WriteFile` creates the
block file or replaces its content, and one record is appended to the log. -/
def BlockStorage.StoreBlock (bs : BlockStorage) (block : Block) : BlockStorage :=
  { files := mapSet bs.files (block.Height, block.Hash) (storedBlockData block)
    log := bs.log ++ [storeLogEntry block] }

/-- `BlockStorage.loadBlockFile` for the file named by the height and the hash of `bf`.
`json.Unmarshal` into `map[string]interface{}` decodes every number as a `float64`, which
`getInt64` converts to `int64`; `viaFloat64` stands for that passage. -/
def BlockStorage.loadBlockFile (viaFloat64 : Int → Int) (bs : BlockStorage) (bf : Int × String) :
    Except StorageError Block :=
  match mapGet bs.files bf with
  | none => Except.error StorageError.failedToReadBlockFile
  | some blockData =>
    Except.ok
      { Hash := blockData.hash
        Parents := blockData.parents
        Height := viaFloat64 blockData.height
        BlueScore := viaFloat64 blockData.blue_score
        SelectedParent := blockData.selected_parent
        BlueWork := viaFloat64 blockData.blue_work
        Timestamp := viaFloat64 blockData.timestamp
        Signature := blockData.signature
        Transactions := []
        ProducerID := ""
        ProducerPubKeyHash := "" }

/-- `BlockStorage.GetBlock`. `listing` is the list of block files that `ioutil.ReadDir`
returns, each as the pair of height and hash parsed from its name. -/
def BlockStorage.GetBlock (viaFloat64 : Int → Int) (bs : BlockStorage)
    (listing : List (Int × String)) (hash : String) : Except StorageError Block :=
  match listing.find? (fun bf => bf.2 = hash) with
  | some bf => bs.loadBlockFile viaFloat64 bf
  | none => Except.error (StorageError.blockNotFound hash)

/-- The loop of `BlockStorage.LoadBlocks` over `blockFiles`, the parsed file names after
`sort.Slice`. -/
def BlockStorage.LoadBlocks (viaFloat64 : Int → Int) (bs : BlockStorage) :
    List (Int × String) → Except StorageError (List Block)
  | [] => Except.ok []
  | bf :: rest =>
    match bs.loadBlockFile viaFloat64 bf with
    | Except.error err => Except.error (StorageError.failedToLoadBlock bf.1 bf.2 err)
    | Except.ok block =>
      match BlockStorage.LoadBlocks viaFloat64 bs rest with
      | Except.error err => Except.error err
      | Except.ok blocks => Except.ok (block :: blocks)

/-! ## The preimage of the block hash (`node/consensus/validate_block.go`) -/

/-- The string that `computeBlockHash` hands to Keccak for a block whose hash is not
`genesis`. -/
def blockHashInput (block : Block) : String :=
  sprintStrings block.Parents ++ ":" ++ toString block.Height ++ ":" ++
    toString block.BlueScore ++ ":" ++ toString block.Timestamp ++ ":" ++
    block.SelectedParent ++ ":" ++ block.ProducerID ++ ":" ++ block.ProducerPubKeyHash

/-! ## Example data -/

/-- A block with the given hash, blue score and blue work. -/
def exampleBlock (hash : String) (blueScore blueWork : Int) : Block :=
  { (default : Block) with Hash := hash, BlueScore := blueScore, BlueWork := blueWork }

/-- Three blocks, in the order of a first insertion sequence. -/
def exampleBlocks : List Block :=
  [exampleBlock "a1" 1 0, exampleBlock "b2" 3 0, exampleBlock "c3" 3 5]

/-- The same three blocks in another order. -/
def exampleBlocksShuffled : List Block :=
  [exampleBlock "c3" 3 5, exampleBlock "a1" 1 0, exampleBlock "b2" 3 0]

/-- The graph after `AddBlock` of the three example blocks in the first order. -/
def exampleGraph : GhostDAG := (NewGhostDAG.AddBlocks exampleBlocks).getD NewGhostDAG

/-- The graph after `AddBlock` of the three example blocks in the second order. -/
def exampleGraphShuffled : GhostDAG :=
  (NewGhostDAG.AddBlocks exampleBlocksShuffled).getD NewGhostDAG

/-- A stand-in for the Keccak-256 rendering, used to evaluate examples. -/
def exampleKeccakHex (_ : String) : String :=
  "00112233445566778899aabbccddeeff00112233445566778899aabbccddeeff"

/-- A signature of 100 bytes, the first of which is not zero, in hexadecimal. -/
def exampleSignature : String := String.join ("01" :: List.replicate 99 "00")

/-- The threshold 0.67 as a `float64`. -/
def float067 : Float64 := { bits := 0x3FE570A3D70A3D71 }

/-- The finality configuration of the scenarios: two layers, threshold 0.67. -/
def exampleConfig : FinalityConfig :=
  { SoftFinalityThreshold := float067, SoftFinalityLayers := 2,
    HardFinalityThreshold := float067, HardFinalityEpochWindow := 600 }

/-- An engine with the single validator `v1`. -/
def exampleEngine : POSEngine :=
  NewPOSEngine [{ ID := "v1", PQPubKeyHash := "pk1", Stake := 100, Weight := 1 }] exampleConfig

/-- A block `B` of height 5 without parents. -/
def exampleParent : Block :=
  { (default : Block) with Hash := "B", Height := 5 }

/-- The graph that holds `B` only. -/
def exampleParentGraph : GhostDAG := (NewGhostDAG.AddBlock exampleParent).1

/-- A well-formed child of `B`: height 6, correct hash, producer `v1`, timestamp 1000. -/
def exampleChild : Block :=
  { (default : Block) with
    Hash := "0011223344556677", Parents := ["B"], Height := 6, Timestamp := 1000,
    Signature := exampleSignature, ProducerID := "v1", ProducerPubKeyHash := "pk1" }

/-- The block `A` of the cycle scenario: as `exampleChild`, but of height 5 like its
parent `B`. -/
def exampleCycleBlock : Block := { exampleChild with Height := 5 }

/-- A block whose only parent is not stored anywhere. -/
def exampleOrphan : Block :=
  { (default : Block) with Hash := "orphan", Parents := ["missing"], Height := 1 }

/-- The validators of the selection scenario, with stakes 100, 200 and 700. -/
def exampleValidators : List Validator :=
  [{ ID := "v1", PQPubKeyHash := "pk1", Stake := 100, Weight := 1 },
   { ID := "v2", PQPubKeyHash := "pk2", Stake := 200, Weight := 1 },
   { ID := "v3", PQPubKeyHash := "pk3", Stake := 700, Weight := 1 }]

/-- The engine of the selection scenario. -/
def exampleSelection : POSEngine := NewPOSEngine exampleValidators exampleConfig

/-- An engine whose first validator has no stake. -/
def exampleZeroStake : POSEngine :=
  NewPOSEngine
    [{ ID := "v0", PQPubKeyHash := "pk0", Stake := 0, Weight := 1 },
     { ID := "v1", PQPubKeyHash := "pk1", Stake := 10, Weight := 1 }] exampleConfig

/-- The number of targets `t` in `[0, w)` for which the accumulation procedure of
`SelectValidator` picks the validator with the given ID. -/
def selectionCount (p : POSEngine) (currentStake : StakeSnapshot) (w : Nat) (id : String) : Nat :=
  (List.range w).countP
    (fun t => (p.selectForTarget currentStake t).map (fun v => v.ID) = some id)

/-- The value of `uint64(float64(total) * 0.67)` on the totals of the examples (the
float64 product of 300 and 0.67 is 201.0), computed in exact arithmetic. It instantiates
the argument `scale` where an example is evaluated; the theorems hold for every `scale`. -/
def exampleScale (total : Nat) (_ : Float64) : Nat := total * 67 / 100

/-- Three validators of equal stake 100. -/
def equalValidators : List Validator :=
  [{ ID := "v1", PQPubKeyHash := "pk1", Stake := 100, Weight := 1 },
   { ID := "v2", PQPubKeyHash := "pk2", Stake := 100, Weight := 1 },
   { ID := "v3", PQPubKeyHash := "pk3", Stake := 100, Weight := 1 }]

/-- The engine of the finality scenario after six calls of `AdvanceLayer`, before any
participation is recorded. -/
def exampleAdvanced : POSEngine :=
  ((((((NewPOSEngine equalValidators exampleConfig).AdvanceLayer 10).AdvanceLayer 20).AdvanceLayer
    30).AdvanceLayer 40).AdvanceLayer 50).AdvanceLayer 60

/-- The finality scenario: participation of all three validators is recorded at layers
5 and 6 and at no other layer. -/
def exampleFinality : POSEngine :=
  (((((exampleAdvanced.RecordParticipation 5 "v1").RecordParticipation 5 "v2").RecordParticipation
    5 "v3").RecordParticipation 6 "v1").RecordParticipation 6 "v2").RecordParticipation 6 "v3"

/-- A validator with minimum gas price 10, maximum gas limit 1000 and the account `alice`
(balance 100000, nonce 7). -/
def exampleTxValidator : TransactionValidator :=
  (NewTransactionValidator 10 1000).SetAccountState "alice" 100000 7

/-- A transaction of `alice` that meets every condition of the validator. -/
def exampleTx : Transaction :=
  { Hash := "h1", From := "alice", To := "bob", Value := some 5, GasPrice := some 20,
    GasLimit := 100, Nonce := 9, Data := [], Timestamp := 0 }

/-- A validator whose account `alice` has the nonce `2^64 - 5`. -/
def exampleHighNonceValidator : TransactionValidator :=
  (NewTransactionValidator 10 1000).SetAccountState "alice" 100000 (2 ^ 64 - 5)

/-- A transaction of `alice` with the nonce `2^64 - 5`. -/
def exampleHighNonceTx : Transaction := { exampleTx with Nonce := 2 ^ 64 - 5 }

/-- A second transaction of `alice`, with the gas price 50. -/
def exampleTx2 : Transaction := { exampleTx with Hash := "h2", GasPrice := some 50, Nonce := 8 }

/-- A third transaction of `alice`, with the gas price 30. -/
def exampleTx3 : Transaction := { exampleTx with Hash := "h3", GasPrice := some 30, Nonce := 10 }

/-- A pool holding the three example transactions. -/
def examplePool : Mempool :=
  { txs := [("h1", exampleTx), ("h2", exampleTx2), ("h3", exampleTx3)],
    validator := exampleTxValidator, maxSize := 10 }

/-- A transaction of `alice` with nonce 0 that the validator of `NewMempool` accepts once
the account is funded. -/
def exampleTxA : Transaction :=
  { Hash := "ha", From := "alice", To := "bob", Value := some 1, GasPrice := some 1000000000,
    GasLimit := 21000, Nonce := 0, Data := [], Timestamp := 0 }

/-- Another transaction of `alice` with the same nonce 0, to another receiver. -/
def exampleTxB : Transaction := { exampleTxA with Hash := "hb", To := "carol" }

/-- A block as `exampleChild` whose `SelectedParent` is not one of its parents. -/
def exampleStraySelectedParent : Block := { exampleChild with SelectedParent := "X" }

/-- The hexadecimal encoding of 200 zero bytes. -/
def exampleZeroSignature : String := String.mk (List.replicate 400 '0')

/-- The block `exampleStraySelectedParent` with the hash that `computeBlockHash` gives
it under the Keccak rendering `keccakHex`. -/
def strayBlock (keccakHex : String → String) : Block :=
  { exampleStraySelectedParent with
    Hash := computeBlockHash keccakHex exampleStraySelectedParent }

/-- The graph `exampleParentGraph` after the insertion of `strayBlock keccakHex`. -/
def strayGraph (keccakHex : String → String) : GhostDAG :=
  (exampleParentGraph.AddBlock (strayBlock keccakHex)).1

/-- The engine `&dag.POSEngine{}` of `validation_test.go`: every field has its zero
value. Its nil `Participation` map is rendered as the empty map; the two differ for a
write only, and it is used here for blocks that are rejected before
`RecordParticipation` is reached. -/
def exampleZeroEngine : POSEngine :=
  { Validators := []
    FinalityConfig :=
      { SoftFinalityThreshold := { bits := 0 }, SoftFinalityLayers := 0,
        HardFinalityThreshold := { bits := 0 }, HardFinalityEpochWindow := 0 }
    CurrentLayer := 0
    LayerTimestamps := []
    StakeHistory := []
    Participation := [] }

/-- The genesis block that `TestInvalidBlockRejection` inserts, at the clock reading
1000. -/
def exampleTestGenesis : Block :=
  { Hash := "genesis", Parents := [], Height := 0, BlueScore := 0, SelectedParent := "",
    BlueWork := 0, Timestamp := 1000, Signature := "valid_signature", Transactions := [],
    ProducerID := "", ProducerPubKeyHash := "" }

/-- The graph of `TestInvalidBlockRejection`: genesis only. -/
def exampleTestGraph : GhostDAG := (NewGhostDAG.AddBlock exampleTestGenesis).1

/-- The block `createValidBlock(testDAG, 1)` of the test suite, at the clock reading 1000:
the hash is `"test_hash_" + string(rune(1))`, the signature the hexadecimal rendering of
200 bytes of which the first is 1. -/
def exampleTestFixture : Block :=
  { Hash := "test_hash_\x01", Parents := ["genesis"], Height := 1, BlueScore := 1,
    SelectedParent := "", BlueWork := 0, Timestamp := 1000,
    Signature := String.join ("01" :: List.replicate 199 "00"), Transactions := [],
    ProducerID := "", ProducerPubKeyHash := "" }

/-- The block of the case `Cycle Detection - Height Not Increasing` of
`validation_test.go`, at the clock reading 1000: height 0 like its parent `genesis`, the
hash `test_block_8`, the signature the hexadecimal rendering of 200 zero bytes. -/
def exampleCycleFixture : Block :=
  { Hash := "test_block_8", Parents := ["genesis"], Height := 0, BlueScore := 1,
    SelectedParent := "", BlueWork := 0, Timestamp := 1000,
    Signature := exampleZeroSignature, Transactions := [],
    ProducerID := "", ProducerPubKeyHash := "" }

/-- The block `A` of the cycle scenario (height 5, parent `B` of height 5, producer `v1`)
under the hash `test_block_8`, which is not the hash recomputed for it. -/
def exampleCycleStale : Block := { exampleCycleBlock with Hash := "test_block_8" }

/-- The block `block` with another `BlueScore` and the hash that `computeBlockHash` gives
to the changed content. -/
def withBlueScore (keccakHex : String → String) (block : Block) (score : Int) : Block :=
  { block with
    BlueScore := score
    Hash := computeBlockHash keccakHex { block with BlueScore := score } }

/-- A producer configuration: at most 10 transactions and 250 units of gas per block, no
minimum above one transaction. -/
def exampleProducerConfig : BlockProducerConfig :=
  { MaxBlockSize := 1000000, MaxTxsPerBlock := 10, MinTxsPerBlock := 1, MaxGasLimit := 250,
    MinGasLimit := 0 }

/-- The content of `examplePool` in descending order of gas price (50, 30, 20). -/
def examplePoolSorted : List Transaction := [exampleTx2, exampleTx3, exampleTx]

/-- A transaction of `alice` with the nonce 2 and the gas price 2 gwei. -/
def exampleNonce2 : Transaction :=
  { exampleTxA with Hash := "n2", Nonce := 2, GasPrice := some 2000000000 }

/-- A transaction of `alice` with the nonce 1 and the gas price 1 gwei. -/
def exampleNonce1 : Transaction :=
  { exampleTxA with Hash := "n1", Nonce := 1, GasPrice := some 1000000000 }

/-- The pool created by `NewMempool(100)` after the two transactions of `alice` were
added, the account of `alice` having the nonce 0. -/
def exampleNoncePool : Mempool :=
  { txs := [("n2", exampleNonce2), ("n1", exampleNonce1)]
    validator := (NewTransactionValidator 1000000000 1000000).SetAccountState "alice"
      1000000000000000000 0
    maxSize := 100 }

/-- A producer configuration with a gas budget of 50000 per block. -/
def exampleGasConfig : BlockProducerConfig :=
  { MaxBlockSize := 1000000, MaxTxsPerBlock := 10, MinTxsPerBlock := 1, MaxGasLimit := 50000,
    MinGasLimit := 0 }

/-- Four transactions of `alice` with the nonces 5, 3, 6 and 7 and the gas prices 4, 3, 2
and 1 gwei, each with the gas limit 21000. -/
def exampleGasTxs : List Transaction :=
  [{ exampleTxA with Hash := "t5", Nonce := 5, GasPrice := some 4000000000 },
   { exampleTxA with Hash := "t3", Nonce := 3, GasPrice := some 3000000000 },
   { exampleTxA with Hash := "t6", Nonce := 6, GasPrice := some 2000000000 },
   { exampleTxA with Hash := "t7", Nonce := 7, GasPrice := some 1000000000 }]

/-- The calls that fill a new mempool with the four transactions of `exampleGasTxs`. -/
def exampleGasCalls : List MempoolCall :=
  match exampleGasTxs with
  | first :: others =>
    MempoolCall.AddWithAccountState first 1000000000000000000 0 :: others.map MempoolCall.Add
  | [] => []

/-- The pool created by `NewMempool(100)` after the calls `exampleGasCalls`. -/
def exampleGasPool : Mempool :=
  { txs := exampleGasTxs.map (fun tx => (tx.Hash, tx))
    validator := (NewTransactionValidator 1000000000 1000000).SetAccountState "alice"
      1000000000000000000 0
    maxSize := 100 }

/-- The validator `v1` of `exampleEngine`. -/
def exampleLeader : Validator := { ID := "v1", PQPubKeyHash := "pk1", Stake := 100, Weight := 1 }

/-- The graph that holds `B` and its child `exampleChild`. -/
def exampleChainGraph : GhostDAG := (exampleParentGraph.AddBlock exampleChild).1

/-- A block without parents whose hash is the empty string. -/
def exampleEmptyHashBlock : Block := { (default : Block) with Hash := "", Height := 0 }

/-- The graph that holds `exampleEmptyHashBlock` only. -/
def exampleEmptyHashGraph : GhostDAG := (NewGhostDAG.AddBlock exampleEmptyHashBlock).1

/-- The example child of `B` with `B` as its selected parent. -/
def exampleSelectedChild : Block := { exampleChild with SelectedParent := "B" }

/-- The graph that holds `B` and `exampleSelectedChild`. -/
def exampleSelectedGraph : GhostDAG := (exampleParentGraph.AddBlock exampleSelectedChild).1

/-- The passage of a JSON number through `float64` for the small numbers of the examples,
which it leaves as they are. -/
def exampleViaFloat64 (x : Int) : Int := x

/-! ## Predicates used in the statements -/

/-- The order in which `a` may stand before `b` in a heap: `b` is not `Less` than `a`. -/
def blockLe (a b : Block) : Prop := blockLess b a = false

/-- The heap property of `container/heap` on the first `n` elements of a slice: no
element is `Less` than its parent. -/
def HeapOn (h : BlockHeap) (n : Nat) : Prop :=
  ∀ k, 0 < k → k < n → blockLe (h.at ((k - 1) / 2)) (h.at k)

/-- Modelled from the spec: `b` is reached from `a` by one `Parents` link, that is, `a`
is the hash of a stored block that names `b` among its parents. -/
def GhostDAG.ParentLink (gd : GhostDAG) (a b : String) : Prop :=
  ∃ block, gd.GetBlock a = some block ∧ b ∈ block.Parents

/-- Modelled from the spec: `x` is in the past-cone of `h`, the reflexive-transitive
closure over `parents`: `x` is reached from `h` by following `Parents` links zero or more
times. -/
def GhostDAG.InPastCone (gd : GhostDAG) (h x : String) : Prop :=
  Relation.ReflTransGen gd.ParentLink h x

/-- The number of queue elements that the loop of `getPast` can still receive: the parents
of the stored blocks whose hash is not in `past` yet. -/
def pendingParents (blocks : List (String × Block)) (past : List String) : Nat :=
  ((blocks.filter (fun kv => kv.1 ∉ past)).map (fun kv => kv.2.Parents.length)).sum

/-- The history indexing invariant of the engine: `len(StakeHistory) = CurrentLayer + 1`,
`len(LayerTimestamps) = CurrentLayer`, and the `Layer` fields of the snapshots are
`0, 1, 2, ...` in this order. -/
def POSEngine.HistoryIndexed (p : POSEngine) : Prop :=
  (p.StakeHistory.length : Int) = p.CurrentLayer + 1 ∧
  (p.LayerTimestamps.length : Int) = p.CurrentLayer ∧
  p.StakeHistory.map (fun snap => snap.Layer) =
    (List.range p.StakeHistory.length).map (fun i : Nat => (i : Int))

/-- Modelled from the spec: the walk along `selected_parent` links from the hash `h` ends
at a stored block with empty `SelectedParent`; `path` lists the stored blocks of the walk,
from the block stored under `h` to that last block. -/
inductive SelectedParentWalk (gd : GhostDAG) : String → List Block → Prop
  | last (h : String) (b : Block) : gd.GetBlock h = some b → b.SelectedParent = "" →
      SelectedParentWalk gd h [b]
  | step (h : String) (b : Block) (path : List Block) : gd.GetBlock h = some b →
      b.SelectedParent ≠ "" → SelectedParentWalk gd b.SelectedParent path →
      SelectedParentWalk gd h (b :: path)

/-- Modelled from the spec: the walk along `selected_parent` links from the hash `h`
reaches the hash `missing`, which is not stored; `path` lists the stored blocks passed
before. -/
inductive SelectedParentWalkFails (gd : GhostDAG) : String → List Block → String → Prop
  | missing (h : String) : gd.GetBlock h = none → SelectedParentWalkFails gd h [] h
  | step (h : String) (b : Block) (path : List Block) (missing : String) :
      gd.GetBlock h = some b → b.SelectedParent ≠ "" →
      SelectedParentWalkFails gd b.SelectedParent path missing →
      SelectedParentWalkFails gd h (b :: path) missing

/-- The hypothesis of the termination claim: the non-empty `SelectedParent` of every
stored block, when it is stored, has a strictly smaller `Height` than the block. -/
def GhostDAG.SelectedParentBelow (gd : GhostDAG) : Prop :=
  ∀ h b, gd.GetBlock h = some b → b.SelectedParent ≠ "" →
    ∀ pb, gd.GetBlock b.SelectedParent = some pb → pb.Height < b.Height

/-- The number of stored entries whose block is lower than `height`. -/
def blocksBelow (blocks : List (String × Block)) (height : Int) : Nat :=
  (blocks.filter (fun kv => kv.2.Height < height)).length

/-! # Theorems -/

/-! ## Order facts about `BlockHeap.Less` -/

theorem strLess_iff (a b : String) : strLess a b = true ↔ a < b := by
  simp [strLess, String.lt_iff_toList_lt]

theorem blockLess_iff (a b : Block) :
    blockLess a b = true ↔
      (a.BlueScore > b.BlueScore ∨ (a.BlueScore = b.BlueScore ∧
        (a.BlueWork > b.BlueWork ∨ (a.BlueWork = b.BlueWork ∧ a.Hash < b.Hash)))) := by
  unfold blockLess
  split_ifs with h1 h2
  · simp only [decide_eq_true_eq]; omega
  · simp only [decide_eq_true_eq]; push_neg at h1; omega
  · push_neg at h1 h2
    rw [strLess_iff]
    constructor
    · intro h; exact Or.inr ⟨h1, Or.inr ⟨h2, h⟩⟩
    · rintro (h | ⟨_, h | ⟨_, h⟩⟩)
      · omega
      · omega
      · exact h

theorem blockLe_iff (a b : Block) :
    blockLe a b ↔
      (a.BlueScore > b.BlueScore ∨ (a.BlueScore = b.BlueScore ∧
        (a.BlueWork > b.BlueWork ∨ (a.BlueWork = b.BlueWork ∧ a.Hash ≤ b.Hash)))) := by
  unfold blockLe
  rw [← Bool.not_eq_true, blockLess_iff]
  constructor
  · intro h
    push_neg at h
    rcases lt_trichotomy a.BlueScore b.BlueScore with h1 | h1 | h1
    · exact absurd h1 (not_lt.mpr h.1)
    · right; refine ⟨h1, ?_⟩
      rcases lt_trichotomy a.BlueWork b.BlueWork with h2 | h2 | h2
      · exact absurd h2 (not_lt.mpr (h.2 h1.symm).1)
      · right; exact ⟨h2, (h.2 h1.symm).2 h2.symm⟩
      · left; exact h2
    · left; exact h1
  · rintro (h | ⟨h1, h | ⟨h2, h⟩⟩)
    · push_neg; exact ⟨by omega, by intro; omega⟩
    · push_neg; exact ⟨by omega, by intro; exact ⟨by omega, by intro; omega⟩⟩
    · push_neg; exact ⟨by omega, by intro; exact ⟨by omega, by intro; exact h⟩⟩

theorem blockLe_of_less {a b : Block} (h : blockLess a b = true) : blockLe a b := by
  rw [blockLe_iff]; rw [blockLess_iff] at h
  rcases h with h | ⟨h1, h | ⟨h2, h⟩⟩
  · exact Or.inl h
  · exact Or.inr ⟨h1, Or.inl h⟩
  · exact Or.inr ⟨h1, Or.inr ⟨h2, le_of_lt h⟩⟩

theorem blockLe_of_not_less {a b : Block} (h : blockLess a b = false) : blockLe b a := h

theorem blockLe_total (a b : Block) : blockLe a b ∨ blockLe b a := by
  by_cases h : blockLess a b = true
  · exact Or.inl (blockLe_of_less h)
  · exact Or.inr (by simpa using h)

theorem blockLe_refl (a : Block) : blockLe a a := by
  rcases blockLe_total a a with t | t <;> exact t

theorem blockLe_trans {a b c : Block} (h1 : blockLe a b) (h2 : blockLe b c) : blockLe a c := by
  rw [blockLe_iff] at *
  rcases h1 with h1 | ⟨e1, h1 | ⟨f1, h1⟩⟩ <;> rcases h2 with h2 | ⟨e2, h2 | ⟨f2, h2⟩⟩
  · left; omega
  · left; omega
  · left; omega
  · left; omega
  · right; exact ⟨by omega, Or.inl (by omega)⟩
  · right; exact ⟨by omega, Or.inl (by omega)⟩
  · left; omega
  · right; exact ⟨by omega, Or.inl (by omega)⟩
  · right; exact ⟨by omega, Or.inr ⟨by omega, le_trans h1 h2⟩⟩

/-! ## `Swap` -/

theorem Swap_length (h : BlockHeap) (i j : Nat) : (h.Swap i j).length = h.length := by
  simp [BlockHeap.Swap]

theorem Swap_at (h : BlockHeap) {i j : Nat} (hi : i < h.length) (hj : j < h.length) (k : Nat) :
    (h.Swap i j).at k = if k = j then h.at i else if k = i then h.at j else h.at k := by
  unfold BlockHeap.Swap BlockHeap.at
  simp only [List.getD_eq_getElem?_getD, List.getElem?_set, List.length_set]
  by_cases hkj : k = j
  · subst hkj; simp [hj]
  · by_cases hki : k = i
    · subst hki
      have hjk : ¬ j = k := fun e => hkj e.symm
      simp [hi, hkj, hjk]
    · have hjk : ¬ j = k := fun e => hkj e.symm
      have hik : ¬ i = k := fun e => hki e.symm
      simp [hkj, hki, hjk, hik]

theorem cons_set_perm (l : List Block) (x : Block) :
    ∀ j, j < l.length → (l.getD j default :: l.set j x).Perm (x :: l) := by
  induction l with
  | nil => intro j hj; simp at hj
  | cons y ys ih =>
    intro j hj
    cases j with
    | zero => simpa using List.Perm.swap x y ys
    | succ j =>
      have hj1 : j < ys.length := by simpa using hj
      have h1 := ih j hj1
      simp only [List.getD_cons_succ, List.set_cons_succ]
      exact (List.Perm.swap y (ys.getD j default) (ys.set j x)).trans
        (((List.Perm.cons y h1)).trans (List.Perm.swap x y ys))

theorem Swap_perm_lt (h : BlockHeap) :
    ∀ i j, i < j → j < h.length → (h.Swap i j).Perm h := by
  induction h with
  | nil => intro i j _ hj; simp at hj
  | cons y ys ih =>
    intro i j hij hj
    cases j with
    | zero => omega
    | succ j =>
      have hj1 : j < ys.length := by simpa using hj
      cases i with
      | zero =>
        have := cons_set_perm ys y j hj1
        simpa [BlockHeap.Swap, BlockHeap.at] using this
      | succ i =>
        have := ih i j (by omega) hj1
        simpa [BlockHeap.Swap, BlockHeap.at] using this

theorem Swap_self (h : BlockHeap) (i : Nat) : h.Swap i i = h := by
  apply List.ext_getElem?
  intro k
  unfold BlockHeap.Swap BlockHeap.at
  simp only [List.getElem?_set, List.length_set, List.getD_eq_getElem?_getD]
  by_cases hk : i = k
  · subst hk
    by_cases hl : i < h.length
    · simp [hl]
    · simp [hl]; omega
  · simp [hk]

theorem Swap_perm (h : BlockHeap) {i j : Nat} (hij : i ≤ j) (hj : j < h.length) :
    (h.Swap i j).Perm h := by
  rcases Nat.lt_or_eq_of_le hij with h1 | h1
  · exact Swap_perm_lt h i j h1 hj
  · subst h1; rw [Swap_self]

/-! ## The heap property under `up` and `down` -/

theorem Swap_at_left (h : BlockHeap) {i j : Nat} (hi : i < h.length) (hj : j < h.length) :
    (h.Swap i j).at i = h.at j := by
  rw [Swap_at h hi hj]; by_cases e : i = j
  · simp [e]
  · simp [e]

theorem Swap_at_right (h : BlockHeap) {i j : Nat} (hi : i < h.length) (hj : j < h.length) :
    (h.Swap i j).at j = h.at i := by
  rw [Swap_at h hi hj]; simp

theorem Swap_at_other (h : BlockHeap) {i j k : Nat} (hi : i < h.length) (hj : j < h.length)
    (hki : k ≠ i) (hkj : k ≠ j) : (h.Swap i j).at k = h.at k := by
  rw [Swap_at h hi hj]; simp [hki, hkj]

theorem heapUp_spec : ∀ (fuel : Nat) (h : BlockHeap) (j n : Nat),
    n ≤ h.length → j < n → j < fuel →
    (∀ k, 0 < k → k < n → k ≠ j → blockLe (h.at ((k - 1) / 2)) (h.at k)) →
    (∀ k, 0 < k → k < n → (k - 1) / 2 = j → 0 < j → blockLe (h.at ((j - 1) / 2)) (h.at k)) →
    HeapOn (heapUp fuel h j) n ∧ (heapUp fuel h j).Perm h := by
  intro fuel
  induction fuel with
  | zero => intro h j n _ _ hf; omega
  | succ fuel ih =>
    intro h j n hn hj hf inv1 inv2
    obtain ⟨i, hi⟩ : ∃ i, i = (j - 1) / 2 := ⟨_, rfl⟩
    have hup : heapUp (fuel + 1) h j =
        if i = j ∨ h.Less j i = false then h else heapUp fuel (h.Swap i j) i := by
      rw [hi]; rfl
    rw [hup]
    split_ifs with hc
    · refine ⟨?_, List.Perm.refl _⟩
      intro k hk0 hkn
      by_cases hkj : k = j
      · subst hkj
        rcases hc with hc | hc
        · omega
        · rw [← hi]; exact hc
      · exact inv1 k hk0 hkn hkj
    · push_neg at hc
      obtain ⟨hij, hless⟩ := hc
      have hless : blockLess (h.at j) (h.at i) = true := by
        simpa [BlockHeap.Less] using hless
      have hji : blockLe (h.at j) (h.at i) := blockLe_of_less hless
      have hilt : i < j := by omega
      have hil : i < h.length := by omega
      have hjl : j < h.length := by omega
      have hlen := Swap_length h i j
      have inv1' : ∀ k, 0 < k → k < n → k ≠ i →
          blockLe ((h.Swap i j).at ((k - 1) / 2)) ((h.Swap i j).at k) := by
        intro k hk0 hkn hki
        by_cases hkj : k = j
        · subst hkj
          rw [← hi, Swap_at_left h hil hjl, Swap_at_right h hil hjl]
          exact hji
        · rw [Swap_at_other h hil hjl hki hkj]
          by_cases hp : (k - 1) / 2 = i
          · rw [hp, Swap_at_left h hil hjl]
            have := inv1 k hk0 hkn hkj
            rw [hp] at this
            exact blockLe_trans hji this
          · by_cases hq : (k - 1) / 2 = j
            · rw [hq, Swap_at_right h hil hjl]
              have := inv2 k hk0 hkn hq (by omega)
              rw [← hi] at this
              exact this
            · rw [Swap_at_other h hil hjl hp hq]
              exact inv1 k hk0 hkn hkj
      have inv2' : ∀ k, 0 < k → k < n → (k - 1) / 2 = i → 0 < i →
          blockLe ((h.Swap i j).at ((i - 1) / 2)) ((h.Swap i j).at k) := by
        intro k hk0 hkn hp hi0
        have hpi : blockLe (h.at ((i - 1) / 2)) (h.at i) := inv1 i hi0 (by omega) (by omega)
        rw [Swap_at_other h hil hjl (by omega) (by omega)]
        by_cases hkj : k = j
        · subst hkj
          rw [Swap_at_right h hil hjl]
          exact hpi
        · rw [Swap_at_other h hil hjl (by omega) hkj]
          have := inv1 k hk0 hkn hkj
          rw [hp] at this
          exact blockLe_trans hpi this
      obtain ⟨r1, r2⟩ := ih (h.Swap i j) i n (by rw [hlen]; exact hn) (by omega) (by omega)
        inv1' inv2'
      exact ⟨r1, r2.trans (Swap_perm h (le_of_lt hilt) hjl)⟩

theorem heapDown_spec : ∀ (fuel : Nat) (h : BlockHeap) (i n : Nat),
    n ≤ h.length → n ≤ fuel + i →
    (∀ k, 0 < k → k < n → (k - 1) / 2 ≠ i → blockLe (h.at ((k - 1) / 2)) (h.at k)) →
    (∀ k, 0 < k → k < n → (k - 1) / 2 = i → 0 < i → blockLe (h.at ((i - 1) / 2)) (h.at k)) →
    HeapOn (heapDown fuel h i n) n ∧ (heapDown fuel h i n).Perm h ∧
      (∀ k, n ≤ k → (heapDown fuel h i n).at k = h.at k) := by
  intro fuel
  induction fuel with
  | zero =>
    intro h i n _ hf inv1 _
    refine ⟨?_, List.Perm.refl _, fun _ _ => rfl⟩
    intro k hk0 hkn
    exact inv1 k hk0 hkn (by omega)
  | succ fuel ih =>
    intro h i n hn hf inv1 inv2
    obtain ⟨j, hj⟩ : ∃ j, j = if 2 * i + 1 + 1 < n ∧ h.Less (2 * i + 1 + 1) (2 * i + 1) = true
        then 2 * i + 1 + 1 else 2 * i + 1 := ⟨_, rfl⟩
    have hdown : heapDown (fuel + 1) h i n =
        if 2 * i + 1 ≥ n then h
        else if h.Less j i = false then h else heapDown fuel (h.Swap i j) j n := by
      rw [hj]; rfl
    rw [hdown]
    by_cases hc : 2 * i + 1 ≥ n
    · rw [if_pos hc]
      refine ⟨?_, List.Perm.refl _, fun _ _ => rfl⟩
      intro k hk0 hkn
      exact inv1 k hk0 hkn (by omega)
    rw [if_neg hc]
    have hjn : j < n := by rw [hj]; split_ifs with hx <;> omega
    have hjp : (j - 1) / 2 = i := by rw [hj]; split_ifs with hx <;> omega
    have hj0 : 0 < j := by rw [hj]; split_ifs with hx <;> omega
    -- `j` is the smaller of the children of `i`
    have hmin : ∀ k, 0 < k → k < n → (k - 1) / 2 = i → blockLe (h.at j) (h.at k) := by
      intro k hk0 hkn hkp
      have hk : k = 2 * i + 1 ∨ k = 2 * i + 1 + 1 := by omega
      by_cases hx : 2 * i + 1 + 1 < n ∧ h.Less (2 * i + 1 + 1) (2 * i + 1) = true
      · rw [if_pos hx] at hj
        rcases hk with hk | hk
        · rw [hk, hj]; exact blockLe_of_less (by simpa [BlockHeap.Less] using hx.2)
        · rw [hk, hj]; exact blockLe_refl _
      · rw [if_neg hx] at hj
        rcases hk with hk | hk
        · rw [hk, hj]; exact blockLe_refl _
        · rw [hk, hj]
          have : h.Less (2 * i + 1 + 1) (2 * i + 1) = false := by
            by_contra hne
            exact hx ⟨by omega, by simpa using hne⟩
          exact this
    by_cases hc2 : h.Less j i = false
    · rw [if_pos hc2]
      refine ⟨?_, List.Perm.refl _, fun _ _ => rfl⟩
      intro k hk0 hkn
      by_cases hkp : (k - 1) / 2 = i
      · rw [hkp]
        exact blockLe_trans (by simpa [BlockHeap.Less, blockLe] using hc2) (hmin k hk0 hkn hkp)
      · exact inv1 k hk0 hkn hkp
    · rw [if_neg hc2]
      have hless : blockLess (h.at j) (h.at i) = true := by
        simpa [BlockHeap.Less] using hc2
      have hji : blockLe (h.at j) (h.at i) := blockLe_of_less hless
      have hilt : i < j := by omega
      have hil : i < h.length := by omega
      have hjl : j < h.length := by omega
      have hlen := Swap_length h i j
      have inv1' : ∀ k, 0 < k → k < n → (k - 1) / 2 ≠ j →
          blockLe ((h.Swap i j).at ((k - 1) / 2)) ((h.Swap i j).at k) := by
        intro k hk0 hkn hkp
        by_cases hkj : k = j
        · subst hkj
          rw [hjp, Swap_at_left h hil hjl, Swap_at_right h hil hjl]
          exact hji
        · by_cases hki : k = i
          · subst hki
            rw [Swap_at_left h hil hjl, Swap_at_other h hil hjl (by omega) (by omega)]
            exact inv2 j hj0 hjn hjp hk0
          · rw [Swap_at_other h hil hjl hki hkj]
            by_cases hp : (k - 1) / 2 = i
            · rw [hp, Swap_at_left h hil hjl]
              exact hmin k hk0 hkn hp
            · rw [Swap_at_other h hil hjl hp hkp]
              exact inv1 k hk0 hkn hp
      have inv2' : ∀ k, 0 < k → k < n → (k - 1) / 2 = j → 0 < j →
          blockLe ((h.Swap i j).at ((j - 1) / 2)) ((h.Swap i j).at k) := by
        intro k hk0 hkn hkp _
        rw [hjp, Swap_at_left h hil hjl, Swap_at_other h hil hjl (by omega) (by omega)]
        have := inv1 k hk0 hkn (by omega)
        rw [hkp] at this
        exact this
      obtain ⟨r1, r2, r3⟩ := ih (h.Swap i j) j n (by rw [hlen]; exact hn) (by omega) inv1' inv2'
      refine ⟨r1, r2.trans (Swap_perm h (le_of_lt hilt) hjl), ?_⟩
      intro k hk
      rw [r3 k hk, Swap_at_other h hil hjl (by omega) (by omega)]

/-! ## `Push`, `Pop` and the total order -/

theorem at_append_left (h : BlockHeap) (x : Block) {k : Nat} (hk : k < h.length) :
    BlockHeap.at (h ++ [x]) k = h.at k := by
  unfold BlockHeap.at
  simp [List.getD_eq_getElem?_getD, List.getElem?_append_left hk]

theorem at_take (h : BlockHeap) {n k : Nat} (hk : k < n) :
    BlockHeap.at (h.take n) k = h.at k := by
  unfold BlockHeap.at
  simp [List.getD_eq_getElem?_getD, List.getElem?_take, hk]

theorem mem_iff_at (h : BlockHeap) (y : Block) : y ∈ h ↔ ∃ k, k < h.length ∧ h.at k = y := by
  unfold BlockHeap.at
  constructor
  · intro hy
    obtain ⟨k, hk, e⟩ := List.getElem_of_mem hy
    exact ⟨k, hk, by simp [List.getD_eq_getElem?_getD, List.getElem?_eq_getElem hk, e]⟩
  · rintro ⟨k, hk, e⟩
    rw [← e]
    simp [List.getD_eq_getElem?_getD, List.getElem?_eq_getElem hk]

theorem heapPush_spec (h : BlockHeap) (x : Block) (hh : HeapOn h h.length) :
    HeapOn (heapPush h x) (heapPush h x).length ∧ (heapPush h x).Perm (x :: h) := by
  have key := heapUp_spec (h.length + 1) (h ++ [x]) h.length (h.length + 1)
    (by simp) (by omega) (by omega)
    (by
      intro k hk0 hkn hkj
      rw [at_append_left h x (by omega : (k - 1) / 2 < h.length),
        at_append_left h x (by omega : k < h.length)]
      exact hh k hk0 (by omega))
    (by intro k hk0 hkn hp _; omega)
  unfold heapPush
  refine ⟨?_, key.2.trans (by simp)⟩
  have hl : (heapUp (h.length + 1) (h ++ [x]) h.length).length = h.length + 1 := by
    rw [key.2.length_eq]; simp
  rw [hl]
  exact key.1

theorem HeapOn_root_le (h : BlockHeap) (n : Nat) (hh : HeapOn h n) :
    ∀ k, k < n → blockLe (h.at 0) (h.at k) := by
  intro k
  induction k using Nat.strong_induction_on with
  | _ k ih =>
    intro hk
    rcases Nat.eq_zero_or_pos k with h0 | h0
    · subst h0; exact blockLe_refl _
    · exact blockLe_trans (ih ((k - 1) / 2) (by omega) (by omega)) (hh k h0 hk)

theorem heapPop_spec (h : BlockHeap) (hne : h.length ≠ 0) (hh : HeapOn h h.length) :
    ∃ b h1, heapPop h = some (b, h1) ∧ (b :: h1).Perm h ∧ HeapOn h1 h1.length ∧
      (∀ y ∈ h1, blockLe b y) := by
  obtain ⟨n, hn⟩ : ∃ n, n = h.length - 1 := ⟨_, rfl⟩
  have h0l : 0 < h.length := by omega
  have hnl : n < h.length := by omega
  have hlen := Swap_length h 0 n
  have key := heapDown_spec n (h.Swap 0 n) 0 n (by omega) (by omega)
    (by
      intro k hk0 hkn hp
      rw [Swap_at_other h h0l hnl (by omega) (by omega),
        Swap_at_other h h0l hnl (by omega) (by omega)]
      exact hh k hk0 (by omega))
    (by intro k _ _ _ hi0; omega)
  obtain ⟨d1, d2, d3⟩ := key
  have hperm : (heapDown n (h.Swap 0 n) 0 n).Perm h := d2.trans (Swap_perm h (Nat.zero_le n) hnl)
  have hdl : (heapDown n (h.Swap 0 n) 0 n).length = n + 1 := by rw [hperm.length_eq]; omega
  have hb : (heapDown n (h.Swap 0 n) 0 n).at n = h.at 0 := by
    rw [d3 n (le_refl n), Swap_at_right h h0l hnl]
  refine ⟨h.at 0, (heapDown n (h.Swap 0 n) 0 n).take n, ?_, ?_, ?_, ?_⟩
  · unfold heapPop
    rw [if_neg hne]
    simp only [← hn, hb]
  · have hsplit : heapDown n (h.Swap 0 n) 0 n =
        (heapDown n (h.Swap 0 n) 0 n).take n ++ [h.at 0] := by
      rw [← hb]
      apply List.ext_getElem?
      intro k
      unfold BlockHeap.at
      rcases Nat.lt_trichotomy k n with hk | hk | hk
      · rw [List.getElem?_append_left (by simp; omega)]
        simp [List.getElem?_take, hk]
      · subst hk
        rw [List.getElem?_append_right (by simp)]
        simp [List.getD_eq_getElem?_getD, hdl]
      · rw [List.getElem?_eq_none (by omega), List.getElem?_eq_none (by simp; omega)]
    have : (h.at 0 :: (heapDown n (h.Swap 0 n) 0 n).take n).Perm
        (heapDown n (h.Swap 0 n) 0 n) := by
      conv_rhs => rw [hsplit]
      simpa using (@List.perm_append_comm _ [h.at 0]
        ((heapDown n (h.Swap 0 n) 0 n).take n))
    exact this.trans hperm
  · have hl : ((heapDown n (h.Swap 0 n) 0 n).take n).length = n := by simp; omega
    rw [hl]
    intro k hk0 hkn
    rw [at_take _ (by omega : (k - 1) / 2 < n), at_take _ hkn]
    exact d1 k hk0 hkn
  · intro y hy
    have hy1 : y ∈ h := hperm.subset (List.mem_of_mem_take hy)
    obtain ⟨k, hk, e⟩ := (mem_iff_at h y).1 hy1
    rw [← e]
    exact HeapOn_root_le h h.length hh k hk

theorem drainHeap_spec : ∀ (fuel : Nat) (h : BlockHeap) (acc : List Block),
    HeapOn h h.length → h.length ≤ fuel →
    ∃ out, drainHeap fuel h acc = acc ++ out ∧ out.Perm h ∧ out.Pairwise blockLe := by
  intro fuel
  induction fuel with
  | zero =>
    intro h acc _ hf
    have : h = [] := List.length_eq_zero.1 (by omega)
    subst this
    exact ⟨[], by simp [drainHeap], List.Perm.refl _, List.Pairwise.nil⟩
  | succ fuel ih =>
    intro h acc hh hf
    by_cases hne : h.length = 0
    · have : h = [] := List.length_eq_zero.1 hne
      subst this
      exact ⟨[], by simp [drainHeap, heapPop], List.Perm.refl _, List.Pairwise.nil⟩
    · obtain ⟨b, h1, e, p, hh1, hmin⟩ := heapPop_spec h hne hh
      have hl : h1.length ≤ fuel := by
        have := p.length_eq
        simp at this
        omega
      obtain ⟨out, e1, p1, s1⟩ := ih h1 (acc ++ [b]) hh1 hl
      refine ⟨b :: out, ?_, (List.Perm.cons b p1).trans p, ?_⟩
      · simp [drainHeap, e, e1]
      · exact List.Pairwise.cons (fun y hy => hmin y (p1.subset hy)) s1

theorem foldl_heapPush_spec : ∀ (iter : List Block) (h : BlockHeap), HeapOn h h.length →
    HeapOn (iter.foldl heapPush h) (iter.foldl heapPush h).length ∧
      (iter.foldl heapPush h).Perm (iter ++ h) := by
  intro iter
  induction iter with
  | nil => intro h hh; exact ⟨hh, List.Perm.refl _⟩
  | cons x xs ih =>
    intro h hh
    obtain ⟨a1, a2⟩ := heapPush_spec h x hh
    obtain ⟨b1, b2⟩ := ih (heapPush h x) a1
    refine ⟨b1, b2.trans ?_⟩
    have : (xs ++ heapPush h x).Perm (xs ++ x :: h) := List.Perm.append_left xs a2
    exact this.trans (by simp)

theorem GetTotalOrder_spec (gd : GhostDAG) (iter : List Block) (hiter : iter.Perm gd.stored) :
    ∃ out, gd.GetTotalOrder iter = Except.ok out ∧ out.Perm gd.stored ∧
      out.Pairwise blockLe := by
  unfold GhostDAG.GetTotalOrder
  by_cases h0 : gd.blocks.length = 0
  · have : gd.blocks = [] := List.length_eq_zero.1 h0
    refine ⟨[], by simp [h0], ?_, List.Pairwise.nil⟩
    simp [GhostDAG.stored, this]
  · rw [if_neg h0]
    have hinit : heapInit [] = [] := rfl
    rw [hinit]
    have hnil : HeapOn ([] : BlockHeap) ([] : BlockHeap).length := by
      intro k _ hk; simp at hk
    obtain ⟨a1, a2⟩ := foldl_heapPush_spec iter [] hnil
    obtain ⟨out, e, p, s⟩ := drainHeap_spec _ _ [] a1 (le_refl _)
    refine ⟨out, by simp [e], ?_, s⟩
    exact p.trans ((by simpa using a2 : (iter.foldl heapPush []).Perm iter).trans hiter)

/-! ## C1, C2: the total order -/

theorem mapGet_eq_none_iff {K V : Type} [DecidableEq K] (m : List (K × V)) (k : K) :
    mapGet m k = none ↔ k ∉ m.map Prod.fst := by
  induction m with
  | nil => simp [mapGet]
  | cons kv rest ih =>
    obtain ⟨k1, v1⟩ := kv
    by_cases h : k1 = k
    · simp [mapGet, h]
    · have h2 : ¬ k = k1 := fun e => h e.symm
      simp [mapGet, h, h2, ih]

theorem mapSet_of_none {K V : Type} [DecidableEq K] (m : List (K × V)) (k : K) (v : V)
    (h : mapGet m k = none) : mapSet m k v = m ++ [(k, v)] := by
  induction m with
  | nil => rfl
  | cons kv rest ih =>
    obtain ⟨k1, v1⟩ := kv
    by_cases hk : k1 = k
    · simp [mapGet, hk] at h
    · simp only [mapGet, hk, if_false] at h
      simp [mapSet, hk, ih h]

theorem AddBlock_ok_blocks (gd : GhostDAG) (block : Block) (g1 : GhostDAG)
    (h : gd.AddBlock block = (g1, none)) :
    mapGet gd.blocks block.Hash = none ∧ g1.blocks = gd.blocks ++ [(block.Hash, block)] := by
  unfold GhostDAG.AddBlock at h
  cases hg : mapGet gd.blocks block.Hash with
  | some b => rw [hg] at h; simp at h
  | none =>
    rw [hg] at h
    simp only [Prod.mk.injEq, and_true] at h
    refine ⟨rfl, ?_⟩
    rw [← h]
    exact mapSet_of_none _ _ _ hg

theorem AddBlocks_blocks : ∀ (bs : List Block) (gd g : GhostDAG), gd.AddBlocks bs = some g →
    g.blocks = gd.blocks ++ bs.map (fun b => (b.Hash, b)) ∧
      (∀ b ∈ bs, b.Hash ∉ gd.blocks.map Prod.fst) ∧ (bs.map (fun b => b.Hash)).Nodup := by
  intro bs
  induction bs with
  | nil =>
    intro gd g h
    simp only [GhostDAG.AddBlocks, Option.some.injEq] at h
    subst h
    simp
  | cons b rest ih =>
    intro gd g h
    simp only [GhostDAG.AddBlocks] at h
    rcases hab : gd.AddBlock b with ⟨g1, err⟩
    rw [hab] at h
    cases err with
    | some e => simp at h
    | none =>
      simp only at h
      obtain ⟨hnone, hblocks⟩ := AddBlock_ok_blocks gd b g1 hab
      obtain ⟨e1, e2, e3⟩ := ih g1 g h
      refine ⟨?_, ?_, ?_⟩
      · rw [e1, hblocks]; simp
      · intro b' hb'
        rcases List.mem_cons.1 hb' with hb' | hb'
        · subst hb'; exact (mapGet_eq_none_iff _ _).1 hnone
        · have := e2 b' hb'
          rw [hblocks] at this
          simp only [List.map_append, List.mem_append, not_or] at this
          exact this.1
      · simp only [List.map_cons, List.nodup_cons]
        refine ⟨?_, e3⟩
        intro hmem
        obtain ⟨b', hb', hh⟩ := List.mem_map.1 hmem
        have := e2 b' hb'
        rw [hblocks] at this
        simp [hh] at this

theorem blockLess_of_le_of_ne {a b : Block} (h : blockLe a b) (hne : a.Hash ≠ b.Hash) :
    blockLess a b = true := by
  rw [blockLe_iff] at h
  rw [blockLess_iff]
  rcases h with h | ⟨h1, h | ⟨h2, h⟩⟩
  · exact Or.inl h
  · exact Or.inr ⟨h1, Or.inl h⟩
  · exact Or.inr ⟨h1, Or.inr ⟨h2, lt_of_le_of_ne h hne⟩⟩

theorem sorted_unique {l1 l2 : List Block} (hp : l1.Perm l2)
    (hn : (l1.map (fun b => b.Hash)).Nodup)
    (h1 : l1.Pairwise blockLe) (h2 : l2.Pairwise blockLe) : l1 = l2 := by
  have hn2 : (l2.map (fun b => b.Hash)).Nodup := (hp.map _).nodup_iff.1 hn
  have strict : ∀ l : List Block, (l.map (fun b => b.Hash)).Nodup → l.Pairwise blockLe →
      l.Pairwise (fun a b => blockLess a b = true) := by
    intro l hnd hs
    have hnd' : l.Pairwise (fun a b => a.Hash ≠ b.Hash) := by
      simpa [List.Nodup, List.pairwise_map] using hnd
    exact (hs.and hnd').imp (fun h => blockLess_of_le_of_ne h.1 h.2)
  haveI : IsAntisymm Block (fun a b => blockLess a b = true) :=
    ⟨fun a b hab hba => by
      have := blockLe_of_less hab
      unfold blockLe at this
      rw [this] at hba
      exact absurd hba (by simp)⟩
  exact List.eq_of_perm_of_sorted hp (strict l1 hn h1) (strict l2 hn2 h2)

theorem mem_of_mapGet {K V : Type} [DecidableEq K] (m : List (K × V)) (k : K) (v : V)
    (h : mapGet m k = some v) : v ∈ m.map Prod.snd := by
  induction m with
  | nil => simp [mapGet] at h
  | cons kv rest ih =>
    obtain ⟨k1, v1⟩ := kv
    by_cases hk : k1 = k
    · simp only [mapGet, hk, if_true, Option.some.injEq] at h
      simp [h]
    · simp only [mapGet, hk, if_false] at h
      simp [ih h]

/-- C1: for every block graph and every order in which the block map is iterated,
`GetTotalOrder` returns (without error) a list that holds every stored block exactly once
(a permutation of the stored blocks: it has `GetBlockCount` elements and contains every
block that `GetBlock` returns) and is ordered by `BlueScore` descending, then `BlueWork`
descending, then `Hash` ascending; on the empty graph it returns the empty list. -/
theorem GetTotalOrder_sorted_permutation (gd : GhostDAG) (iter : List Block)
    (hiter : iter.Perm gd.stored) :
    ∃ ordered, gd.GetTotalOrder iter = Except.ok ordered ∧ ordered.Perm gd.stored ∧
      ordered.length = gd.GetBlockCount ∧
      (∀ hash b, gd.GetBlock hash = some b → b ∈ ordered) ∧
      ordered.Pairwise (fun a b => a.BlueScore > b.BlueScore ∨ (a.BlueScore = b.BlueScore ∧
        (a.BlueWork > b.BlueWork ∨ (a.BlueWork = b.BlueWork ∧ a.Hash ≤ b.Hash)))) ∧
      (gd.GetBlockCount = 0 → ordered = []) := by
  obtain ⟨out, e, p, s⟩ := GetTotalOrder_spec gd iter hiter
  refine ⟨out, e, p, ?_, ?_, s.imp (fun h => (blockLe_iff _ _).1 h), ?_⟩
  · rw [p.length_eq]; simp [GhostDAG.stored, GhostDAG.GetBlockCount]
  · intro hash b hb
    exact p.symm.subset (mem_of_mapGet gd.blocks hash b hb)
  · intro h0
    have : gd.blocks = [] := List.length_eq_zero.1 h0
    have hs : gd.stored = [] := by simp [GhostDAG.stored, this]
    rw [hs] at p
    exact List.Perm.eq_nil p

/-- Witness of C1 on the three-block example graph, iterated in reverse order; the call
returns the blocks `c3`, `b2`, `a1`. -/
theorem GetTotalOrder_sorted_permutation_witness :
    exampleBlocks.reverse.Perm exampleGraph.stored ∧
    exampleGraph.GetTotalOrder exampleBlocks.reverse =
      Except.ok [exampleBlock "c3" 3 5, exampleBlock "b2" 3 0, exampleBlock "a1" 1 0] ∧
    ∃ ordered, exampleGraph.GetTotalOrder exampleBlocks.reverse = Except.ok ordered ∧
      ordered.Perm exampleGraph.stored ∧
      ordered.length = exampleGraph.GetBlockCount ∧
      (∀ hash b, exampleGraph.GetBlock hash = some b → b ∈ ordered) ∧
      ordered.Pairwise (fun a b => a.BlueScore > b.BlueScore ∨ (a.BlueScore = b.BlueScore ∧
        (a.BlueWork > b.BlueWork ∨ (a.BlueWork = b.BlueWork ∧ a.Hash ≤ b.Hash)))) ∧
      (exampleGraph.GetBlockCount = 0 → ordered = []) :=
  ⟨by decide, by decide, GetTotalOrder_sorted_permutation exampleGraph exampleBlocks.reverse
    (by decide)⟩

/-- C2: `GetTotalOrder` depends on the set of stored blocks only. Two sequences of
successful `AddBlock` calls on the empty graph that insert the same blocks in different
orders lead, for any iteration orders of the two block maps, to the same result. -/
theorem GetTotalOrder_deterministic (bs1 bs2 : List Block) (g1 g2 : GhostDAG)
    (iter1 iter2 : List Block) (hperm : bs1.Perm bs2)
    (h1 : NewGhostDAG.AddBlocks bs1 = some g1) (h2 : NewGhostDAG.AddBlocks bs2 = some g2)
    (hiter1 : iter1.Perm g1.stored) (hiter2 : iter2.Perm g2.stored) :
    g1.GetTotalOrder iter1 = g2.GetTotalOrder iter2 := by
  obtain ⟨a1, _, a3⟩ := AddBlocks_blocks bs1 NewGhostDAG g1 h1
  obtain ⟨b1, _, _⟩ := AddBlocks_blocks bs2 NewGhostDAG g2 h2
  have s1 : g1.stored = bs1 := by
    simp [GhostDAG.stored, a1, NewGhostDAG, Function.comp_def]
  have s2 : g2.stored = bs2 := by
    simp [GhostDAG.stored, b1, NewGhostDAG, Function.comp_def]
  obtain ⟨o1, e1, p1, q1⟩ := GetTotalOrder_spec g1 iter1 hiter1
  obtain ⟨o2, e2, p2, q2⟩ := GetTotalOrder_spec g2 iter2 hiter2
  rw [e1, e2]
  have hp : o1.Perm o2 := by
    rw [s1] at p1; rw [s2] at p2
    exact p1.trans (hperm.trans p2.symm)
  have hn : (o1.map (fun b => b.Hash)).Nodup := by
    rw [s1] at p1
    exact (p1.map _).nodup_iff.2 a3
  rw [sorted_unique hp hn q1 q2]

/-- Witness of C2: the three example blocks inserted in two different orders, each graph
iterated in yet another order. -/
theorem GetTotalOrder_deterministic_witness :
    exampleBlocks.Perm exampleBlocksShuffled ∧
    NewGhostDAG.AddBlocks exampleBlocks = some exampleGraph ∧
    NewGhostDAG.AddBlocks exampleBlocksShuffled = some exampleGraphShuffled ∧
    exampleBlocks.reverse.Perm exampleGraph.stored ∧
    exampleBlocks.Perm exampleGraphShuffled.stored ∧
    exampleGraph.GetTotalOrder exampleBlocks.reverse =
      exampleGraphShuffled.GetTotalOrder exampleBlocks :=
  ⟨by decide, by decide, by decide, by decide, by decide,
    GetTotalOrder_deterministic exampleBlocks exampleBlocksShuffled exampleGraph
      exampleGraphShuffled exampleBlocks.reverse exampleBlocks
      (by decide) (by decide) (by decide) (by decide) (by decide)⟩

/-! ## C3, C4, C5: insertion into the block graph -/

theorem mapGet_mapSet_same {K V : Type} [DecidableEq K] (m : List (K × V)) (k : K) (v : V) :
    mapGet (mapSet m k v) k = some v := by
  induction m with
  | nil => simp [mapSet, mapGet]
  | cons kv rest ih =>
    obtain ⟨k1, v1⟩ := kv
    by_cases h : k1 = k
    · simp [mapSet, mapGet, h]
    · simp [mapSet, mapGet, h, ih]

theorem mapGet_mapSet_other {K V : Type} [DecidableEq K] (m : List (K × V)) (k k' : K) (v : V)
    (hne : k' ≠ k) : mapGet (mapSet m k v) k' = mapGet m k' := by
  induction m with
  | nil =>
    have : ¬ k = k' := fun e => hne e.symm
    simp [mapSet, mapGet, this]
  | cons kv rest ih =>
    obtain ⟨k1, v1⟩ := kv
    by_cases h : k1 = k
    · subst h
      have : ¬ k1 = k' := fun e => hne e.symm
      simp [mapSet, mapGet, this]
    · by_cases h2 : k1 = k'
      · subst h2
        simp [mapSet, mapGet, h]
      · simp [mapSet, mapGet, h, h2, ih]

theorem AddBlock_of_absent (gd : GhostDAG) (block : Block)
    (h : gd.GetBlock block.Hash = none) :
    gd.AddBlock block =
      ({ gd with blocks := mapSet gd.blocks block.Hash block,
                 heap := heapPush gd.heap block }, none) := by
  unfold GhostDAG.GetBlock at h
  simp [GhostDAG.AddBlock, h]

theorem AddBlock_of_present (gd : GhostDAG) (block b : Block)
    (h : gd.GetBlock block.Hash = some b) :
    gd.AddBlock block = (gd, some (DagError.alreadyExists block.Hash)) := by
  unfold GhostDAG.GetBlock at h
  simp [GhostDAG.AddBlock, h]

theorem GetBlock_AddBlock_same (gd : GhostDAG) (block : Block)
    (h : gd.GetBlock block.Hash = none) :
    (gd.AddBlock block).1.GetBlock block.Hash = some block := by
  rw [AddBlock_of_absent gd block h]
  exact mapGet_mapSet_same _ _ _

theorem GetBlock_AddBlock_other (gd : GhostDAG) (block : Block) (hash : String)
    (h : gd.GetBlock block.Hash = none) (hne : hash ≠ block.Hash) :
    (gd.AddBlock block).1.GetBlock hash = gd.GetBlock hash := by
  rw [AddBlock_of_absent gd block h]
  exact mapGet_mapSet_other _ _ _ _ hne

theorem GetBlock_AddBlock_mono (gd : GhostDAG) (block : Block) (hash : String) (b : Block)
    (h : gd.GetBlock block.Hash = none) (hb : gd.GetBlock hash = some b) :
    (gd.AddBlock block).1.GetBlock hash = some b := by
  have hne : hash ≠ block.Hash := by
    intro e; rw [e, h] at hb; simp at hb
  rw [GetBlock_AddBlock_other gd block hash h hne, hb]

theorem checkParentsExist_ok (dag : GhostDAG) (ps : List String) :
    checkParentsExist dag ps = Except.ok () ↔ ∀ p ∈ ps, ∃ pb, dag.GetBlock p = some pb := by
  induction ps with
  | nil => simp [checkParentsExist]
  | cons p rest ih =>
    cases hp : dag.GetBlock p with
    | none => simp [checkParentsExist, hp]
    | some pb => simp [checkParentsExist, hp, ih]

theorem checkParentHeights_ok (block : Block) (dag : GhostDAG) (ps : List String) :
    checkParentHeights block dag ps = Except.ok () ↔
      ∀ p ∈ ps, ∃ pb, dag.GetBlock p = some pb ∧ pb.Height < block.Height := by
  induction ps with
  | nil => simp [checkParentHeights]
  | cons p rest ih =>
    cases hp : dag.GetBlock p with
    | none => simp [checkParentHeights, hp]
    | some pb =>
      by_cases hh : block.Height ≤ pb.Height
      · simp [checkParentHeights, hp, hh]
      · simp only [checkParentHeights, hp, hh, if_false, ih]
        simp only [List.mem_cons, forall_eq_or_imp, hp, Option.some.injEq, exists_eq_left']
        constructor
        · intro h; exact ⟨by omega, h⟩
        · intro h; exact h.2

theorem validateParents_ok (block : Block) (dag : GhostDAG) :
    validateParents block dag = Except.ok () ↔
      dag.GetBlock block.Hash = none ∧ ∀ p ∈ block.Parents, ∃ pb, dag.GetBlock p = some pb := by
  unfold validateParents
  cases h : dag.GetBlock block.Hash with
  | none => simp [checkParentsExist_ok]
  | some b => simp

/-- The shape of an accepting run of `ValidateBlock`: every check passed, in particular
`SelectValidator` did not panic, and the engine recorded the participation. -/
theorem ValidateBlock_ok_iff (keccakHex : String → String) (currentTime unixNano : Int)
    (block : Block) (dag : GhostDAG) (posEngine posEngine1 : POSEngine) :
    ValidateBlock keccakHex currentTime unixNano block dag posEngine = some (Except.ok posEngine1) ↔
      validateHash keccakHex block = Except.ok () ∧
      validateProducer block posEngine = Except.ok () ∧
      validateParents block dag = Except.ok () ∧
      validateTimestamp currentTime block = Except.ok () ∧
      validateNoCycles block dag = Except.ok () ∧
      validateSignature block = Except.ok () ∧
      validateAuthorization unixNano posEngine = some (Except.ok ()) ∧
      posEngine1 = posEngine.RecordParticipation (block.Height % 2 ^ 64).toNat block.ProducerID := by
  unfold ValidateBlock
  rcases h1 : validateHash keccakHex block with e | u
  · simp
  rcases h2 : validateProducer block posEngine with e | u
  · simp
  rcases h3 : validateParents block dag with e | u
  · simp
  rcases h4 : validateTimestamp currentTime block with e | u
  · simp
  rcases h5 : validateNoCycles block dag with e | u
  · simp
  rcases h6 : validateSignature block with e | u
  · simp
  rcases h7 : validateAuthorization unixNano posEngine with _ | (e | u)
  · simp
  · simp
  · simp only [Option.some.injEq, Except.ok.injEq, true_and]
    exact eq_comm

theorem ValidateBlock_AddBlock_preserves (keccakHex : String → String) (currentTime unixNano : Int)
    (block : Block) (dag : GhostDAG) (posEngine posEngine1 : POSEngine)
    (hinv : dag.ParentsBelow)
    (hval : ValidateBlock keccakHex currentTime unixNano block dag posEngine =
      some (Except.ok posEngine1)) :
    (dag.AddBlock block).2 = none ∧ (dag.AddBlock block).1.ParentsBelow := by
  obtain ⟨_, _, h3, _, h5, _⟩ := (ValidateBlock_ok_iff _ _ _ _ _ _ _).1 hval
  obtain ⟨hfresh, _⟩ := (validateParents_ok _ _).1 h3
  have hheights := (checkParentHeights_ok block dag block.Parents).1 h5
  refine ⟨by rw [AddBlock_of_absent dag block hfresh], ?_⟩
  intro h b hb p hp
  by_cases hh : h = block.Hash
  · subst hh
    rw [GetBlock_AddBlock_same dag block hfresh] at hb
    simp only [Option.some.injEq] at hb
    subst hb
    obtain ⟨pb, e1, e2⟩ := hheights p hp
    exact ⟨pb, GetBlock_AddBlock_mono dag block p pb hfresh e1, e2⟩
  · rw [GetBlock_AddBlock_other dag block h hfresh hh] at hb
    obtain ⟨pb, e1, e2⟩ := hinv h b hb p hp
    exact ⟨pb, GetBlock_AddBlock_mono dag block p pb hfresh e1, e2⟩

theorem ValidateBlock_rejects_low_height (keccakHex : String → String)
    (currentTime unixNano : Int) (block : Block) (dag : GhostDAG) (posEngine : POSEngine)
    (p : String) (pb : Block) (hp : p ∈ block.Parents) (hpb : dag.GetBlock p = some pb)
    (hh : block.Height ≤ pb.Height) (posEngine1 : POSEngine) :
    ValidateBlock keccakHex currentTime unixNano block dag posEngine ≠
      some (Except.ok posEngine1) := by
  intro hval
  obtain ⟨_, _, _, _, h5, _⟩ := (ValidateBlock_ok_iff _ _ _ _ _ _ _).1 hval
  obtain ⟨pb', e1, e2⟩ := (checkParentHeights_ok block dag block.Parents).1 h5 p hp
  rw [hpb] at e1
  simp only [Option.some.injEq] at e1
  subst e1
  omega

theorem validateNoCycles_single (block : Block) (dag : GhostDAG) (p : String) (pb : Block)
    (hp : block.Parents = [p]) (hpb : dag.GetBlock p = some pb)
    (hh : block.Height ≤ pb.Height) :
    validateNoCycles block dag =
      Except.error (ValidationError.cycleDetected block.Height pb.Height) := by
  simp [validateNoCycles, hp, checkParentHeights, hpb, hh]

theorem ValidateBlock_at_noCycles (keccakHex : String → String) (currentTime unixNano : Int)
    (block : Block) (dag : GhostDAG) (posEngine : POSEngine) (err : ValidationError)
    (h1 : validateHash keccakHex block = Except.ok ())
    (h2 : validateProducer block posEngine = Except.ok ())
    (h3 : validateParents block dag = Except.ok ())
    (h4 : validateTimestamp currentTime block = Except.ok ())
    (h5 : validateNoCycles block dag = Except.error err) :
    ValidateBlock keccakHex currentTime unixNano block dag posEngine =
      some (Except.error (ValidationError.blockRejected err)) := by
  simp [ValidateBlock, h1, h2, h3, h4, h5]

theorem checkParentHeights_cycle (block : Block) (dag : GhostDAG) :
    ∀ ps : List String, (∀ q ∈ ps, ∃ qb, dag.GetBlock q = some qb) →
      (∃ p ∈ ps, ∃ pb, dag.GetBlock p = some pb ∧ block.Height ≤ pb.Height) →
      ∃ q ∈ ps, ∃ qb, dag.GetBlock q = some qb ∧ block.Height ≤ qb.Height ∧
        checkParentHeights block dag ps =
          Except.error (ValidationError.cycleDetected block.Height qb.Height) := by
  intro ps
  induction ps with
  | nil => rintro _ ⟨p, hp, _⟩; simp at hp
  | cons q rest ih =>
    intro hall hex
    obtain ⟨qb, hq⟩ := hall q (List.mem_cons_self _ _)
    by_cases hh : block.Height ≤ qb.Height
    · exact ⟨q, List.mem_cons_self _ _, qb, hq, hh, by simp [checkParentHeights, hq, hh]⟩
    · have hex' : ∃ p ∈ rest, ∃ pb, dag.GetBlock p = some pb ∧ block.Height ≤ pb.Height := by
        obtain ⟨p, hp, pb, hpb, hle⟩ := hex
        rcases List.mem_cons.1 hp with e | hp'
        · subst e
          rw [hq] at hpb
          simp only [Option.some.injEq] at hpb
          subst hpb
          exact absurd hle hh
        · exact ⟨p, hp', pb, hpb, hle⟩
      obtain ⟨r, hr, rb, hrb, hle, e⟩ :=
        ih (fun x hx => hall x (List.mem_cons_of_mem _ hx)) hex'
      exact ⟨r, List.mem_cons_of_mem _ hr, rb, hrb, hle, by
        simp [checkParentHeights, hq, hh, e]⟩

/-- The part of the parent/height scenario that holds on the code: the invariant is kept
by validated insertion. If every parent of
every stored block is stored and has a strictly smaller `Height`, then `AddBlock` of any
block accepted by `ValidateBlock` succeeds and the invariant holds again. A block with a
stored parent whose `Height` is not smaller than its own (height 5 with a parent of height
5) is never accepted: the height check returns the cycle-detected error for it (naming
that parent when it is the only one), and this is the error of `ValidateBlock` whenever
the hash, producer, parent and timestamp checks that run before the height check pass. -/
theorem ValidateBlock_keeps_parent_height_invariant (keccakHex : String → String)
    (currentTime unixNano : Int) (dag : GhostDAG) (posEngine : POSEngine)
    (hinv : dag.ParentsBelow) :
    (∀ block posEngine1,
      ValidateBlock keccakHex currentTime unixNano block dag posEngine =
        some (Except.ok posEngine1) →
      (dag.AddBlock block).2 = none ∧ (dag.AddBlock block).1.ParentsBelow) ∧
    (∀ block p pb, p ∈ block.Parents → dag.GetBlock p = some pb →
      block.Height ≤ pb.Height →
      (∀ posEngine1, ValidateBlock keccakHex currentTime unixNano block dag posEngine ≠
        some (Except.ok posEngine1)) ∧
      (block.Parents = [p] →
        validateNoCycles block dag =
          Except.error (ValidationError.cycleDetected block.Height pb.Height)) ∧
      (validateHash keccakHex block = Except.ok () →
        validateProducer block posEngine = Except.ok () →
        validateParents block dag = Except.ok () →
        validateTimestamp currentTime block = Except.ok () →
        ∃ q ∈ block.Parents, ∃ qb, dag.GetBlock q = some qb ∧ block.Height ≤ qb.Height ∧
          (block.Parents = [p] → qb = pb) ∧
          ValidateBlock keccakHex currentTime unixNano block dag posEngine =
            some (Except.error (ValidationError.blockRejected
              (ValidationError.cycleDetected block.Height qb.Height))))) := by
  refine ⟨fun block posEngine1 hval =>
    ValidateBlock_AddBlock_preserves _ _ _ _ _ _ _ hinv hval, ?_⟩
  intro block p pb hp hpb hh
  refine ⟨fun posEngine1 => ValidateBlock_rejects_low_height _ _ _ _ _ _ p pb hp hpb hh _,
    fun hsingle => validateNoCycles_single block dag p pb hsingle hpb hh, ?_⟩
  intro h1 h2 h3 h4
  obtain ⟨_, hall⟩ := (validateParents_ok block dag).1 h3
  obtain ⟨q, hq, qb, hqb, hle, e⟩ :=
    checkParentHeights_cycle block dag block.Parents hall ⟨p, hp, pb, hpb, hh⟩
  refine ⟨q, hq, qb, hqb, hle, ?_, ValidateBlock_at_noCycles _ _ _ _ _ _ _ h1 h2 h3 h4 e⟩
  intro hsingle
  rw [hsingle] at hq
  simp only [List.mem_singleton] at hq
  subst hq
  rw [hpb] at hqb
  simp only [Option.some.injEq] at hqb
  exact hqb.symm

set_option maxRecDepth 100000

theorem exampleParentGraph_ParentsBelow : exampleParentGraph.ParentsBelow := by
  intro h b hb p hp
  have hb' : (if "B" = h then some exampleParent else none) = some b := hb
  split_ifs at hb' with hh
  · simp only [Option.some.injEq] at hb'
    subst hb'
    have hnil : exampleParent.Parents = [] := rfl
    rw [hnil] at hp
    simp at hp

/-- An instance on the graph that holds a block `B` of height 5: a child of height 6 is
accepted and inserted, the block `A` of height 5 with parent `B`, whose hash and producer
are valid, gets the cycle-detected error. -/
theorem ValidateBlock_keeps_parent_height_invariant_witness :
    exampleParentGraph.ParentsBelow ∧
    ValidateBlock exampleKeccakHex 1000 12345 exampleChild exampleParentGraph exampleEngine =
      some (Except.ok (exampleEngine.RecordParticipation 6 "v1")) ∧
    (exampleParentGraph.AddBlock exampleChild).1.ParentsBelow ∧
    exampleCycleBlock.Height = 5 ∧
    exampleParentGraph.GetBlock "B" = some exampleParent ∧ exampleParent.Height = 5 ∧
    ValidateBlock exampleKeccakHex 1000 12345 exampleCycleBlock exampleParentGraph exampleEngine =
      some (Except.error (ValidationError.blockRejected (ValidationError.cycleDetected 5 5))) := by
  have key := ValidateBlock_keeps_parent_height_invariant exampleKeccakHex 1000 12345
    exampleParentGraph exampleEngine exampleParentGraph_ParentsBelow
  have hv : ValidateBlock exampleKeccakHex 1000 12345 exampleChild exampleParentGraph
      exampleEngine = some (Except.ok (exampleEngine.RecordParticipation 6 "v1")) := by decide
  refine ⟨exampleParentGraph_ParentsBelow, hv, (key.1 _ _ hv).2, rfl, by decide, rfl, ?_⟩
  obtain ⟨q, _, qb, _, _, hqb, hres⟩ :=
    (key.2 exampleCycleBlock "B" exampleParent (by decide) (by decide) (by decide)).2.2
      (by decide) (by decide) (by decide) (by decide)
  have e : qb = exampleParent := hqb (by decide)
  subst e
  exact hres

/-- C3 (defect): a block that is not higher than its parent gets the cycle-detected error
from the height check, but `ValidateBlock` runs the hash check first. The block of the
test case `Cycle Detection - Height Not Increasing` (hash `test_block_8`, height 0, parent
`genesis` of height 0) is answered with invalid hash, where the test expects cycle
detected; whatever the Keccak rendering is, the answer is never the cycle-detected error,
since the producer check, which also runs before the height check, fails as well. The
block of height 5 with the parent `B` of height 5 and the same hash is answered with
invalid hash too. -/
theorem ValidateBlock_reports_hash_before_cycle :
    exampleTestGraph.GetBlock "genesis" = some exampleTestGenesis ∧
    exampleTestGenesis.Height = 0 ∧
    exampleCycleFixture.Parents = ["genesis"] ∧ exampleCycleFixture.Height = 0 ∧
    validateNoCycles exampleCycleFixture exampleTestGraph =
      Except.error (ValidationError.cycleDetected 0 0) ∧
    ValidateBlock exampleKeccakHex 1000 12345 exampleCycleFixture exampleTestGraph
        exampleZeroEngine =
      some (Except.error (ValidationError.blockRejected
        (ValidationError.invalidHash "0011223344556677" "test_block_8"))) ∧
    (∀ keccakHex : String → String,
      ValidateBlock keccakHex 1000 12345 exampleCycleFixture exampleTestGraph
          exampleZeroEngine ≠
        some (Except.error (ValidationError.blockRejected
          (ValidationError.cycleDetected 0 0)))) ∧
    exampleParentGraph.GetBlock "B" = some exampleParent ∧ exampleParent.Height = 5 ∧
    exampleCycleStale.Parents = ["B"] ∧ exampleCycleStale.Height = 5 ∧
    validateNoCycles exampleCycleStale exampleParentGraph =
      Except.error (ValidationError.cycleDetected 5 5) ∧
    ValidateBlock exampleKeccakHex 1000 12345 exampleCycleStale exampleParentGraph
        exampleEngine =
      some (Except.error (ValidationError.blockRejected
        (ValidationError.invalidHash "0011223344556677" "test_block_8"))) := by
  refine ⟨by decide, by decide, by decide, by decide, by decide, by decide, ?_, by decide,
    by decide, by decide, by decide, by decide, by decide⟩
  intro keccakHex
  have hprod : validateProducer exampleCycleFixture exampleZeroEngine =
      Except.error (ValidationError.unknownProducer "") := by decide
  unfold ValidateBlock
  rcases h1 : validateHash keccakHex exampleCycleFixture with e | u
  · simp only [ne_eq, Option.some.injEq, Except.error.injEq, ValidationError.blockRejected.injEq]
    intro he
    unfold validateHash at h1
    simp only at h1
    split_ifs at h1
    rw [← Except.error.inj h1] at he
    cases he
  · simp only [hprod]
    simp

theorem checkParentsExist_missing (dag : GhostDAG) (ps : List String) (p : String)
    (hp : p ∈ ps) (hnone : dag.GetBlock p = none) :
    ∃ err, checkParentsExist dag ps = Except.error err := by
  rcases h : checkParentsExist dag ps with e | u
  · exact ⟨e, rfl⟩
  · obtain ⟨pb, hpb⟩ := (checkParentsExist_ok dag ps).1 h p hp
    rw [hnone] at hpb
    simp at hpb

theorem ValidateBlock_rejects_of_parents_error (keccakHex : String → String)
    (currentTime unixNano : Int) (block : Block) (dag : GhostDAG) (posEngine : POSEngine)
    (h : validateParents block dag ≠ Except.ok ()) :
    ∃ err, ValidateBlock keccakHex currentTime unixNano block dag posEngine =
      some (Except.error err) := by
  unfold ValidateBlock
  rcases h1 : validateHash keccakHex block with e | u
  · exact ⟨_, rfl⟩
  rcases h2 : validateProducer block posEngine with e | u
  · exact ⟨_, rfl⟩
  rcases h3 : validateParents block dag with e | u
  · exact ⟨_, rfl⟩
  · exact absurd h3 h

theorem ValidateBlock_rejects_of_noCycles_error (keccakHex : String → String)
    (currentTime unixNano : Int) (block : Block) (dag : GhostDAG) (posEngine : POSEngine)
    (h : validateNoCycles block dag ≠ Except.ok ()) :
    ∃ err, ValidateBlock keccakHex currentTime unixNano block dag posEngine =
      some (Except.error err) := by
  unfold ValidateBlock
  rcases h1 : validateHash keccakHex block with e | u
  · exact ⟨_, rfl⟩
  rcases h2 : validateProducer block posEngine with e | u
  · exact ⟨_, rfl⟩
  rcases h3 : validateParents block dag with e | u
  · exact ⟨_, rfl⟩
  rcases h4 : validateTimestamp currentTime block with e | u
  · exact ⟨_, rfl⟩
  rcases h5 : validateNoCycles block dag with e | u
  · exact ⟨_, rfl⟩
  · exact absurd h5 h

/-- Counterexample to C4: `AddBlock` inserts a block whose only parent is not stored, and
it inserts a block of height 5 under a stored parent of height 5. -/
theorem AddBlock_accepts_orphan_and_cycle :
    ("missing" ∈ exampleOrphan.Parents ∧ NewGhostDAG.GetBlock "missing" = none ∧
      (NewGhostDAG.AddBlock exampleOrphan).2 = none ∧
      (NewGhostDAG.AddBlock exampleOrphan).1.GetBlock "orphan" = some exampleOrphan) ∧
    ("B" ∈ exampleCycleBlock.Parents ∧
      exampleParentGraph.GetBlock "B" = some exampleParent ∧
      exampleCycleBlock.Height ≤ exampleParent.Height ∧
      (exampleParentGraph.AddBlock exampleCycleBlock).2 = none ∧
      (exampleParentGraph.AddBlock exampleCycleBlock).1.GetBlock exampleCycleBlock.Hash =
        some exampleCycleBlock) := by
  decide

/-- C4 as amended: `AddBlock` checks for a duplicate hash and nothing else. It returns an
error and leaves the graph unchanged when `block.Hash` is already stored, and inserts
every other block, whatever its parents and `Height`. Parent reachability and acyclicity
are enforced by `ValidateBlock`: it returns an error for every block that has a parent
not present in the graph or whose `Height` is at most the `Height` of one of its
parents. -/
theorem AddBlock_checks_duplicates_only (keccakHex : String → String)
    (currentTime unixNano : Int) (dag : GhostDAG) (posEngine : POSEngine) (block : Block) :
    ((∃ b, dag.GetBlock block.Hash = some b) →
      (dag.AddBlock block).2 = some (DagError.alreadyExists block.Hash) ∧
      (dag.AddBlock block).1 = dag) ∧
    (dag.GetBlock block.Hash = none →
      (dag.AddBlock block).2 = none ∧
      (dag.AddBlock block).1.GetBlock block.Hash = some block) ∧
    (((∃ p ∈ block.Parents, dag.GetBlock p = none) ∨
        (∃ p ∈ block.Parents, ∃ pb, dag.GetBlock p = some pb ∧ block.Height ≤ pb.Height)) →
      ∃ err, ValidateBlock keccakHex currentTime unixNano block dag posEngine =
        some (Except.error err)) := by
  refine ⟨?_, ?_, ?_⟩
  · rintro ⟨b, hb⟩
    rw [AddBlock_of_present dag block b hb]
    exact ⟨rfl, rfl⟩
  · intro h
    exact ⟨by rw [AddBlock_of_absent dag block h], GetBlock_AddBlock_same dag block h⟩
  · rintro (⟨p, hp, hnone⟩ | ⟨p, hp, pb, hpb, hh⟩)
    · apply ValidateBlock_rejects_of_parents_error
      intro hok
      obtain ⟨pb, hpb⟩ := ((validateParents_ok block dag).1 hok).2 p hp
      rw [hnone] at hpb
      simp at hpb
    · apply ValidateBlock_rejects_of_noCycles_error
      intro hok
      obtain ⟨pb', e1, e2⟩ := (checkParentHeights_ok block dag block.Parents).1 hok p hp
      rw [hpb] at e1
      simp only [Option.some.injEq] at e1
      subst e1
      omega

/-- C5: `AddBlock` returns an error if and only if a block is already stored under
`block.Hash`; on error the graph is unchanged; on success `GetBlock(block.Hash)` returns
the added block, `GetBlockCount` grows by exactly one and every block returned by
`GetBlock` before is still returned. -/
theorem AddBlock_contract (gd : GhostDAG) (block : Block) :
    ((gd.AddBlock block).2 ≠ none ↔ ∃ b, gd.GetBlock block.Hash = some b) ∧
    ((gd.AddBlock block).2 ≠ none → (gd.AddBlock block).1 = gd) ∧
    ((gd.AddBlock block).2 = none →
      (gd.AddBlock block).1.GetBlock block.Hash = some block ∧
      (gd.AddBlock block).1.GetBlockCount = gd.GetBlockCount + 1 ∧
      ∀ hash b, gd.GetBlock hash = some b → (gd.AddBlock block).1.GetBlock hash = some b) := by
  cases h : gd.GetBlock block.Hash with
  | some b =>
    rw [AddBlock_of_present gd block b h]
    simp
  | none =>
    have hadd := AddBlock_of_absent gd block h
    refine ⟨by rw [hadd]; simp, by rw [hadd]; simp, fun _ => ⟨?_, ?_, ?_⟩⟩
    · exact GetBlock_AddBlock_same gd block h
    · rw [hadd]
      simp only [GhostDAG.GetBlockCount]
      rw [mapSet_of_none _ _ _ h]
      simp
    · intro hash b hb
      exact GetBlock_AddBlock_mono gd block hash b h hb

/-! ## C6, C7, C8: stake snapshots and leader selection -/

/-- C6 (defect): after `RemoveValidator` the stake map of the latest snapshot has lost the
validator, its `Total` has not changed; after `UpdateValidatorStake` the map holds the
new stake, `Total` still the old sum. In both states `Total` differs from the sum of the
map. -/
theorem snapshot_total_not_maintained :
    (exampleEngine.StakeHistory = [{ Layer := 0, Stake := [("v1", 100)], Total := 100 }] ∧
      exampleEngine.RemoveValidator "v1" =
        ({ exampleEngine with
            Validators := [],
            StakeHistory := [{ Layer := 0, Stake := [], Total := 100 }] }, none)) ∧
    (exampleEngine.UpdateValidatorStake "v1" 40).1.StakeHistory =
      [{ Layer := 0, Stake := [("v1", 40)], Total := 100 }] := by
  decide

/-- C7 (defect): a successful `AddValidator` appends the validator and leaves the stake
history as it was, so `GetTotalStake()` is 100 where the validators hold 100 + 50. -/
theorem AddValidator_leaves_snapshot :
    (exampleEngine.AddValidator { ID := "v2", PQPubKeyHash := "pk2", Stake := 50, Weight := 1 }).2
      = none ∧
    (exampleEngine.AddValidator
        { ID := "v2", PQPubKeyHash := "pk2", Stake := 50, Weight := 1 }).1.Validators =
      [{ ID := "v1", PQPubKeyHash := "pk1", Stake := 100, Weight := 1 },
       { ID := "v2", PQPubKeyHash := "pk2", Stake := 50, Weight := 1 }] ∧
    (exampleEngine.AddValidator
        { ID := "v2", PQPubKeyHash := "pk2", Stake := 50, Weight := 1 }).1.StakeHistory =
      [{ Layer := 0, Stake := [("v1", 100)], Total := 100 }] ∧
    (exampleEngine.AddValidator
        { ID := "v2", PQPubKeyHash := "pk2", Stake := 50, Weight := 1 }).1.GetTotalStake = 100 := by
  decide

/-- C8 (defect): with stakes 100, 200 and 700 and the target ranging over `[0, 1000)`, the
accumulation procedure of `SelectValidator` picks the three validators for 101, 200 and
699 targets; a first validator without stake is picked for the target 0. -/
theorem selection_counts_off_by_one :
    exampleSelection.StakeHistory.getLast? =
      some { Layer := 0, Stake := [("v1", 100), ("v2", 200), ("v3", 700)], Total := 1000 } ∧
    selectionCount exampleSelection
      { Layer := 0, Stake := [("v1", 100), ("v2", 200), ("v3", 700)], Total := 1000 } 1000 "v1"
        = 101 ∧
    selectionCount exampleSelection
      { Layer := 0, Stake := [("v1", 100), ("v2", 200), ("v3", 700)], Total := 1000 } 1000 "v2"
        = 200 ∧
    selectionCount exampleSelection
      { Layer := 0, Stake := [("v1", 100), ("v2", 200), ("v3", 700)], Total := 1000 } 1000 "v3"
        = 699 ∧
    exampleZeroStake.StakeHistory.getLast? =
      some { Layer := 0, Stake := [("v0", 0), ("v1", 10)], Total := 10 } ∧
    selectionCount exampleZeroStake
      { Layer := 0, Stake := [("v0", 0), ("v1", 10)], Total := 10 } 10 "v0" = 1 := by
  decide

/-! ## C9: soft finality -/

theorem wrap64_of_range (x : Int) (h1 : -(2 ^ 63) ≤ x) (h2 : x < 2 ^ 63) : wrap64 x = x := by
  unfold wrap64
  omega

theorem checkLayerStakeThreshold_eq (scale : Nat → Float64 → Nat) (p : POSEngine) (i : Int)
    (thr : Float64) (hhist : p.StakeHistory ≠ []) (hi : 0 ≤ i) :
    ∃ snap, p.StakeHistory[min i.toNat (p.StakeHistory.length - 1)]? = some snap ∧
      p.checkLayerStakeThreshold scale i thr =
        some (decide (participatingStake snap.Stake p.Validators ≥ scale snap.Total thr)) := by
  have hlen : 0 < p.StakeHistory.length := List.length_pos.2 hhist
  obtain ⟨k, hk⟩ : ∃ k, k = min i.toNat (p.StakeHistory.length - 1) := ⟨_, rfl⟩
  have hidx : k < p.StakeHistory.length := by omega
  rw [← hk]
  refine ⟨p.StakeHistory[k], List.getElem?_eq_getElem hidx, ?_⟩
  unfold POSEngine.checkLayerStakeThreshold
  by_cases hge : i ≥ (p.StakeHistory.length : Int)
  · have e : ((p.StakeHistory.length : Int) - 1).toNat = k := by omega
    simp only [hge, if_true]
    rw [if_neg (by omega), e, List.getElem?_eq_getElem hidx]
  · have e : i.toNat = k := by omega
    simp only [hge, if_false]
    rw [if_neg (by omega), e, List.getElem?_eq_getElem hidx]

theorem softFinalityLoop_spec (scale : Nat → Float64 → Nat) (p : POSEngine) (layer : Int)
    (hhist : p.StakeHistory ≠ []) (hl : layer < 2 ^ 63 - 1) :
    ∀ (fuel : Nat) (i : Int), 0 ≤ i → (layer + 1 - i).toNat < fuel →
      ∃ b, softFinalityLoop scale p layer fuel i = some b ∧
        (b = true ↔ ∀ j, i ≤ j → j ≤ layer →
          p.checkLayerStakeThreshold scale j p.FinalityConfig.SoftFinalityThreshold = some true) := by
  intro fuel
  induction fuel with
  | zero => intro i _ hf; omega
  | succ fuel ih =>
    intro i hi hf
    unfold softFinalityLoop
    by_cases hle : i ≤ layer
    · rw [if_pos hle]
      obtain ⟨snap, _, hc⟩ := checkLayerStakeThreshold_eq scale p i
        p.FinalityConfig.SoftFinalityThreshold hhist hi
      rcases hb : decide (participatingStake snap.Stake p.Validators ≥
          scale snap.Total p.FinalityConfig.SoftFinalityThreshold) with _ | _
      · rw [hb] at hc
        rw [hc]
        refine ⟨false, rfl, ?_⟩
        constructor
        · intro h; exact absurd h (by simp)
        · intro h
          have := h i (le_refl i) hle
          rw [hc] at this
          simp at this
      · rw [hb] at hc
        rw [hc]
        have hw : wrap64 (i + 1) = i + 1 := wrap64_of_range _ (by omega) (by omega)
        simp only [hw]
        obtain ⟨b, e1, e2⟩ := ih (i + 1) (by omega) (by omega)
        refine ⟨b, e1, e2.trans ?_⟩
        constructor
        · intro h j hj1 hj2
          by_cases hji : j = i
          · subst hji; exact hc
          · exact h j (by omega) hj2
        · intro h j hj1 hj2
          exact h j (by omega) hj2
    · rw [if_neg hle]
      refine ⟨true, rfl, ?_⟩
      simp only [true_iff]
      intro j hj1 hj2
      omega

theorem CheckSoftFinality_spec (scale : Nat → Float64 → Nat) (p : POSEngine) (layer : Int)
    (hhist : p.StakeHistory ≠ []) (hsfl : 0 ≤ p.FinalityConfig.SoftFinalityLayers)
    (hl : layer < 2 ^ 63 - 1) :
    ∃ b, p.CheckSoftFinality scale layer = some b ∧
      (b = true ↔ p.FinalityConfig.SoftFinalityLayers ≤ layer ∧
        ∀ j, layer - p.FinalityConfig.SoftFinalityLayers + 1 ≤ j → j ≤ layer →
          p.checkLayerStakeThreshold scale j p.FinalityConfig.SoftFinalityThreshold = some true) := by
  unfold POSEngine.CheckSoftFinality
  by_cases hlt : layer < p.FinalityConfig.SoftFinalityLayers
  · rw [if_pos hlt]
    refine ⟨false, rfl, ?_⟩
    constructor
    · intro h; exact absurd h (by simp)
    · intro h; omega
  · rw [if_neg hlt]
    have hw1 : wrap64 (layer - p.FinalityConfig.SoftFinalityLayers) =
        layer - p.FinalityConfig.SoftFinalityLayers := wrap64_of_range _ (by omega) (by omega)
    have hw2 : wrap64 (layer - p.FinalityConfig.SoftFinalityLayers + 1) =
        layer - p.FinalityConfig.SoftFinalityLayers + 1 := wrap64_of_range _ (by omega) (by omega)
    simp only [hw1, hw2]
    obtain ⟨b, e1, e2⟩ := softFinalityLoop_spec scale p layer hhist hl
      ((layer - (layer - p.FinalityConfig.SoftFinalityLayers + 1)).toNat + 2)
      (layer - p.FinalityConfig.SoftFinalityLayers + 1) (by omega) (by omega)
    refine ⟨b, e1, e2.trans ?_⟩
    constructor
    · intro h; exact ⟨by omega, h⟩
    · intro h; exact h.2

theorem checkLayerStakeThreshold_congr (scale : Nat → Float64 → Nat) (p q : POSEngine)
    (hV : p.Validators = q.Validators) (hS : p.StakeHistory = q.StakeHistory)
    (i : Int) (thr : Float64) :
    p.checkLayerStakeThreshold scale i thr = q.checkLayerStakeThreshold scale i thr := by
  unfold POSEngine.checkLayerStakeThreshold
  rw [hV, hS]

theorem softFinalityLoop_congr (scale : Nat → Float64 → Nat) (p q : POSEngine)
    (hV : p.Validators = q.Validators) (hS : p.StakeHistory = q.StakeHistory)
    (hF : p.FinalityConfig = q.FinalityConfig) (layer : Int) :
    ∀ (fuel : Nat) (i : Int),
      softFinalityLoop scale p layer fuel i = softFinalityLoop scale q layer fuel i := by
  intro fuel
  induction fuel with
  | zero => intro i; rfl
  | succ fuel ih =>
    intro i
    unfold softFinalityLoop
    rw [checkLayerStakeThreshold_congr scale p q hV hS, hF]
    simp only [ih]

theorem CheckSoftFinality_congr (scale : Nat → Float64 → Nat) (p q : POSEngine)
    (hV : p.Validators = q.Validators) (hS : p.StakeHistory = q.StakeHistory)
    (hF : p.FinalityConfig = q.FinalityConfig) (layer : Int) :
    p.CheckSoftFinality scale layer = q.CheckSoftFinality scale layer := by
  unfold POSEngine.CheckSoftFinality
  rw [hF]
  simp only [softFinalityLoop_congr scale p q hV hS hF]

theorem RecordParticipation_fields (p : POSEngine) (layer : Nat) (id : String) :
    (p.RecordParticipation layer id).Validators = p.Validators ∧
    (p.RecordParticipation layer id).StakeHistory = p.StakeHistory ∧
    (p.RecordParticipation layer id).FinalityConfig = p.FinalityConfig := by
  unfold POSEngine.RecordParticipation
  simp only
  split_ifs <;> exact ⟨rfl, rfl, rfl⟩

/-- Counterexample to C9: in the scenario (two layers, threshold 0.67, three validators of
equal stake, participation recorded at layers 5 and 6 only, none at layer 4)
`CheckSoftFinality(5)` is true, as is `CheckSoftFinality(6)`. -/
theorem CheckSoftFinality_scenario_layer5_true :
    mapGet exampleFinality.Participation 4 = none ∧
    exampleFinality.CheckSoftFinality exampleScale 6 = some true ∧
    exampleFinality.CheckSoftFinality exampleScale 5 = some true := by
  decide

/-- C9 as amended: `CheckSoftFinality` does not read the recorded participation; every
current validator is taken to participate. On an engine with a non-empty stake history and
`SoftFinalityLayers ≥ 0`, and for `layer < 2^63 - 1`, the call returns, and it returns true
if and only if `layer ≥ SoftFinalityLayers` and for every `j` in
`[layer - SoftFinalityLayers + 1, layer]` the stake that snapshot
`min(j, len(StakeHistory) - 1)` holds for the current validators is at least
`uint64(float64(Total) * SoftFinalityThreshold)` of that snapshot. Its result is the same
after any `RecordParticipation`. -/
theorem CheckSoftFinality_ignores_participation (scale : Nat → Float64 → Nat) (p : POSEngine)
    (layer : Int) (hhist : p.StakeHistory ≠ [])
    (hsfl : 0 ≤ p.FinalityConfig.SoftFinalityLayers) (hl : layer < 2 ^ 63 - 1) :
    (∃ b, p.CheckSoftFinality scale layer = some b ∧
      (b = true ↔ p.FinalityConfig.SoftFinalityLayers ≤ layer ∧
        ∀ j, layer - p.FinalityConfig.SoftFinalityLayers + 1 ≤ j → j ≤ layer →
          ∀ snap, p.StakeHistory[min j.toNat (p.StakeHistory.length - 1)]? = some snap →
            scale snap.Total p.FinalityConfig.SoftFinalityThreshold ≤
              participatingStake snap.Stake p.Validators)) ∧
    (∀ recordedLayer validatorID,
      (p.RecordParticipation recordedLayer validatorID).CheckSoftFinality scale layer =
        p.CheckSoftFinality scale layer) := by
  constructor
  · obtain ⟨b, e1, e2⟩ := CheckSoftFinality_spec scale p layer hhist hsfl hl
    refine ⟨b, e1, e2.trans ?_⟩
    constructor
    · rintro ⟨h1, h2⟩
      refine ⟨h1, ?_⟩
      intro j hj1 hj2 snap hsnap
      obtain ⟨snap', hs', hc⟩ := checkLayerStakeThreshold_eq scale p j
        p.FinalityConfig.SoftFinalityThreshold hhist (by omega)
      rw [hsnap] at hs'
      simp only [Option.some.injEq] at hs'
      subst hs'
      have := h2 j hj1 hj2
      rw [hc] at this
      simpa using this
    · rintro ⟨h1, h2⟩
      refine ⟨h1, ?_⟩
      intro j hj1 hj2
      obtain ⟨snap, hs, hc⟩ := checkLayerStakeThreshold_eq scale p j
        p.FinalityConfig.SoftFinalityThreshold hhist (by omega)
      rw [hc]
      have := h2 j hj1 hj2 snap hs
      simpa using this
  · intro recordedLayer validatorID
    obtain ⟨a, b, c⟩ := RecordParticipation_fields p recordedLayer validatorID
    exact CheckSoftFinality_congr scale _ _ a b c layer

/-- Witness of C9 as amended, on the scenario engine: the hypotheses hold there, and the
characterisation yields that layer 5 and layer 6 are both soft-final, with or without a
further participation record. -/
theorem CheckSoftFinality_ignores_participation_witness :
    exampleFinality.StakeHistory ≠ [] ∧
    0 ≤ exampleFinality.FinalityConfig.SoftFinalityLayers ∧
    (5 : Int) < 2 ^ 63 - 1 ∧ (6 : Int) < 2 ^ 63 - 1 ∧
    exampleFinality.CheckSoftFinality exampleScale 5 = some true ∧
    exampleFinality.CheckSoftFinality exampleScale 6 = some true ∧
    (exampleFinality.RecordParticipation 4 "v1").CheckSoftFinality exampleScale 5 =
      exampleFinality.CheckSoftFinality exampleScale 5 := by
  have key5 := CheckSoftFinality_ignores_participation exampleScale exampleFinality 5
    (by decide) (by decide) (by decide)
  have key6 := CheckSoftFinality_ignores_participation exampleScale exampleFinality 6
    (by decide) (by decide) (by decide)
  have hS : exampleFinality.FinalityConfig.SoftFinalityLayers = 2 := by decide
  have h4 : exampleFinality.StakeHistory[min (4 : Int).toNat
      (exampleFinality.StakeHistory.length - 1)]? =
      some { Layer := 4, Stake := [("v1", 100), ("v2", 100), ("v3", 100)], Total := 300 } := by
    decide
  have h5 : exampleFinality.StakeHistory[min (5 : Int).toNat
      (exampleFinality.StakeHistory.length - 1)]? =
      some { Layer := 5, Stake := [("v1", 100), ("v2", 100), ("v3", 100)], Total := 300 } := by
    decide
  have h6 : exampleFinality.StakeHistory[min (6 : Int).toNat
      (exampleFinality.StakeHistory.length - 1)]? =
      some { Layer := 6, Stake := [("v1", 100), ("v2", 100), ("v3", 100)], Total := 300 } := by
    decide
  refine ⟨by decide, by decide, by decide, by decide, ?_, ?_, key5.2 4 "v1"⟩
  · obtain ⟨b, e1, e2⟩ := key5.1
    have hb : b = true := by
      apply e2.2
      rw [hS]
      refine ⟨by decide, ?_⟩
      intro j h1 h2 snap hs
      have hj : j = 4 ∨ j = 5 := by omega
      rcases hj with hj | hj
      · subst hj
        rw [h4] at hs
        simp only [Option.some.injEq] at hs
        subst hs
        decide
      · subst hj
        rw [h5] at hs
        simp only [Option.some.injEq] at hs
        subst hs
        decide
    rw [e1, hb]
  · obtain ⟨b, e1, e2⟩ := key6.1
    have hb : b = true := by
      apply e2.2
      rw [hS]
      refine ⟨by decide, ?_⟩
      intro j h1 h2 snap hs
      have hj : j = 5 ∨ j = 6 := by omega
      rcases hj with hj | hj
      · subst hj
        rw [h5] at hs
        simp only [Option.some.injEq] at hs
        subst hs
        decide
      · subst hj
        rw [h6] at hs
        simp only [Option.some.injEq] at hs
        subst hs
        decide
    rw [e1, hb]

/-! ## C10: finality under later calls -/

theorem mapGet_mapDelete_other {K V : Type} [DecidableEq K] (m : List (K × V)) (k k' : K)
    (hne : k' ≠ k) : mapGet (mapDelete m k) k' = mapGet m k' := by
  induction m with
  | nil => rfl
  | cons kv rest ih =>
    obtain ⟨k1, v1⟩ := kv
    by_cases h : k1 = k
    · subst h
      have : ¬ k1 = k' := fun e => hne e.symm
      simp [mapDelete, mapGet, this, ih]
    · by_cases h2 : k1 = k'
      · subst h2
        simp [mapDelete, mapGet, h]
      · simp [mapDelete, mapGet, h, h2, ih]

theorem stakeSum_mapDelete (m : List (String × Nat)) (k : String) :
    (mapGet m k).getD 0 + stakeSum (mapDelete m k) ≤ stakeSum m := by
  induction m with
  | nil => simp [mapGet, mapDelete, stakeSum]
  | cons kv rest ih =>
    obtain ⟨k1, v1⟩ := kv
    have hle : stakeSum (mapDelete rest k) ≤ stakeSum rest := by
      have := ih
      omega
    by_cases h : k1 = k
    · simp only [mapGet, mapDelete, h, if_true, Option.getD_some]
      simp only [stakeSum, List.map_cons, List.sum_cons] at *
      omega
    · simp only [mapGet, mapDelete, h, if_false]
      simp only [stakeSum, List.map_cons, List.sum_cons] at *
      omega

/-- The stake summed by `participatingStake`, without the reduction modulo `2^64`. -/
theorem participatingStake_eq_mod (m : List (String × Nat)) (vs : List Validator) :
    participatingStake m vs =
      (vs.map (fun v => (mapGet m v.ID).getD 0)).sum % 2 ^ 64 := by
  unfold participatingStake
  have key : ∀ (vs : List Validator) (acc : Nat), acc < 2 ^ 64 →
      vs.foldl (fun acc v => match mapGet m v.ID with
        | some s => u64 (acc + s)
        | none => acc) acc =
      (acc + (vs.map (fun v => (mapGet m v.ID).getD 0)).sum) % 2 ^ 64 := by
    intro vs
    induction vs with
    | nil => intro acc hacc; simp only [List.foldl_nil, List.map_nil, List.sum_nil]; omega
    | cons v rest ih =>
      intro acc hacc
      simp only [List.foldl_cons, List.map_cons, List.sum_cons]
      cases hg : mapGet m v.ID with
      | none =>
        rw [ih acc hacc]
        simp
      | some s =>
        simp only [Option.getD_some]
        rw [ih (u64 (acc + s)) (Nat.mod_lt _ (by norm_num))]
        unfold u64
        omega
  have := key vs 0 (by norm_num)
  simpa using this

theorem rawStake_le_stakeSum : ∀ (vs : List Validator) (m : List (String × Nat)),
    (vs.map (fun v => v.ID)).Nodup →
    (vs.map (fun v => (mapGet m v.ID).getD 0)).sum ≤ stakeSum m := by
  intro vs
  induction vs with
  | nil => intro m _; simp
  | cons v rest ih =>
    intro m hnd
    simp only [List.map_cons, List.nodup_cons, List.mem_map, not_exists, not_and] at hnd
    obtain ⟨hnot, hnd'⟩ := hnd
    have hrest : rest.map (fun w => (mapGet m w.ID).getD 0) =
        rest.map (fun w => (mapGet (mapDelete m v.ID) w.ID).getD 0) := by
      apply List.map_congr_left
      intro w hw
      rw [mapGet_mapDelete_other m v.ID w.ID (hnot w hw)]
    simp only [List.map_cons, List.sum_cons]
    rw [hrest]
    have h1 := ih (mapDelete m v.ID) hnd'
    have h2 := stakeSum_mapDelete m v.ID
    omega

theorem participatingStake_append_mono (m : List (String × Nat)) (vs : List Validator)
    (v : Validator) (hnd : ((vs ++ [v]).map (fun v => v.ID)).Nodup)
    (hsum : stakeSum m < 2 ^ 64) :
    participatingStake m vs ≤ participatingStake m (vs ++ [v]) := by
  rw [participatingStake_eq_mod, participatingStake_eq_mod]
  have h1 := rawStake_le_stakeSum (vs ++ [v]) m hnd
  simp only [List.map_append, List.sum_append, List.map_cons, List.map_nil, List.sum_cons,
    List.sum_nil] at h1 ⊢
  rw [Nat.mod_eq_of_lt (by omega), Nat.mod_eq_of_lt (by omega)]
  omega

theorem AddValidator_fst (p : POSEngine) (v : Validator) :
    (p.AddValidator v).1 =
      if p.Validators.any (fun w => w.ID = v.ID) then p
      else { p with Validators := p.Validators ++ [v] } := by
  unfold POSEngine.AddValidator
  split_ifs with h
  · rfl
  · simp only
    cases p.StakeHistory.getLast? <;> rfl

theorem AdvanceLayer_history (p : POSEngine) (now : Int) (hhist : p.StakeHistory ≠ []) :
    ∃ last, p.StakeHistory.getLast? = some last ∧
      (p.AdvanceLayer now).StakeHistory =
        p.StakeHistory ++ [{ Layer := p.CurrentLayer + 1, Stake := last.Stake, Total := last.Total }] ∧
      (p.AdvanceLayer now).Validators = p.Validators ∧
      (p.AdvanceLayer now).FinalityConfig = p.FinalityConfig := by
  cases h : p.StakeHistory.getLast? with
  | none => exact absurd (List.getLast?_eq_none_iff.1 h) hhist
  | some last =>
    refine ⟨last, rfl, ?_, ?_, ?_⟩ <;> simp [POSEngine.AdvanceLayer, h]

theorem keepsStake_step (scale : Nat → Float64 → Nat) (p : POSEngine) (c : EngineCall)
    (hc : c.keepsStake = true) (hhist : p.StakeHistory ≠ [])
    (hids : (p.Validators.map (fun v => v.ID)).Nodup)
    (hsum : ∀ snap ∈ p.StakeHistory, stakeSum snap.Stake < 2 ^ 64) :
    ((p.call c).StakeHistory ≠ [] ∧ ((p.call c).Validators.map (fun v => v.ID)).Nodup ∧
      (∀ snap ∈ (p.call c).StakeHistory, stakeSum snap.Stake < 2 ^ 64)) ∧
    (p.call c).FinalityConfig = p.FinalityConfig ∧
    (∀ (j : Int) (thr : Float64), 0 ≤ j →
      p.checkLayerStakeThreshold scale j thr = some true →
      (p.call c).checkLayerStakeThreshold scale j thr = some true) := by
  cases c with
  | RemoveValidator id => simp [EngineCall.keepsStake] at hc
  | UpdateValidatorStake id s => simp [EngineCall.keepsStake] at hc
  | RecordParticipation layer id =>
    obtain ⟨a, b, c⟩ := RecordParticipation_fields p layer id
    simp only [POSEngine.call]
    refine ⟨⟨by rw [b]; exact hhist, by rw [a]; exact hids, by rw [b]; exact hsum⟩, c, ?_⟩
    intro j thr _ h
    rw [checkLayerStakeThreshold_congr scale _ p a b]
    exact h
  | AddValidator v =>
    simp only [POSEngine.call, AddValidator_fst]
    split_ifs with hany
    · exact ⟨⟨hhist, hids, hsum⟩, rfl, fun _ _ _ h => h⟩
    · have hnd : ((p.Validators ++ [v]).map (fun v => v.ID)).Nodup := by
        simp only [List.map_append, List.map_cons, List.map_nil]
        rw [List.nodup_append]
        refine ⟨hids, by simp, ?_⟩
        intro a ha hb
        simp only [List.mem_singleton] at hb
        subst hb
        obtain ⟨w, hw, e⟩ := List.mem_map.1 ha
        apply hany
        simp only [List.any_eq_true, decide_eq_true_eq]
        exact ⟨w, hw, e⟩
      refine ⟨⟨hhist, hnd, hsum⟩, rfl, ?_⟩
      intro j thr hj h
      obtain ⟨snap, hs, e⟩ := checkLayerStakeThreshold_eq scale p j thr hhist hj
      obtain ⟨snap', hs', e'⟩ := checkLayerStakeThreshold_eq scale
        { p with Validators := p.Validators ++ [v] } j thr hhist hj
      simp only at hs' e'
      rw [hs] at hs'
      simp only [Option.some.injEq] at hs'
      subst hs'
      rw [e']
      rw [e] at h
      have hmem : snap ∈ p.StakeHistory := List.getElem?_mem hs
      have hmono := participatingStake_append_mono snap.Stake p.Validators v hnd (hsum snap hmem)
      simp only [Option.some.injEq, decide_eq_true_eq] at h ⊢
      omega
  | AdvanceLayer now =>
    obtain ⟨last, hlast, hH, hV, hF⟩ := AdvanceLayer_history p now hhist
    simp only [POSEngine.call]
    have hlastmem : last ∈ p.StakeHistory := List.mem_of_getLast?_eq_some hlast
    refine ⟨⟨by rw [hH]; simp, by rw [hV]; exact hids, ?_⟩, hF, ?_⟩
    · intro snap hsnap
      rw [hH] at hsnap
      rcases List.mem_append.1 hsnap with h | h
      · exact hsum snap h
      · simp only [List.mem_singleton] at h
        subst h
        exact hsum last hlastmem
    · intro j thr hj h
      have hhist' : (p.AdvanceLayer now).StakeHistory ≠ [] := by rw [hH]; simp
      obtain ⟨snap, hs, e⟩ := checkLayerStakeThreshold_eq scale p j thr hhist hj
      obtain ⟨snap', hs', e'⟩ := checkLayerStakeThreshold_eq scale (p.AdvanceLayer now) j thr
        hhist' hj
      rw [e'] 
      rw [e] at h
      rw [hV]
      have hlen : 0 < p.StakeHistory.length := List.length_pos.2 hhist
      rw [hH] at hs'
      simp only [List.length_append, List.length_singleton, Nat.add_sub_cancel] at hs'
      by_cases hlt : j.toNat < p.StakeHistory.length
      · have e1 : min j.toNat p.StakeHistory.length = j.toNat := by omega
        have e2 : min j.toNat (p.StakeHistory.length - 1) = j.toNat := by omega
        rw [e1, List.getElem?_append_left hlt] at hs'
        rw [e2, hs'] at hs
        simp only [Option.some.injEq] at hs
        subst hs
        exact h
      · have e1 : min j.toNat p.StakeHistory.length = p.StakeHistory.length := by omega
        have e2 : min j.toNat (p.StakeHistory.length - 1) = p.StakeHistory.length - 1 := by omega
        rw [e1, List.getElem?_append_right (le_refl _)] at hs'
        simp only [Nat.sub_self, List.getElem?_cons_zero, Option.some.injEq] at hs'
        rw [e2] at hs
        have hl2 : p.StakeHistory[p.StakeHistory.length - 1]? = some last := by
          rw [← hlast, List.getLast?_eq_getElem?]
        rw [hl2] at hs
        simp only [Option.some.injEq] at hs
        subst hs
        subst hs'
        exact h

theorem keepsStake_calls (scale : Nat → Float64 → Nat) (layer : Int) :
    ∀ (cs : List EngineCall) (p : POSEngine), (∀ c ∈ cs, c.keepsStake = true) →
      p.StakeHistory ≠ [] → (p.Validators.map (fun v => v.ID)).Nodup →
      (∀ snap ∈ p.StakeHistory, stakeSum snap.Stake < 2 ^ 64) →
      (p.calls cs).StakeHistory ≠ [] ∧ (p.calls cs).FinalityConfig = p.FinalityConfig ∧
      ((∀ j, layer - p.FinalityConfig.SoftFinalityLayers + 1 ≤ j → j ≤ layer → 0 ≤ j →
          p.checkLayerStakeThreshold scale j p.FinalityConfig.SoftFinalityThreshold = some true) →
        ∀ j, layer - p.FinalityConfig.SoftFinalityLayers + 1 ≤ j → j ≤ layer → 0 ≤ j →
          (p.calls cs).checkLayerStakeThreshold scale j
            p.FinalityConfig.SoftFinalityThreshold = some true) := by
  intro cs
  induction cs with
  | nil => intro p _ hhist _ _; exact ⟨hhist, rfl, fun h => h⟩
  | cons c rest ih =>
    intro p hcs hhist hids hsum
    obtain ⟨⟨i1, i2, i3⟩, hF, hstep⟩ := keepsStake_step scale p c
      (hcs c (List.mem_cons_self _ _)) hhist hids hsum
    obtain ⟨r1, r2, r3⟩ := ih (p.call c) (fun c' hc' => hcs c' (List.mem_cons_of_mem _ hc'))
      i1 i2 i3
    have hcalls : p.calls (c :: rest) = (p.call c).calls rest := rfl
    rw [hcalls]
    refine ⟨r1, r2.trans hF, ?_⟩
    intro h j hj1 hj2 hj3
    rw [hF] at r3
    exact r3 (fun j' a b c' => hstep j' _ c' (h j' a b c')) j hj1 hj2 hj3

/-- Counterexample to C10: on the engine with three validators of stake 100 and six
layers, `CheckSoftFinality(6)` is true; after `RemoveValidator("v1")` and
`RemoveValidator("v2")` it is false. -/
theorem CheckSoftFinality_demoted_by_RemoveValidator :
    exampleAdvanced.CheckSoftFinality exampleScale 6 = some true ∧
    (exampleAdvanced.calls
      [EngineCall.RemoveValidator "v1", EngineCall.RemoveValidator "v2"]).CheckSoftFinality
        exampleScale 6 = some false := by
  decide

/-- C10 as amended: soft finality is kept by the calls that neither remove a validator nor
change a stake. On an engine with a non-empty stake history, pairwise distinct validator
IDs, stake maps whose values sum to less than `2^64` and `SoftFinalityLayers ≥ 0`, and for
`L < 2^63 - 1`: if `CheckSoftFinality(L)` is true, it is still true after any sequence of
`AddValidator`, `AdvanceLayer` and `RecordParticipation` calls. -/
theorem CheckSoftFinality_kept_without_removal (scale : Nat → Float64 → Nat) (p : POSEngine)
    (layer : Int) (cs : List EngineCall)
    (hhist : p.StakeHistory ≠ [])
    (hids : (p.Validators.map (fun v => v.ID)).Nodup)
    (hsum : ∀ snap ∈ p.StakeHistory, stakeSum snap.Stake < 2 ^ 64)
    (hsfl : 0 ≤ p.FinalityConfig.SoftFinalityLayers) (hl : layer < 2 ^ 63 - 1)
    (hcs : ∀ c ∈ cs, c.keepsStake = true)
    (hfinal : p.CheckSoftFinality scale layer = some true) :
    (p.calls cs).CheckSoftFinality scale layer = some true := by
  obtain ⟨b, e1, e2⟩ := CheckSoftFinality_spec scale p layer hhist hsfl hl
  rw [hfinal] at e1
  simp only [Option.some.injEq] at e1
  obtain ⟨g1, g2⟩ := e2.1 e1.symm
  obtain ⟨r1, r2, r3⟩ := keepsStake_calls scale layer cs p hcs hhist hids hsum
  obtain ⟨b', f1, f2⟩ := CheckSoftFinality_spec scale (p.calls cs) layer r1 (by rw [r2]; exact hsfl) hl
  rw [f1]
  have : b' = true := by
    apply f2.2
    rw [r2]
    refine ⟨g1, ?_⟩
    intro j hj1 hj2
    exact r3 (fun j' a b _ => g2 j' a b) j hj1 hj2 (by omega)
  rw [this]

/-- Witness of C10 as amended: on the six-layer engine, layer 6 stays soft-final after
a validator is added, a layer is advanced and a participation is recorded. -/
theorem CheckSoftFinality_kept_without_removal_witness :
    exampleAdvanced.StakeHistory ≠ [] ∧
    (exampleAdvanced.Validators.map (fun v => v.ID)).Nodup ∧
    (∀ snap ∈ exampleAdvanced.StakeHistory, stakeSum snap.Stake < 2 ^ 64) ∧
    0 ≤ exampleAdvanced.FinalityConfig.SoftFinalityLayers ∧
    (6 : Int) < 2 ^ 63 - 1 ∧
    (∀ c ∈ [EngineCall.AddValidator { ID := "v4", PQPubKeyHash := "pk4", Stake := 900, Weight := 1 },
        EngineCall.AdvanceLayer 70, EngineCall.RecordParticipation 6 "v4"],
      c.keepsStake = true) ∧
    exampleAdvanced.CheckSoftFinality exampleScale 6 = some true ∧
    (exampleAdvanced.calls
      [EngineCall.AddValidator { ID := "v4", PQPubKeyHash := "pk4", Stake := 900, Weight := 1 },
        EngineCall.AdvanceLayer 70, EngineCall.RecordParticipation 6 "v4"]).CheckSoftFinality
        exampleScale 6 = some true :=
  ⟨by decide, by decide, by decide, by decide, by decide, by decide, by decide,
    CheckSoftFinality_kept_without_removal exampleScale exampleAdvanced 6 _
      (by decide) (by decide) (by decide) (by decide) (by decide) (by decide) (by decide)⟩

/-! ## C11, C12: the transaction validator -/

theorem validateBasicFields_ok (tv : TransactionValidator) (tx : Transaction) :
    tv.validateBasicFields tx = Except.ok () ↔
      tx.From ≠ "" ∧ tx.To ≠ "" ∧ tx.From ≠ tx.To ∧ (∃ v, tx.Value = some v ∧ 0 < v) ∧
        tx.Hash ≠ "" := by
  unfold TransactionValidator.validateBasicFields
  by_cases h1 : tx.From = ""
  · simp [h1]
  by_cases h2 : tx.To = ""
  · simp [h1, h2]
  by_cases h3 : tx.From = tx.To
  · simp [h1, h2, h3]
  cases hv : tx.Value with
  | none => simp [h1, h2, h3]
  | some v =>
    by_cases h4 : v < 0
    · simp [h1, h2, h3, h4]; intro _; omega
    by_cases h5 : v = 0
    · simp [h1, h2, h3, h5]
    by_cases h6 : tx.Hash = ""
    · simp [h1, h2, h3, h4, h5, h6]
    · simp [h1, h2, h3, h4, h5, h6]; omega

theorem validateGas_ok (tv : TransactionValidator) (tx : Transaction) (v : Int)
    (hv : tx.Value = some v) (hmax : tv.maxGasLimit < 2 ^ 63) :
    ∃ r, tv.validateGas tx = some r ∧
      (r = Except.ok () ↔
        ∃ g account, tx.GasPrice = some g ∧ 0 < g ∧ tv.minGasPrice ≤ g ∧ 1 ≤ tx.GasLimit ∧
          tx.GasLimit ≤ tv.maxGasLimit ∧ mapGet tv.accountStates tx.From = some account ∧
          v + g * (tx.GasLimit : Int) ≤ account.Balance) := by
  unfold TransactionValidator.validateGas
  cases hg : tx.GasPrice with
  | none =>
    refine ⟨_, rfl, Iff.intro (fun h => (by cases h)) ?_⟩
    rintro ⟨g', acc, hg', _⟩
    cases hg'
  | some g =>
    simp only
    by_cases h1 : g ≤ 0
    · rw [if_pos h1]
      refine ⟨_, rfl, Iff.intro (fun h => (by cases h)) ?_⟩
      rintro ⟨g', acc, hg', p1, p2, p3, p4, p5, p6⟩
      cases hg'
      omega
    rw [if_neg h1]
    by_cases h2 : g < tv.minGasPrice
    · rw [if_pos h2]
      refine ⟨_, rfl, Iff.intro (fun h => (by cases h)) ?_⟩
      rintro ⟨g', acc, hg', p1, p2, p3, p4, p5, p6⟩
      cases hg'
      omega
    rw [if_neg h2]
    by_cases h3 : tx.GasLimit = 0
    · rw [if_pos h3]
      refine ⟨_, rfl, Iff.intro (fun h => (by cases h)) ?_⟩
      rintro ⟨g', acc, hg', p1, p2, p3, p4, p5, p6⟩
      omega
    rw [if_neg h3]
    by_cases h4 : tx.GasLimit > tv.maxGasLimit
    · rw [if_pos h4]
      refine ⟨_, rfl, Iff.intro (fun h => (by cases h)) ?_⟩
      rintro ⟨g', acc, hg', p1, p2, p3, p4, p5, p6⟩
      omega
    rw [if_neg h4]
    have hw : wrap64 (tx.GasLimit : Int) = (tx.GasLimit : Int) :=
      wrap64_of_range _ (by omega) (by omega)
    rw [hw]
    cases ha : mapGet tv.accountStates tx.From with
    | none =>
      refine ⟨_, rfl, Iff.intro (fun h => (by cases h)) ?_⟩
      rintro ⟨g', acc, hg', p1, p2, p3, p4, p5, p6⟩
      cases p5
    | some account =>
      simp only [hv]
      by_cases h5 : account.Balance < v + g * (tx.GasLimit : Int)
      · rw [if_pos h5]
        refine ⟨_, rfl, Iff.intro (fun h => (by cases h)) ?_⟩
        rintro ⟨g', acc, hg', p1, p2, p3, p4, p5, p6⟩
        cases hg'
        cases p5
        omega
      · rw [if_neg h5]
        refine ⟨_, rfl, Iff.intro (fun _ => ?_) (fun _ => rfl)⟩
        exact ⟨g, account, rfl, by omega, by omega, by omega, by omega, rfl, by omega⟩

theorem validateGas_total (tv : TransactionValidator) (tx : Transaction) (v : Int)
    (hv : tx.Value = some v) : ∃ r, tv.validateGas tx = some r := by
  unfold TransactionValidator.validateGas
  cases tx.GasPrice with
  | none => exact ⟨_, rfl⟩
  | some g =>
    simp only
    by_cases h1 : g ≤ 0
    · rw [if_pos h1]; exact ⟨_, rfl⟩
    rw [if_neg h1]
    by_cases h2 : g < tv.minGasPrice
    · rw [if_pos h2]; exact ⟨_, rfl⟩
    rw [if_neg h2]
    by_cases h3 : tx.GasLimit = 0
    · rw [if_pos h3]; exact ⟨_, rfl⟩
    rw [if_neg h3]
    by_cases h4 : tx.GasLimit > tv.maxGasLimit
    · rw [if_pos h4]; exact ⟨_, rfl⟩
    rw [if_neg h4]
    cases mapGet tv.accountStates tx.From with
    | none => exact ⟨_, rfl⟩
    | some account =>
      simp only [hv]
      by_cases h5 : account.Balance < v + g * wrap64 (tx.GasLimit : Int)
      · rw [if_pos h5]; exact ⟨_, rfl⟩
      · rw [if_neg h5]; exact ⟨_, rfl⟩

theorem validateAccountState_ok (tv : TransactionValidator) (tx : Transaction) :
    tv.validateAccountState tx = Except.ok () ↔
      ∃ account, mapGet tv.accountStates tx.From = some account ∧
        account.Nonce ≤ tx.Nonce ∧ tx.Nonce ≤ u64 (account.Nonce + 10) := by
  unfold TransactionValidator.validateAccountState
  cases ha : mapGet tv.accountStates tx.From with
  | none => simp
  | some account =>
    simp only [Option.some.injEq, exists_eq_left']
    by_cases h1 : tx.Nonce < account.Nonce
    · rw [if_pos h1]
      exact Iff.intro (fun h => (by cases h)) (fun h => (by omega))
    rw [if_neg h1]
    by_cases h2 : tx.Nonce > u64 (account.Nonce + 10)
    · rw [if_pos h2]
      exact Iff.intro (fun h => (by cases h)) (fun h => (by omega))
    · rw [if_neg h2]
      exact Iff.intro (fun _ => (by omega)) (fun _ => rfl)

/-- `ValidateTransaction` never panics: `validateGas` runs after `validateBasicFields` has
seen a value. -/
theorem ValidateTransaction_total (tv : TransactionValidator) (tx : Transaction) :
    ∃ r, tv.ValidateTransaction tx = some r := by
  unfold TransactionValidator.ValidateTransaction
  rcases h1 : tv.validateBasicFields tx with e | u
  · exact ⟨_, rfl⟩
  obtain ⟨_, _, _, ⟨v, hv, _⟩, _⟩ := (validateBasicFields_ok tv tx).1 h1
  have hg : ∃ r, tv.validateGas tx = some r := validateGas_total tv tx v hv
  obtain ⟨r, hr⟩ := hg
  rw [hr]
  rcases r with e | u
  · exact ⟨_, rfl⟩
  simp only
  rcases tv.validateAccountState tx with e | u
  · exact ⟨_, rfl⟩
  · exact ⟨_, rfl⟩

/-- C11: for a validator with `maxGasLimit < 2^63` and an account state of the sender (if
there is one) whose nonce is at most `2^64 - 11`, `ValidateTransaction` accepts a
transaction if and only if `From` and `To` are non-empty and different, `Value > 0`,
`Hash` is non-empty, `GasPrice > 0` and `GasPrice ≥ minGasPrice`,
`1 ≤ GasLimit ≤ maxGasLimit`, the `From` account is known,
`balance ≥ Value + GasPrice * GasLimit` over the integers, and
`nonce ≤ Nonce ≤ nonce + 10`. -/
theorem ValidateTransaction_accepts_iff (tv : TransactionValidator) (tx : Transaction)
    (hmax : tv.maxGasLimit < 2 ^ 63)
    (hnonce : ∀ account, mapGet tv.accountStates tx.From = some account →
      account.Nonce ≤ 2 ^ 64 - 11) :
    tv.ValidateTransaction tx = some (Except.ok ()) ↔
      tx.From ≠ "" ∧ tx.To ≠ "" ∧ tx.From ≠ tx.To ∧ tx.Hash ≠ "" ∧
      ∃ value gasPrice account, tx.Value = some value ∧ 0 < value ∧
        tx.GasPrice = some gasPrice ∧ 0 < gasPrice ∧ tv.minGasPrice ≤ gasPrice ∧
        1 ≤ tx.GasLimit ∧ tx.GasLimit ≤ tv.maxGasLimit ∧
        mapGet tv.accountStates tx.From = some account ∧
        value + gasPrice * (tx.GasLimit : Int) ≤ account.Balance ∧
        account.Nonce ≤ tx.Nonce ∧ tx.Nonce ≤ account.Nonce + 10 := by
  unfold TransactionValidator.ValidateTransaction
  rcases h1 : tv.validateBasicFields tx with e | u
  · simp only [reduceCtorEq, Option.some.injEq, false_iff]
    intro h
    obtain ⟨a, b, c, d, v, g, acc, hv, hv0, _⟩ := h
    have := (validateBasicFields_ok tv tx).2 ⟨a, b, c, ⟨v, hv, hv0⟩, d⟩
    rw [h1] at this
    exact absurd this (by simp)
  obtain ⟨a, b, c, ⟨v, hv, hv0⟩, d⟩ := (validateBasicFields_ok tv tx).1 h1
  obtain ⟨r, hr, hiff⟩ := validateGas_ok tv tx v hv hmax
  rw [hr]
  rcases r with e | u
  · simp only [reduceCtorEq, Option.some.injEq, false_iff]
    intro h
    obtain ⟨_, _, _, _, v', g, acc, hv', _, hg, hg0, hmin, hl1, hl2, hacc, hbal, _⟩ := h
    rw [hv] at hv'
    simp only [Option.some.injEq] at hv'
    subst hv'
    have := hiff.2 ⟨g, acc, hg, hg0, hmin, hl1, hl2, hacc, hbal⟩
    exact absurd this (by simp)
  obtain ⟨g, acc, hg, hg0, hmin, hl1, hl2, hacc, hbal⟩ := hiff.1 rfl
  have hn := hnonce acc hacc
  have hu : u64 (acc.Nonce + 10) = acc.Nonce + 10 := by
    unfold u64
    exact Nat.mod_eq_of_lt (by omega)
  simp only
  rcases h3 : tv.validateAccountState tx with e | u
  · simp only [reduceCtorEq, Option.some.injEq, false_iff]
    intro h
    obtain ⟨_, _, _, _, v', g', acc', _, _, _, _, _, _, _, hacc', _, hn1, hn2⟩ := h
    have := (validateAccountState_ok tv tx).2 ⟨acc', hacc', hn1, by
      rw [hacc] at hacc'
      simp only [Option.some.injEq] at hacc'
      subst hacc'
      rw [hu]; exact hn2⟩
    rw [h3] at this
    exact absurd this (by simp)
  · obtain ⟨acc', hacc', hn1, hn2⟩ := (validateAccountState_ok tv tx).1 h3
    rw [hacc] at hacc'
    simp only [Option.some.injEq] at hacc'
    subst hacc'
    rw [hu] at hn2
    simp only [TransactionValidator.validateSignature, true_iff]
    exact ⟨a, b, c, d, v, g, acc, hv, hv0, hg, hg0, hmin, hl1, hl2, hacc, hbal, hn1, hn2⟩

/-- Witness of C11: the example validator meets the hypotheses and accepts the example
transaction. -/
theorem ValidateTransaction_accepts_iff_witness :
    exampleTxValidator.maxGasLimit < 2 ^ 63 ∧
    (∀ account, mapGet exampleTxValidator.accountStates exampleTx.From = some account →
      account.Nonce ≤ 2 ^ 64 - 11) ∧
    exampleTxValidator.ValidateTransaction exampleTx = some (Except.ok ()) := by
  have hmax : exampleTxValidator.maxGasLimit < 2 ^ 63 := by decide
  have hnonce : ∀ account, mapGet exampleTxValidator.accountStates exampleTx.From = some account →
      account.Nonce ≤ 2 ^ 64 - 11 := by
    intro account h
    have h' : some ({ Balance := 100000, Nonce := 7, Address := "alice" } : AccountState) =
        some account := h
    simp only [Option.some.injEq] at h'
    subst h'
    decide
  refine ⟨hmax, hnonce, ?_⟩
  apply (ValidateTransaction_accepts_iff exampleTxValidator exampleTx hmax hnonce).2
  exact ⟨by decide, by decide, by decide, by decide, 5, 20,
    { Balance := 100000, Nonce := 7, Address := "alice" }, rfl, by decide, rfl, by decide,
    by decide, by decide, by decide, by decide, by decide, by decide, by decide⟩

/-- C12 (defect): for the account nonce `2^64 - 5` the bound `account.Nonce + 10` wraps
around to 5, and the transaction with the nonce `2^64 - 5` of that account is rejected as
too far ahead. -/
theorem validateAccountState_wraps_near_max :
    mapGet exampleHighNonceValidator.accountStates exampleHighNonceTx.From =
      some { Balance := 100000, Nonce := 2 ^ 64 - 5, Address := "alice" } ∧
    exampleHighNonceTx.Nonce = 2 ^ 64 - 5 ∧
    u64 (2 ^ 64 - 5 + 10) = 5 ∧
    exampleHighNonceValidator.validateAccountState exampleHighNonceTx =
      Except.error (TxError.nonceTooFarAhead (2 ^ 64 - 5) (2 ^ 64 - 5)) ∧
    exampleHighNonceValidator.ValidateTransaction exampleHighNonceTx =
      some (Except.error (TxError.accountStateValidationFailed
        (TxError.nonceTooFarAhead (2 ^ 64 - 5) (2 ^ 64 - 5)))) := by
  decide

/-! ## C13, C14: `Mempool.Add` and `Mempool.Pop` -/

/-- C13: `Mempool.Add(tx)` never panics. It returns an error and changes nothing when the
pool holds `maxSize` transactions (or more); otherwise it returns `nil` and changes
nothing when a transaction is pending under `tx.Hash`; otherwise it stores `tx` (which
is then pending, the size grown by one) and returns `nil` when `ValidateTransaction`
accepts `tx`, and returns an error leaving the pool unchanged when it does not. A second
`Add(tx)` directly after the first leaves the pool as the first left it. -/
theorem Add_contract (m : Mempool) (tx : Transaction) :
    ((m.txs.length : Int) ≥ m.maxSize →
      m.Add tx = some (m, some (TxError.mempoolFull m.maxSize))) ∧
    ((m.txs.length : Int) < m.maxSize → (∃ t, mapGet m.txs tx.Hash = some t) →
      m.Add tx = some (m, none)) ∧
    ((m.txs.length : Int) < m.maxSize → mapGet m.txs tx.Hash = none →
      (m.validator.ValidateTransaction tx = some (Except.ok ()) →
        m.Add tx = some ({ m with txs := mapSet m.txs tx.Hash tx }, none) ∧
        mapGet (mapSet m.txs tx.Hash tx) tx.Hash = some tx ∧
        (mapSet m.txs tx.Hash tx).length = m.txs.length + 1) ∧
      (∀ err, m.validator.ValidateTransaction tx = some (Except.error err) →
        m.Add tx = some (m, some (TxError.transactionValidationFailed err)))) ∧
    (∃ m1 r1 r2, m.Add tx = some (m1, r1) ∧ m1.Add tx = some (m1, r2)) := by
  refine ⟨?_, ?_, ?_, ?_⟩
  · intro h
    simp [Mempool.Add, h]
  · rintro h ⟨t, ht⟩
    have h' : ¬ (m.txs.length : Int) ≥ m.maxSize := by omega
    simp [Mempool.Add, h', ht]
  · intro h hnone
    have h' : ¬ (m.txs.length : Int) ≥ m.maxSize := by omega
    refine ⟨?_, ?_⟩
    · intro hok
      refine ⟨by simp [Mempool.Add, h', hnone, hok], mapGet_mapSet_same _ _ _, ?_⟩
      rw [mapSet_of_none _ _ _ hnone]
      simp
    · intro err herr
      simp [Mempool.Add, h', hnone, herr]
  · by_cases hfull : (m.txs.length : Int) ≥ m.maxSize
    · have h1 : m.Add tx = some (m, some (TxError.mempoolFull m.maxSize)) := by
        simp [Mempool.Add, hfull]
      exact ⟨m, _, _, h1, h1⟩
    cases hget : mapGet m.txs tx.Hash with
    | some t =>
      have h1 : m.Add tx = some (m, none) := by simp [Mempool.Add, hfull, hget]
      exact ⟨m, _, _, h1, h1⟩
    | none =>
      obtain ⟨r, hr⟩ := ValidateTransaction_total m.validator tx
      rcases r with err | u
      · have h1 : m.Add tx = some (m, some (TxError.transactionValidationFailed err)) := by
          simp [Mempool.Add, hfull, hget, hr]
        exact ⟨m, _, _, h1, h1⟩
      · have h1 : m.Add tx = some ({ m with txs := mapSet m.txs tx.Hash tx }, none) := by
          simp [Mempool.Add, hfull, hget, hr]
        by_cases hfull2 : (((mapSet m.txs tx.Hash tx).length : Nat) : Int) ≥ m.maxSize
        · have h2 : Mempool.Add { m with txs := mapSet m.txs tx.Hash tx } tx =
              some ({ m with txs := mapSet m.txs tx.Hash tx },
                some (TxError.mempoolFull m.maxSize)) := by
            simp [Mempool.Add, hfull2]
          exact ⟨_, _, _, h1, h2⟩
        · have h2 : Mempool.Add { m with txs := mapSet m.txs tx.Hash tx } tx =
              some ({ m with txs := mapSet m.txs tx.Hash tx }, none) := by
            simp [Mempool.Add, hfull2, mapGet_mapSet_same]
          exact ⟨_, _, _, h1, h2⟩

theorem mapDelete_eq_filter {K V : Type} [DecidableEq K] (m : List (K × V)) (k : K) :
    mapDelete m k = m.filter (fun kv => decide (kv.1 ≠ k)) := by
  induction m with
  | nil => rfl
  | cons kv rest ih =>
    obtain ⟨k1, v1⟩ := kv
    by_cases h : k1 = k
    · simp [mapDelete, h, ih]
    · simp [mapDelete, h, ih]

theorem deleteAll_eq_filter (removed : List Transaction) :
    ∀ txs : List (String × Transaction),
      deleteAll txs removed =
        txs.filter (fun kv => decide (kv.1 ∉ removed.map (fun tx => tx.Hash))) := by
  induction removed with
  | nil => intro txs; simp [deleteAll]
  | cons r rest ih =>
    intro txs
    have hstep : deleteAll txs (r :: rest) = deleteAll (mapDelete txs r.Hash) rest := rfl
    rw [hstep, ih, mapDelete_eq_filter, List.filter_filter]
    apply List.filter_congr
    intro kv _
    simp only [List.map_cons, List.mem_cons, not_or, ne_eq, Bool.decide_and,
      Bool.and_comm]

theorem pending_deleteAll (txs : List (String × Transaction)) (removed : List Transaction)
    (hkey : ∀ kv ∈ txs, kv.1 = kv.2.Hash) :
    (deleteAll txs removed).map Prod.snd =
      (txs.map Prod.snd).filter (fun tx => decide (tx.Hash ∉ removed.map (fun t => t.Hash))) := by
  rw [deleteAll_eq_filter]
  induction txs with
  | nil => rfl
  | cons kv rest ih =>
    have hk := hkey kv (List.mem_cons_self _ _)
    have ih' := ih (fun x hx => hkey x (List.mem_cons_of_mem _ hx))
    simp only [List.filter_cons, List.map_cons]
    rw [hk]
    split_ifs
    · simp only [List.map_cons]; rw [ih']
    · exact ih'

theorem filter_append_disjoint (xs ys : List Transaction)
    (hnd : ((xs ++ ys).map (fun t => t.Hash)).Nodup) :
    (xs ++ ys).filter (fun tx => decide (tx.Hash ∉ xs.map (fun t => t.Hash))) = ys := by
  rw [List.map_append] at hnd
  have hdisj := (List.nodup_append.1 hnd).2.2
  rw [List.filter_append]
  have h1 : xs.filter (fun tx => decide (tx.Hash ∉ xs.map (fun t => t.Hash))) = [] := by
    rw [List.filter_eq_nil_iff]
    intro a ha
    simp only [decide_eq_true_eq, not_not]
    exact List.mem_map.2 ⟨a, ha, rfl⟩
  have h2 : ys.filter (fun tx => decide (tx.Hash ∉ xs.map (fun t => t.Hash))) = ys := by
    rw [List.filter_eq_self]
    intro a ha
    simp only [decide_eq_true_eq]
    intro hmem
    exact hdisj hmem (List.mem_map.2 ⟨a, ha, rfl⟩)
  rw [h1, h2, List.nil_append]

theorem filter_take_drop (sorted : List Transaction) (c : Nat)
    (hnd : (sorted.map (fun t => t.Hash)).Nodup) :
    sorted.filter (fun tx => decide (tx.Hash ∉ (sorted.take c).map (fun t => t.Hash))) =
      sorted.drop c := by
  have h := filter_append_disjoint (sorted.take c) (sorted.drop c)
    (by rw [List.take_append_drop]; exact hnd)
  rw [List.take_append_drop] at h
  exact h

theorem pending_after_delete (m : Mempool) (sorted : List Transaction) (c : Nat)
    (hwf : m.WellFormed) (hperm : sorted.Perm m.pending) :
    ((deleteAll m.txs (sorted.take c)).map Prod.snd).Perm (sorted.drop c) := by
  obtain ⟨hnd, hkey⟩ := hwf
  rw [pending_deleteAll m.txs _ hkey]
  have hkeys : m.txs.map Prod.fst = m.pending.map (fun t => t.Hash) := by
    simp only [Mempool.pending, List.map_map]
    apply List.map_congr_left
    intro kv hkv
    exact hkey kv hkv
  have hnd2 : (sorted.map (fun t => t.Hash)).Nodup := by
    rw [(hperm.map _).nodup_iff, ← hkeys]; exact hnd
  have := (hperm.symm.filter
    (fun tx => decide (tx.Hash ∉ (sorted.take c).map (fun t => t.Hash))))
  rw [filter_take_drop sorted c hnd2] at this
  exact this

/-- C14: for every well-formed mempool whose transactions have a gas price, every
`n ≥ 0` and every outcome `sorted` of the `sort.Slice` call, `Pop(n)` returns exactly
`min(n, size_before)` transactions, listed in non-increasing `GasPrice` order, each with a
`GasPrice` at least that of every transaction left in the pool; the pool size afterwards
is `size_before` minus the number returned, and the returned transactions together with
the remaining ones are the transactions pending before. -/
theorem Pop_contract (m : Mempool) (n : Int) (sorted : List Transaction)
    (hn : 0 ≤ n) (hwf : m.WellFormed)
    (hprice : ∀ tx ∈ m.pending, ∃ g, tx.GasPrice = some g)
    (hsort : SortSliceResult gasPriceLess m.pending sorted) :
    (m.Pop n sorted).2.length = min n.toNat m.Size ∧
    (m.Pop n sorted).2.Pairwise
      (fun a b => ∃ x y, a.GasPrice = some x ∧ b.GasPrice = some y ∧ y ≤ x) ∧
    (∀ a ∈ (m.Pop n sorted).2, ∀ b ∈ (m.Pop n sorted).1.pending,
      ∃ x y, a.GasPrice = some x ∧ b.GasPrice = some y ∧ y ≤ x) ∧
    (m.Pop n sorted).1.Size = m.Size - (m.Pop n sorted).2.length ∧
    ((m.Pop n sorted).2 ++ (m.Pop n sorted).1.pending).Perm m.pending ∧
    (m.Pop n sorted).1.validator = m.validator ∧ (m.Pop n sorted).1.maxSize = m.maxSize := by
  obtain ⟨hperm, hord⟩ := hsort
  have hlen : sorted.length = m.txs.length := by
    rw [hperm.length_eq]; simp [Mempool.pending]
  have hrel : ∀ a b : Transaction, a ∈ sorted → b ∈ sorted → gasPriceLess b a = false →
      ∃ x y, a.GasPrice = some x ∧ b.GasPrice = some y ∧ y ≤ x := by
    intro a b ha hb h
    obtain ⟨x, hx⟩ := hprice a (hperm.subset ha)
    obtain ⟨y, hy⟩ := hprice b (hperm.subset hb)
    refine ⟨x, y, hx, hy, ?_⟩
    simp only [gasPriceLess, hx, hy, decide_eq_false_iff_not, not_lt] at h
    omega
  by_cases h0 : n ≤ 0 ∨ m.txs.length = 0
  · have hpop : m.Pop n sorted = (m, []) := by unfold Mempool.Pop; rw [if_pos h0]
    rw [hpop]
    refine ⟨?_, List.Pairwise.nil, by simp, by simp, by simp, rfl, rfl⟩
    rcases h0 with h0 | h0
    · have : n.toNat = 0 := by omega
      simp [this]
    · simp [Mempool.Size, h0]
  · obtain ⟨c, hc⟩ : ∃ c : Nat, c = min n.toNat m.txs.length := ⟨_, rfl⟩
    have hcount : (if (m.txs.length : Int) < n then (m.txs.length : Int) else n).toNat = c := by
      split_ifs with hlt <;> omega
    have hpop : m.Pop n sorted =
        ({ m with txs := deleteAll m.txs (sorted.take c) }, sorted.take c) := by
      simp only [Mempool.Pop, h0, if_false, hcount]
    rw [hpop]
    have hrest := pending_after_delete m sorted c hwf hperm
    have hsplit : sorted = sorted.take c ++ sorted.drop c := (List.take_append_drop c sorted).symm
    have hord' : (sorted.take c ++ sorted.drop c).Pairwise
        (fun a b => gasPriceLess b a = false) := by rw [← hsplit]; exact hord
    obtain ⟨ht, _, hcross⟩ := List.pairwise_append.1 hord'
    have htl : (sorted.take c).length = c := by
      rw [List.length_take]; omega
    refine ⟨?_, ?_, ?_, ?_, ?_, rfl, rfl⟩
    · simp only [htl, Mempool.Size]; exact hc
    · exact ht.imp_of_mem (fun ha hb h =>
        hrel _ _ (List.mem_of_mem_take ha) (List.mem_of_mem_take hb) h)
    · intro a ha b hb
      have hb' : b ∈ sorted.drop c := hrest.subset hb
      exact hrel a b (List.mem_of_mem_take ha) (List.mem_of_mem_drop hb') (hcross a ha b hb')
    · simp only [Mempool.Size, htl]
      have := hrest.length_eq
      simp only [List.length_map, List.length_drop] at this
      rw [this]; omega
    · have h1 : (sorted.take c ++ (deleteAll m.txs (sorted.take c)).map Prod.snd).Perm
          (sorted.take c ++ sorted.drop c) := List.Perm.append_left _ hrest
      rw [← hsplit] at h1
      exact h1.trans hperm

/-- Witness of C14: `Pop(2)` on the pool of three transactions with gas prices 20, 50 and
30 returns the transactions with prices 50 and 30 and leaves the one with price 20. -/
theorem Pop_contract_witness :
    (0 : Int) ≤ 2 ∧ examplePool.WellFormed ∧
    (∀ tx ∈ examplePool.pending, ∃ g, tx.GasPrice = some g) ∧
    SortSliceResult gasPriceLess examplePool.pending [exampleTx2, exampleTx3, exampleTx] ∧
    examplePool.Pop 2 [exampleTx2, exampleTx3, exampleTx] =
      ({ examplePool with txs := [("h1", exampleTx)] }, [exampleTx2, exampleTx3]) ∧
    (examplePool.Pop 2 [exampleTx2, exampleTx3, exampleTx]).2.length =
      min (2 : Int).toNat examplePool.Size ∧
    (examplePool.Pop 2 [exampleTx2, exampleTx3, exampleTx]).1.Size =
      examplePool.Size - (examplePool.Pop 2 [exampleTx2, exampleTx3, exampleTx]).2.length := by
  have hwf : examplePool.WellFormed := by
    refine ⟨by decide, ?_⟩
    intro kv hkv
    simp only [examplePool, List.mem_cons, List.mem_singleton, List.not_mem_nil, or_false] at hkv
    rcases hkv with h | h | h <;> subst h <;> rfl
  have hprice : ∀ tx ∈ examplePool.pending, ∃ g, tx.GasPrice = some g := by
    intro tx htx
    simp only [Mempool.pending, examplePool, List.map_cons, List.map_nil, List.mem_cons,
      List.mem_singleton, List.not_mem_nil, or_false] at htx
    rcases htx with h | h | h <;> subst h
    · exact ⟨20, rfl⟩
    · exact ⟨50, rfl⟩
    · exact ⟨30, rfl⟩
  have hsort : SortSliceResult gasPriceLess examplePool.pending
      [exampleTx2, exampleTx3, exampleTx] := ⟨by decide, by decide⟩
  have key := Pop_contract examplePool 2 [exampleTx2, exampleTx3, exampleTx] (by decide) hwf
    hprice hsort
  exact ⟨by decide, hwf, hprice, hsort, by decide, key.1, key.2.2.2.1⟩

/-! ## C15: uniqueness in the pending set -/

theorem foldl_mapDelete_sublist {α : Type} (key : α → String) (removed : List α) :
    ∀ txs : List (String × Transaction),
      (removed.foldl (fun t a => mapDelete t (key a)) txs).Sublist txs := by
  induction removed with
  | nil => intro txs; exact List.Sublist.refl _
  | cons r rest ih =>
    intro txs
    simp only [List.foldl_cons]
    refine (ih _).trans ?_
    rw [mapDelete_eq_filter]
    exact List.filter_sublist _

theorem WellFormed_of_sublist (m : Mempool) (txs : List (String × Transaction))
    (hwf : m.WellFormed) (hsub : txs.Sublist m.txs) :
    Mempool.WellFormed { m with txs := txs } :=
  ⟨(hsub.map Prod.fst).nodup hwf.1, fun kv hkv => hwf.2 kv (hsub.subset hkv)⟩

theorem WellFormed_Add (m m1 : Mempool) (tx : Transaction) (r : Option TxError)
    (hwf : m.WellFormed) (h : m.Add tx = some (m1, r)) : m1.WellFormed := by
  unfold Mempool.Add at h
  by_cases hfull : (m.txs.length : Int) ≥ m.maxSize
  · rw [if_pos hfull] at h
    simp only [Option.some.injEq, Prod.mk.injEq] at h
    rw [← h.1]; exact hwf
  rw [if_neg hfull] at h
  cases hget : mapGet m.txs tx.Hash with
  | some t =>
    rw [hget] at h
    simp only [Option.some.injEq, Prod.mk.injEq] at h
    rw [← h.1]; exact hwf
  | none =>
    rw [hget] at h
    rcases hv : m.validator.ValidateTransaction tx with _ | (err | u)
    · rw [hv] at h; simp at h
    · rw [hv] at h
      simp only [Option.some.injEq, Prod.mk.injEq] at h
      rw [← h.1]; exact hwf
    · rw [hv] at h
      simp only [Option.some.injEq, Prod.mk.injEq] at h
      rw [← h.1, mapSet_of_none _ _ _ hget]
      refine ⟨?_, ?_⟩
      · simp only [List.map_append, List.map_cons, List.map_nil]
        rw [List.nodup_append]
        refine ⟨hwf.1, by simp, ?_⟩
        intro a ha hb
        simp only [List.mem_singleton] at hb
        subst hb
        exact (mapGet_eq_none_iff _ _).1 hget ha
      · intro kv hkv
        rcases List.mem_append.1 hkv with hk | hk
        · exact hwf.2 kv hk
        · simp only [List.mem_singleton] at hk
          subst hk; rfl

theorem deleteAll_sublist (txs : List (String × Transaction)) (removed : List Transaction) :
    (deleteAll txs removed).Sublist txs :=
  foldl_mapDelete_sublist (fun t : Transaction => t.Hash) removed txs

theorem Pop_fst (m : Mempool) (max : Int) (sorted : List Transaction) :
    ∃ txs, (m.Pop max sorted).1 = { m with txs := txs } ∧ txs.Sublist m.txs := by
  unfold Mempool.Pop
  by_cases h0 : max ≤ 0 ∨ m.txs.length = 0
  · rw [if_pos h0]; exact ⟨m.txs, rfl, List.Sublist.refl _⟩
  · rw [if_neg h0]; exact ⟨_, rfl, deleteAll_sublist _ _⟩

theorem PopByNonce_fst (m m1 : Mempool) (a : String) (max : Int) (sorted result : List Transaction)
    (h : m.PopByNonce a max sorted = some (m1, result)) :
    ∃ txs, m1 = { m with txs := txs } ∧ txs.Sublist m.txs := by
  unfold Mempool.PopByNonce at h
  simp only at h
  split_ifs at h with hneg <;>
  · simp only [Option.some.injEq, Prod.mk.injEq] at h
    exact ⟨_, h.1.symm, deleteAll_sublist _ _⟩

theorem WellFormed_call (m m1 : Mempool) (c : MempoolCall) (hwf : m.WellFormed)
    (h : m.call c = some m1) : m1.WellFormed := by
  cases c with
  | Add tx =>
    simp only [Mempool.call, Option.map_eq_some'] at h
    obtain ⟨⟨m2, r⟩, h2, e⟩ := h
    simp only at e
    subst e
    exact WellFormed_Add m m2 tx r hwf h2
  | AddWithAccountState tx b n =>
    simp only [Mempool.call, Option.map_eq_some', Mempool.AddWithAccountState] at h
    obtain ⟨⟨m2, r⟩, h2, e⟩ := h
    simp only at e
    subst e
    have hwf' : Mempool.WellFormed
        { m with validator := m.validator.SetAccountState tx.From b n } := ⟨hwf.1, hwf.2⟩
    exact WellFormed_Add _ m2 tx r hwf' h2
  | Pop max sorted =>
    simp only [Mempool.call, Option.some.injEq] at h
    obtain ⟨txs, e, hsub⟩ := Pop_fst m max sorted
    rw [← h, e]
    exact WellFormed_of_sublist m _ hwf hsub
  | PopByNonce a max sorted =>
    simp only [Mempool.call, Option.map_eq_some'] at h
    obtain ⟨⟨m2, r⟩, h2, e⟩ := h
    simp only at e
    subst e
    obtain ⟨txs, e, hsub⟩ := PopByNonce_fst m m2 a max sorted r h2
    rw [e]
    exact WellFormed_of_sublist m _ hwf hsub
  | RemoveTransactions hs =>
    simp only [Mempool.call, Option.some.injEq] at h
    rw [← h]
    exact WellFormed_of_sublist m _ hwf (foldl_mapDelete_sublist (fun s : String => s) _ _)

theorem WellFormed_calls : ∀ (cs : List MempoolCall) (m m1 : Mempool), m.WellFormed →
    m.calls cs = some m1 → m1.WellFormed := by
  intro cs
  induction cs with
  | nil =>
    intro m m1 hwf h
    simp only [Mempool.calls, Option.some.injEq] at h
    rw [← h]; exact hwf
  | cons c rest ih =>
    intro m m1 hwf h
    simp only [Mempool.calls] at h
    cases hc : m.call c with
    | none => rw [hc] at h; simp at h
    | some m2 =>
      rw [hc] at h
      exact ih m2 m1 (WellFormed_call m m2 c hwf hc) h

/-- Counterexample to C15: after `AddWithAccountState` of a transaction of `alice` with
nonce 0 and `Add` of another transaction of `alice` with nonce 0, both are pending. -/
theorem pending_shares_sender_and_nonce :
    (NewMempool 10).calls
      [MempoolCall.AddWithAccountState exampleTxA 1000000000000000000 0,
        MempoolCall.Add exampleTxB] =
      some { txs := [("ha", exampleTxA), ("hb", exampleTxB)],
             validator := (NewTransactionValidator 1000000000 1000000).SetAccountState "alice"
               1000000000000000000 0,
             maxSize := 10 } ∧
    exampleTxA ≠ exampleTxB ∧ exampleTxA.From = exampleTxB.From ∧
    exampleTxA.Nonce = exampleTxB.Nonce := by
  decide

/-- C15 as amended: the pending set is keyed by `Hash`, and uniqueness holds for the hash
only. In every mempool state reachable from an empty mempool by `Add`,
`AddWithAccountState`, `Pop`, `PopByNonce` and `RemoveTransactions`, every transaction is
stored under its own `Hash` and no two pending transactions have the same `Hash`. -/
theorem pending_hashes_unique (maxSize : Int) (cs : List MempoolCall) (m : Mempool)
    (h : (NewMempool maxSize).calls cs = some m) :
    (∀ kv ∈ m.txs, kv.1 = kv.2.Hash) ∧ (m.pending.map (fun tx => tx.Hash)).Nodup := by
  have hwf0 : (NewMempool maxSize).WellFormed := ⟨by simp [NewMempool], by simp [NewMempool]⟩
  obtain ⟨hnd, hkey⟩ := WellFormed_calls cs _ m hwf0 h
  refine ⟨hkey, ?_⟩
  have hkeys : m.txs.map Prod.fst = m.pending.map (fun t => t.Hash) := by
    simp only [Mempool.pending, List.map_map]
    apply List.map_congr_left
    intro kv hkv
    exact hkey kv hkv
  rw [← hkeys]; exact hnd

/-- Witness of C15 as amended, on the two calls of the counterexample followed by a
`Pop`. -/
theorem pending_hashes_unique_witness :
    (NewMempool 10).calls
      [MempoolCall.AddWithAccountState exampleTxA 1000000000000000000 0,
        MempoolCall.Add exampleTxB, MempoolCall.Add exampleTxA,
        MempoolCall.Pop 1 [exampleTxA, exampleTxB]] =
      some { txs := [("hb", exampleTxB)],
             validator := (NewTransactionValidator 1000000000 1000000).SetAccountState "alice"
               1000000000000000000 0,
             maxSize := 10 } ∧
    (∀ kv ∈ [("hb", exampleTxB)], kv.1 = kv.2.Hash) ∧
    ([exampleTxB].map (fun tx => tx.Hash)).Nodup :=
  ⟨by decide,
    pending_hashes_unique 10
      [MempoolCall.AddWithAccountState exampleTxA 1000000000000000000 0,
        MempoolCall.Add exampleTxB, MempoolCall.Add exampleTxA,
        MempoolCall.Pop 1 [exampleTxA, exampleTxB]]
      { txs := [("hb", exampleTxB)],
        validator := (NewTransactionValidator 1000000000 1000000).SetAccountState "alice"
          1000000000000000000 0,
        maxSize := 10 } (by decide)⟩

/-! ## C16 to C20: the validation pipeline -/

/-- C16: `ValidateBlock` runs its checks in the order hash, producer, duplicate/parents,
timestamp, height, signature, authorization and returns (wrapped in "BLOCK REJECTED") the
error of the first check that fails, whatever the later checks would say; when all pass
the block is accepted and the participation recorded. A block with a wrong hash and a
missing parent is reported as invalid hash. Whenever an error is returned the engine,
and with it the participation map, is unchanged. -/
theorem ValidateBlock_first_failure (keccakHex : String → String) (currentTime unixNano : Int)
    (block : Block) (dag : GhostDAG) (posEngine : POSEngine) :
    (∀ err, validateHash keccakHex block = Except.error err →
      ValidateBlock keccakHex currentTime unixNano block dag posEngine =
        some (Except.error (ValidationError.blockRejected err))) ∧
    (validateHash keccakHex block = Except.ok () →
      (∀ err, validateProducer block posEngine = Except.error err →
        ValidateBlock keccakHex currentTime unixNano block dag posEngine =
          some (Except.error (ValidationError.blockRejected err))) ∧
      (validateProducer block posEngine = Except.ok () →
        (∀ err, validateParents block dag = Except.error err →
          ValidateBlock keccakHex currentTime unixNano block dag posEngine =
            some (Except.error (ValidationError.blockRejected err))) ∧
        (validateParents block dag = Except.ok () →
          (∀ err, validateTimestamp currentTime block = Except.error err →
            ValidateBlock keccakHex currentTime unixNano block dag posEngine =
              some (Except.error (ValidationError.blockRejected err))) ∧
          (validateTimestamp currentTime block = Except.ok () →
            (∀ err, validateNoCycles block dag = Except.error err →
              ValidateBlock keccakHex currentTime unixNano block dag posEngine =
                some (Except.error (ValidationError.blockRejected err))) ∧
            (validateNoCycles block dag = Except.ok () →
              (∀ err, validateSignature block = Except.error err →
                ValidateBlock keccakHex currentTime unixNano block dag posEngine =
                  some (Except.error (ValidationError.blockRejected err))) ∧
              (validateSignature block = Except.ok () →
                (∀ err, validateAuthorization unixNano posEngine = some (Except.error err) →
                  ValidateBlock keccakHex currentTime unixNano block dag posEngine =
                    some (Except.error (ValidationError.blockRejected err))) ∧
                (validateAuthorization unixNano posEngine = some (Except.ok ()) →
                  ValidateBlock keccakHex currentTime unixNano block dag posEngine =
                    some (Except.ok (posEngine.RecordParticipation
                      (block.Height % 2 ^ 64).toNat block.ProducerID))))))))) ∧
    (∀ err, ValidateBlock keccakHex currentTime unixNano block dag posEngine =
        some (Except.error err) →
      engineAfterValidateBlock posEngine (Except.error err) = posEngine ∧
      (engineAfterValidateBlock posEngine (Except.error err)).Participation =
        posEngine.Participation) ∧
    (validateParents exampleOrphan exampleParentGraph =
        Except.error (ValidationError.missingParent "missing") ∧
      ValidateBlock exampleKeccakHex 1000 12345 exampleOrphan exampleParentGraph exampleEngine =
        some (Except.error (ValidationError.blockRejected
          (ValidationError.invalidHash "0011223344556677" "orphan")))) := by
  refine ⟨?_, ?_, fun err _ => ⟨rfl, rfl⟩, by decide⟩
  · intro err h1
    simp [ValidateBlock, h1]
  · intro h1
    refine ⟨fun err h2 => by simp [ValidateBlock, h1, h2], fun h2 => ?_⟩
    refine ⟨fun err h3 => by simp [ValidateBlock, h1, h2, h3], fun h3 => ?_⟩
    refine ⟨fun err h4 => by simp [ValidateBlock, h1, h2, h3, h4], fun h4 => ?_⟩
    refine ⟨fun err h5 => by simp [ValidateBlock, h1, h2, h3, h4, h5], fun h5 => ?_⟩
    refine ⟨fun err h6 => by simp [ValidateBlock, h1, h2, h3, h4, h5, h6], fun h6 => ?_⟩
    exact ⟨fun err h7 => by simp [ValidateBlock, h1, h2, h3, h4, h5, h6, h7],
      fun h7 => by simp [ValidateBlock, h1, h2, h3, h4, h5, h6, h7]⟩

theorem ValidateBlock_rejects_of_producer_error (keccakHex : String → String)
    (currentTime unixNano : Int) (block : Block) (dag : GhostDAG) (posEngine : POSEngine)
    (h : validateProducer block posEngine ≠ Except.ok ()) :
    ∃ err, ValidateBlock keccakHex currentTime unixNano block dag posEngine =
      some (Except.error err) := by
  unfold ValidateBlock
  rcases h1 : validateHash keccakHex block with e | u
  · exact ⟨_, rfl⟩
  rcases h2 : validateProducer block posEngine with e | u
  · exact ⟨_, rfl⟩
  · exact absurd h2 h

theorem validateProducer_ok (block : Block) (posEngine : POSEngine) :
    validateProducer block posEngine = Except.ok () ↔
      ∃ v, posEngine.Validators.find? (fun w => w.ID = block.ProducerID) = some v ∧
        v.PQPubKeyHash = block.ProducerPubKeyHash := by
  unfold validateProducer POSEngine.ValidatorExists POSEngine.GetValidatorPQHash
  cases hf : posEngine.Validators.find? (fun w => w.ID = block.ProducerID) with
  | none =>
    have hany : posEngine.Validators.any (fun w => decide (w.ID = block.ProducerID)) = false := by
      rw [List.any_eq_false]
      intro w hw
      have := List.find?_eq_none.1 hf w hw
      simpa using this
    simp [hany]
  | some v =>
    have hany : posEngine.Validators.any (fun w => decide (w.ID = block.ProducerID)) = true := by
      rw [List.any_eq_true]
      have hv := List.find?_some hf
      exact ⟨v, List.mem_of_find?_eq_some hf, hv⟩
    simp only [hany, Bool.true_eq_false, if_false, Option.some.injEq, exists_eq_left']
    by_cases hk : block.ProducerPubKeyHash = v.PQPubKeyHash
    · simp [hk]
    · simp only [ne_eq, hk, not_false_eq_true, if_true, reduceCtorEq, false_iff]
      exact fun e => hk e.symm

/-- C17: every block accepted by `ValidateBlock` has a `ProducerID` equal to the ID of a
validator of the engine's current (active) validator list, and its `ProducerPubKeyHash`
is the `PQPubKeyHash` stored for that validator (the one `GetValidatorPQHash` looks up); a
block with an unknown `ProducerID` or with another key hash is rejected. -/
theorem ValidateBlock_producer_known (keccakHex : String → String)
    (currentTime unixNano : Int) (block : Block) (dag : GhostDAG) (posEngine : POSEngine) :
    (∀ posEngine1,
      ValidateBlock keccakHex currentTime unixNano block dag posEngine =
        some (Except.ok posEngine1) →
      ∃ v ∈ posEngine.GetActiveValidators, v.ID = block.ProducerID ∧
        v.PQPubKeyHash = block.ProducerPubKeyHash ∧
        posEngine.GetValidatorPQHash block.ProducerID = v.PQPubKeyHash) ∧
    ((∀ v ∈ posEngine.GetActiveValidators, v.ID ≠ block.ProducerID) →
      (∃ err, ValidateBlock keccakHex currentTime unixNano block dag posEngine =
        some (Except.error err)) ∧
      (validateHash keccakHex block = Except.ok () →
        ValidateBlock keccakHex currentTime unixNano block dag posEngine =
          some (Except.error (ValidationError.blockRejected
            (ValidationError.unknownProducer block.ProducerID))))) ∧
    (block.ProducerPubKeyHash ≠ posEngine.GetValidatorPQHash block.ProducerID →
      ∃ err, ValidateBlock keccakHex currentTime unixNano block dag posEngine =
        some (Except.error err)) := by
  refine ⟨?_, ?_, ?_⟩
  · intro posEngine1 hval
    obtain ⟨_, h2, _⟩ := (ValidateBlock_ok_iff _ _ _ _ _ _ _).1 hval
    obtain ⟨v, hf, hk⟩ := (validateProducer_ok block posEngine).1 h2
    refine ⟨v, List.mem_of_find?_eq_some hf, ?_, hk, ?_⟩
    · simpa using List.find?_some hf
    · simp [POSEngine.GetValidatorPQHash, hf]
  · intro hunknown
    have hany : posEngine.ValidatorExists block.ProducerID = false := by
      unfold POSEngine.ValidatorExists
      rw [List.any_eq_false]
      intro w hw
      simpa using hunknown w hw
    have hp : validateProducer block posEngine =
        Except.error (ValidationError.unknownProducer block.ProducerID) := by
      simp [validateProducer, hany]
    refine ⟨ValidateBlock_rejects_of_producer_error _ _ _ _ _ _ (by rw [hp]; simp), ?_⟩
    intro h1
    simp [ValidateBlock, h1, hp]
  · intro hne
    apply ValidateBlock_rejects_of_producer_error
    intro hok
    obtain ⟨v, hf, hk⟩ := (validateProducer_ok block posEngine).1 hok
    apply hne
    simp [POSEngine.GetValidatorPQHash, hf, hk]

/-- Witness of C17: the example child block is accepted, and its producer `v1` with key
hash `pk1` is a validator of the example engine. -/
theorem ValidateBlock_producer_known_witness :
    ValidateBlock exampleKeccakHex 1000 12345 exampleChild exampleParentGraph exampleEngine =
      some (Except.ok (exampleEngine.RecordParticipation 6 "v1")) ∧
    ∃ v ∈ exampleEngine.GetActiveValidators, v.ID = exampleChild.ProducerID ∧
      v.PQPubKeyHash = exampleChild.ProducerPubKeyHash ∧
      exampleEngine.GetValidatorPQHash exampleChild.ProducerID = v.PQPubKeyHash :=
  ⟨by decide,
    (ValidateBlock_producer_known exampleKeccakHex 1000 12345 exampleChild exampleParentGraph
      exampleEngine).1 (exampleEngine.RecordParticipation 6 "v1") (by decide)⟩

/-- C18: with the current time `now` in Unix seconds, `validateTimestamp` accepts a block
if and only if `now - 3600 ≤ Timestamp ≤ now + 300`; a later timestamp is rejected as too
far in the future and an earlier one as too far in the past. So `now + 299` and
`now + 300` are accepted, `now + 301` and `now + 1000` are too far in the future, and
`now - 7200` is too far in the past. -/
theorem validateTimestamp_accepts_iff (now : Int) (block : Block) :
    (validateTimestamp now block = Except.ok () ↔
      now - 3600 ≤ block.Timestamp ∧ block.Timestamp ≤ now + 300) ∧
    (now + 300 < block.Timestamp →
      validateTimestamp now block =
        Except.error (ValidationError.timestampTooFarInFuture block.Timestamp (now + 300))) ∧
    (block.Timestamp < now - 3600 →
      validateTimestamp now block =
        Except.error (ValidationError.timestampTooFarInPast block.Timestamp (now - 3600))) ∧
    validateTimestamp now { block with Timestamp := now + 299 } = Except.ok () ∧
    validateTimestamp now { block with Timestamp := now + 300 } = Except.ok () ∧
    validateTimestamp now { block with Timestamp := now + 301 } =
      Except.error (ValidationError.timestampTooFarInFuture (now + 301) (now + 300)) ∧
    validateTimestamp now { block with Timestamp := now + 1000 } =
      Except.error (ValidationError.timestampTooFarInFuture (now + 1000) (now + 300)) ∧
    validateTimestamp now { block with Timestamp := now - 7200 } =
      Except.error (ValidationError.timestampTooFarInPast (now - 7200) (now - 3600)) := by
  have hfut : ∀ b : Block, now + 300 < b.Timestamp →
      validateTimestamp now b =
        Except.error (ValidationError.timestampTooFarInFuture b.Timestamp (now + 300)) := by
    intro b h
    unfold validateTimestamp
    simp only
    rw [if_pos (by omega)]
  have hpast : ∀ b : Block, b.Timestamp < now - 3600 →
      validateTimestamp now b =
        Except.error (ValidationError.timestampTooFarInPast b.Timestamp (now - 3600)) := by
    intro b h
    unfold validateTimestamp
    simp only
    rw [if_neg (by omega), if_pos h]
  have hok : ∀ b : Block, now - 3600 ≤ b.Timestamp → b.Timestamp ≤ now + 300 →
      validateTimestamp now b = Except.ok () := by
    intro b h1 h2
    unfold validateTimestamp
    simp only
    rw [if_neg (by omega), if_neg (by omega)]
  refine ⟨?_, hfut block, hpast block, ?_, ?_, ?_, ?_, ?_⟩
  · constructor
    · intro h
      by_cases h1 : now + 300 < block.Timestamp
      · rw [hfut block h1] at h; cases h
      · by_cases h2 : block.Timestamp < now - 3600
        · rw [hpast block h2] at h; cases h
        · omega
    · rintro ⟨h1, h2⟩
      exact hok block h1 h2
  · exact hok _ (by simp only; omega) (by simp only; omega)
  · exact hok _ (by simp only; omega) (by simp only; omega)
  · exact hfut _ (by simp only; omega)
  · exact hfut _ (by simp only; omega)
  · exact hpast _ (by simp only; omega)

theorem hexDecode_some_spec : ∀ (cs : List Char) (bytes : List Nat),
    hexDecode cs = some bytes →
      cs.length = 2 * bytes.length ∧ (∀ c ∈ cs, (fromHexChar c).isSome = true) ∧
        ∀ b ∈ bytes, b < 256
  | [], bytes, h => by
    simp only [hexDecode, Option.some.injEq] at h
    subst h
    simp
  | [_], bytes, h => by simp [hexDecode] at h
  | a :: b :: rest, bytes, h => by
    unfold hexDecode at h
    cases ha : fromHexChar a with
    | none => simp [ha] at h
    | some x =>
      cases hb : fromHexChar b with
      | none => simp [ha, hb] at h
      | some y =>
        cases hr : hexDecode rest with
        | none => simp [ha, hb, hr] at h
        | some tl =>
          simp only [ha, hb, hr, Option.some.injEq] at h
          subst h
          obtain ⟨h1, h2, h3⟩ := hexDecode_some_spec rest tl hr
          have hx : x < 16 := by
            unfold fromHexChar at ha
            split_ifs at ha <;> simp at ha <;> simp_all <;> omega
          have hy : y < 16 := by
            unfold fromHexChar at hb
            split_ifs at hb <;> simp at hb <;> simp_all <;> omega
          refine ⟨by simp [h1]; omega, ?_, ?_⟩
          · intro c hc
            simp only [List.mem_cons] at hc
            rcases hc with rfl | rfl | hc
            · simp [ha]
            · simp [hb]
            · exact h2 c hc
          · intro v hv
            simp only [List.mem_cons] at hv
            rcases hv with rfl | hv
            · omega
            · exact h3 v hv

theorem hexDecode_of_hex : ∀ (n : Nat) (cs : List Char), cs.length = 2 * n →
    (∀ c ∈ cs, (fromHexChar c).isSome = true) → ∃ bytes, hexDecode cs = some bytes
  | 0, cs, hlen, _ => by
    have : cs = [] := List.eq_nil_of_length_eq_zero (by omega)
    subst this
    exact ⟨[], rfl⟩
  | n + 1, cs, hlen, hall => by
    match cs, hlen, hall with
    | [], hlen, _ => simp at hlen
    | [_], hlen, _ => simp at hlen; omega
    | a :: b :: rest, hlen, hall =>
      obtain ⟨tl, htl⟩ := hexDecode_of_hex n rest (by simp at hlen; omega)
        (fun c hc => hall c (by simp [hc]))
      obtain ⟨x, hx⟩ := Option.isSome_iff_exists.1 (hall a (by simp))
      obtain ⟨y, hy⟩ := Option.isSome_iff_exists.1 (hall b (by simp))
      exact ⟨(16 * x + y) :: tl, by simp [hexDecode, hx, hy, htl]⟩

/-- C19: `validateSignature` accepts a block if and only if its `Signature` is not empty,
is a valid hexadecimal string (an even number of characters, all of them hexadecimal
digits) and decodes to at least 100 bytes of which at least one is not zero. The empty
string is rejected as empty, `"1234"` (2 bytes) as too short, and the hexadecimal encoding
of 200 zero bytes as all zeros. -/
theorem validateSignature_accepts_iff (block : Block) :
    (validateSignature block = Except.ok () ↔
      block.Signature ≠ "" ∧
      block.Signature.data.length % 2 = 0 ∧
      (∀ c ∈ block.Signature.data, (fromHexChar c).isSome = true) ∧
      ∃ bytes, hexDecode block.Signature.data = some bytes ∧
        2 * bytes.length = block.Signature.data.length ∧ 100 ≤ bytes.length ∧
        ∃ b ∈ bytes, b ≠ 0) ∧
    (block.Signature.data.length % 2 = 0 →
      (∀ c ∈ block.Signature.data, (fromHexChar c).isSome = true) →
      ∃ bytes, hexDecode block.Signature.data = some bytes) ∧
    validateSignature { block with Signature := "" } =
      Except.error ValidationError.emptySignature ∧
    validateSignature { block with Signature := "1234" } =
      Except.error (ValidationError.signatureTooShort 2) ∧
    (hexDecode exampleZeroSignature.data = some (List.replicate 200 0) ∧
      validateSignature { block with Signature := exampleZeroSignature } =
        Except.error ValidationError.signatureAllZeros) := by
  refine ⟨?_, ?_, by simp [validateSignature], ?_, by decide, ?_⟩
  · unfold validateSignature
    by_cases he : block.Signature = ""
    · simp [he]
    · rw [if_neg he]
      cases hd : hexDecode block.Signature.data with
      | none => simp
      | some bytes =>
        obtain ⟨h1, h2, _⟩ := hexDecode_some_spec _ _ hd
        simp only [Option.some.injEq, exists_eq_left']
        by_cases hl : bytes.length < 100
        · rw [if_pos hl]
          simp only [reduceCtorEq, false_iff]
          rintro ⟨_, _, _, _, h, _⟩
          omega
        · rw [if_neg hl]
          by_cases hz : bytes.any (fun b => decide (b ≠ 0)) = true
          · rw [if_pos hz]
            simp only [true_iff]
            refine ⟨he, by omega, h2, h1.symm, by omega, ?_⟩
            simpa using hz
          · rw [if_neg hz]
            simp only [reduceCtorEq, false_iff]
            rintro ⟨_, _, _, _, _, hb⟩
            exact hz (by simpa using hb)
  · intro hev hall
    exact hexDecode_of_hex (block.Signature.data.length / 2) _ (by omega) hall
  · have hd : hexDecode "1234".data = some [18, 52] := by decide
    have hne : "1234" ≠ "" := by decide
    unfold validateSignature
    simp only
    rw [if_neg hne, hd]
    decide
  · have hd : hexDecode exampleZeroSignature.data = some (List.replicate 200 0) := by decide
    have hne : exampleZeroSignature ≠ "" := by decide
    unfold validateSignature
    simp only
    rw [if_neg hne, hd]
    decide

theorem computeBlockHash_of_ne_genesis (keccakHex : String → String) (block : Block)
    (h : block.Hash ≠ "genesis") :
    computeBlockHash keccakHex block =
      (keccakHex (sprintStrings block.Parents ++ ":" ++ toString block.Height ++ ":" ++
        toString block.BlueScore ++ ":" ++ toString block.Timestamp ++ ":" ++
        block.SelectedParent ++ ":" ++ block.ProducerID ++ ":" ++
        block.ProducerPubKeyHash)).take 16 := by
  unfold computeBlockHash
  rw [if_neg h]

theorem strayBlock_hash_valid (keccakHex : String → String) :
    validateHash keccakHex (strayBlock keccakHex) = Except.ok () := by
  have hx : exampleStraySelectedParent.Hash ≠ "genesis" := by decide
  have hhash : (strayBlock keccakHex).Hash =
      computeBlockHash keccakHex exampleStraySelectedParent := by
    simp only [strayBlock]
  unfold validateHash
  simp only
  rw [if_neg]
  simp only [ne_eq, not_not]
  by_cases hg : (strayBlock keccakHex).Hash = "genesis"
  · simp only [computeBlockHash, hg, if_true]
  · rw [computeBlockHash_of_ne_genesis keccakHex (strayBlock keccakHex) hg, hhash,
      computeBlockHash_of_ne_genesis keccakHex exampleStraySelectedParent hx]
    simp only [strayBlock]

theorem strayBlock_fields (keccakHex : String → String) :
    (strayBlock keccakHex).Parents = ["B"] ∧ (strayBlock keccakHex).SelectedParent = "X" ∧
    (strayBlock keccakHex).Height = 6 ∧ (strayBlock keccakHex).Timestamp = 1000 ∧
    (strayBlock keccakHex).ProducerID = "v1" ∧
    (strayBlock keccakHex).ProducerPubKeyHash = "pk1" ∧
    (strayBlock keccakHex).Signature = exampleSignature := by
  simp only [strayBlock]
  decide

theorem exampleParentGraph_blocks : exampleParentGraph.blocks = [("B", exampleParent)] := by
  decide

theorem strayGraph_blocks (keccakHex : String → String)
    (hfresh : (strayBlock keccakHex).Hash ≠ "B") :
    exampleParentGraph.GetBlock (strayBlock keccakHex).Hash = none ∧
    (strayGraph keccakHex).blocks =
      [("B", exampleParent), ((strayBlock keccakHex).Hash, strayBlock keccakHex)] := by
  have habsent : exampleParentGraph.GetBlock (strayBlock keccakHex).Hash = none := by
    unfold GhostDAG.GetBlock
    rw [exampleParentGraph_blocks]
    simp [mapGet, Ne.symm hfresh]
  refine ⟨habsent, ?_⟩
  unfold strayGraph
  rw [AddBlock_of_absent exampleParentGraph (strayBlock keccakHex) habsent]
  simp only
  rw [exampleParentGraph_blocks]
  simp [mapSet, Ne.symm hfresh]

theorem strayGraph_entries (keccakHex : String → String)
    (hfresh : (strayBlock keccakHex).Hash ≠ "B") :
    validateDAGEntry (strayGraph keccakHex) "B" exampleParent = none ∧
    validateDAGEntry (strayGraph keccakHex) (strayBlock keccakHex).Hash
      (strayBlock keccakHex) =
        some (DagError.selectedParentNotInParents (strayBlock keccakHex).Hash "X") := by
  have hgetB : mapGet (strayGraph keccakHex).blocks "B" = some exampleParent := by
    rw [(strayGraph_blocks keccakHex hfresh).2]
    simp [mapGet]
  have hp0 : exampleParent.Parents = [] := rfl
  have hs0 : exampleParent.SelectedParent = "" := rfl
  obtain ⟨hp, hs, _⟩ := strayBlock_fields keccakHex
  constructor
  · unfold validateDAGEntry
    rw [hp0, hs0]
    simp
  · unfold validateDAGEntry
    rw [hp, hs]
    simp [hgetB]

/-- C20: `ValidateBlock` never reads `SelectedParent` (apart from hashing it). Under
every Keccak rendering whose hash for the block differs from the parent's hash `B`, the
block `strayBlock`, whose non-empty `SelectedParent` `X` is not among its parents `[B]`,
is accepted by `ValidateBlock` and inserted by `AddBlock`; `ValidateDAG`, which does
make the check, then reports the block, in whichever order it visits the two blocks. -/
theorem ValidateBlock_accepts_stray_SelectedParent (keccakHex : String → String)
    (hfresh : (strayBlock keccakHex).Hash ≠ "B") :
    (strayBlock keccakHex).SelectedParent ≠ "" ∧
    (strayBlock keccakHex).SelectedParent ∉ (strayBlock keccakHex).Parents ∧
    ValidateBlock keccakHex 1000 12345 (strayBlock keccakHex) exampleParentGraph exampleEngine =
      some (Except.ok (exampleEngine.RecordParticipation 6 "v1")) ∧
    (exampleParentGraph.AddBlock (strayBlock keccakHex)).2 = none ∧
    (strayGraph keccakHex).GetBlock (strayBlock keccakHex).Hash = some (strayBlock keccakHex) ∧
    (strayGraph keccakHex).ValidateDAG (strayGraph keccakHex).blocks =
      some (DagError.selectedParentNotInParents (strayBlock keccakHex).Hash "X") ∧
    (strayGraph keccakHex).ValidateDAG (strayGraph keccakHex).blocks.reverse =
      some (DagError.selectedParentNotInParents (strayBlock keccakHex).Hash "X") := by
  obtain ⟨habsent, hblocks⟩ := strayGraph_blocks keccakHex hfresh
  obtain ⟨hentryB, hentry⟩ := strayGraph_entries keccakHex hfresh
  have hB : exampleParentGraph.GetBlock "B" = some exampleParent := by decide
  obtain ⟨hp, hs, hh, ht, hid, hpk, hsig⟩ := strayBlock_fields keccakHex
  refine ⟨by rw [hs]; decide, by rw [hs, hp]; decide, ?_, ?_, ?_, ?_, ?_⟩
  · rw [ValidateBlock_ok_iff]
    refine ⟨strayBlock_hash_valid keccakHex, ?_, ?_, ?_, ?_, ?_, by decide, ?_⟩
    · unfold validateProducer
      rw [hid, hpk]
      decide
    rotate_left
    · unfold validateTimestamp
      rw [ht]
      decide
    rotate_left
    · unfold validateSignature
      rw [hsig]
      decide
    · rw [hh, hid]
      decide
    · rw [validateParents_ok, hp]
      refine ⟨habsent, ?_⟩
      intro p hp1
      rw [List.mem_singleton] at hp1
      subst hp1
      exact ⟨_, hB⟩
    · unfold validateNoCycles
      rw [checkParentHeights_ok, hp]
      intro p hp1
      rw [List.mem_singleton] at hp1
      subst hp1
      exact ⟨_, hB, by rw [hh]; decide⟩
  · rw [AddBlock_of_absent exampleParentGraph (strayBlock keccakHex) habsent]
  · exact GetBlock_AddBlock_same _ _ habsent
  · rw [hblocks]
    simp only [GhostDAG.ValidateDAG]
    rw [hentryB]
    simp only
    rw [hentry]
  · rw [hblocks]
    simp only [List.reverse_cons, List.reverse_nil, List.nil_append, List.singleton_append,
      GhostDAG.ValidateDAG]
    rw [hentry]

/-- Witness of C20: under the example Keccak rendering the hash of the block is not `B`. -/
theorem ValidateBlock_accepts_stray_SelectedParent_witness :
    (strayBlock exampleKeccakHex).Hash ≠ "B" ∧
    ValidateBlock exampleKeccakHex 1000 12345 (strayBlock exampleKeccakHex) exampleParentGraph
        exampleEngine = some (Except.ok (exampleEngine.RecordParticipation 6 "v1")) ∧
    (strayGraph exampleKeccakHex).ValidateDAG (strayGraph exampleKeccakHex).blocks =
      some (DagError.selectedParentNotInParents (strayBlock exampleKeccakHex).Hash "X") :=
  ⟨by decide,
    (ValidateBlock_accepts_stray_SelectedParent exampleKeccakHex (by decide)).2.2.1,
    (ValidateBlock_accepts_stray_SelectedParent exampleKeccakHex (by decide)).2.2.2.2.2.1⟩

/-! ## C21, C22: the fixtures of the test suite -/

theorem SelectValidator_some (p : POSEngine) (unixNano : Int) (hv : p.Validators ≠ [])
    (hs : p.StakeHistory ≠ []) : ∃ v, p.SelectValidator unixNano = some (some v) := by
  obtain ⟨v0, rest, hv0⟩ := List.exists_cons_of_ne_nil hv
  have hlen : ¬ p.Validators.length = 0 := by simp [hv0]
  have hhead : p.Validators.head? = some v0 := by simp [hv0]
  unfold POSEngine.SelectValidator
  rw [if_neg hlen]
  cases hl : p.StakeHistory.getLast? with
  | none => exact absurd (List.getLast?_eq_none_iff.1 hl) hs
  | some currentStake =>
    simp only
    by_cases h0 : currentStake.Total = 0
    · rw [if_pos h0, hhead]
      exact ⟨v0, rfl⟩
    · rw [if_neg h0]
      unfold POSEngine.selectForTarget
      cases selectLoop currentStake.Stake ((unixNano % 2 ^ 64).toNat % currentStake.Total)
          p.Validators 0 with
      | none => exact ⟨v0, by simp [hhead]⟩
      | some v => exact ⟨v, rfl⟩

theorem validateTimestamp_window (now : Int) (block : Block) :
    validateTimestamp now block = Except.ok () ↔
      now - 3600 ≤ block.Timestamp ∧ block.Timestamp ≤ now + 300 := by
  unfold validateTimestamp
  simp only
  by_cases h1 : block.Timestamp > now + 300
  · rw [if_pos h1]
    simp only [reduceCtorEq, false_iff]
    omega
  · rw [if_neg h1]
    by_cases h2 : block.Timestamp < now - 3600
    · rw [if_pos h2]
      simp only [reduceCtorEq, false_iff]
      omega
    · rw [if_neg h2]
      simp only [true_iff]
      omega

theorem validateSignature_ok (block : Block) :
    validateSignature block = Except.ok () ↔
      ∃ bytes, hexDecode block.Signature.data = some bytes ∧ 100 ≤ bytes.length ∧
        ∃ b ∈ bytes, b ≠ 0 := by
  unfold validateSignature
  by_cases he : block.Signature = ""
  · rw [if_pos he, he]
    simp only [reduceCtorEq, false_iff]
    rintro ⟨bytes, hd, hl, _⟩
    have : bytes = [] := by
      have h0 : hexDecode "".data = some [] := rfl
      rw [h0] at hd
      exact (Option.some.inj hd).symm
    subst this
    simp at hl
  · rw [if_neg he]
    cases hd : hexDecode block.Signature.data with
    | none => simp
    | some bytes =>
      simp only [Option.some.injEq, exists_eq_left']
      by_cases hl : bytes.length < 100
      · rw [if_pos hl]
        simp only [reduceCtorEq, false_iff]
        rintro ⟨h, _⟩
        omega
      · rw [if_neg hl]
        by_cases hz : bytes.any (fun b => decide (b ≠ 0)) = true
        · rw [if_pos hz]
          simp only [true_iff]
          exact ⟨by omega, by simpa using hz⟩
        · rw [if_neg hz]
          simp only [reduceCtorEq, false_iff]
          rintro ⟨_, hb⟩
          exact hz (by simpa using hb)

/-- C21 (defect): the fixture `createValidBlock(testDAG, 1)` of the case `Valid Block` has
the shape the claim describes (its hash is not stored, its parent `genesis` is stored
with a smaller height, its timestamp is the current time, its signature passes the
signature check), and `ValidateBlock` rejects it against the engine without validators,
where the test expects no error: the hash check fails, and so would the producer check
and the authorization check. Whatever the Keccak rendering and the clock are, the
fixture is rejected. -/
theorem ValidateBlock_rejects_test_fixture :
    exampleTestGraph.GetBlock exampleTestFixture.Hash = none ∧
    exampleTestFixture.Parents = ["genesis"] ∧
    exampleTestGraph.GetBlock "genesis" = some exampleTestGenesis ∧
    exampleTestGenesis.Height < exampleTestFixture.Height ∧
    validateTimestamp 1000 exampleTestFixture = Except.ok () ∧
    validateSignature exampleTestFixture = Except.ok () ∧
    ValidateBlock exampleKeccakHex 1000 12345 exampleTestFixture exampleTestGraph
        exampleZeroEngine =
      some (Except.error (ValidationError.blockRejected
        (ValidationError.invalidHash "0011223344556677" "test_hash_\x01"))) ∧
    validateProducer exampleTestFixture exampleZeroEngine =
      Except.error (ValidationError.unknownProducer "") ∧
    validateAuthorization 12345 exampleZeroEngine =
      some (Except.error ValidationError.noActiveValidators) ∧
    (∀ (keccakHex : String → String) (currentTime unixNano : Int),
      ∃ err, ValidateBlock keccakHex currentTime unixNano exampleTestFixture exampleTestGraph
        exampleZeroEngine = some (Except.error err)) := by
  refine ⟨by decide, by decide, by decide, by decide, by decide, by decide, by decide,
    by decide, by decide, ?_⟩
  intro keccakHex currentTime unixNano
  exact ValidateBlock_rejects_of_producer_error keccakHex currentTime unixNano
    exampleTestFixture exampleTestGraph exampleZeroEngine (by decide)

theorem withBlueScore_hash_valid (keccakHex : String → String) (block : Block) (score : Int) :
    validateHash keccakHex (withBlueScore keccakHex block score) = Except.ok () := by
  have hhash : (withBlueScore keccakHex block score).Hash =
      computeBlockHash keccakHex { block with BlueScore := score } := by
    simp only [withBlueScore]
  unfold validateHash
  simp only
  rw [if_neg]
  simp only [ne_eq, not_not]
  by_cases hg : (withBlueScore keccakHex block score).Hash = "genesis"
  · simp only [computeBlockHash, hg, if_true]
  · have hc : ({ block with BlueScore := score } : Block).Hash ≠ "genesis" := by
      intro hc
      apply hg
      rw [hhash]
      unfold computeBlockHash
      rw [if_pos hc]
    rw [computeBlockHash_of_ne_genesis keccakHex (withBlueScore keccakHex block score) hg, hhash,
      computeBlockHash_of_ne_genesis keccakHex _ hc]
    simp only [withBlueScore]

/-- C22 (defect): `ValidateBlock` has no check of `BlueScore`. Whenever a block is
accepted, the block with any other `BlueScore`, such as `-1`, and the hash recomputed for
the changed content is accepted as well, unless that hash is already stored. -/
theorem ValidateBlock_accepts_any_BlueScore (keccakHex : String → String)
    (currentTime unixNano : Int) (block : Block) (dag : GhostDAG)
    (posEngine posEngine1 : POSEngine) (score : Int)
    (hacc : ValidateBlock keccakHex currentTime unixNano block dag posEngine =
      some (Except.ok posEngine1))
    (hnew : dag.GetBlock (withBlueScore keccakHex block score).Hash = none) :
    (withBlueScore keccakHex block score).BlueScore = score ∧
    ValidateBlock keccakHex currentTime unixNano (withBlueScore keccakHex block score) dag
      posEngine = some (Except.ok posEngine1) := by
  refine ⟨by simp only [withBlueScore], ?_⟩
  obtain ⟨_, h2, h3, h4, h5, h6, h7, h8⟩ := (ValidateBlock_ok_iff _ _ _ _ _ _ _).1 hacc
  rw [ValidateBlock_ok_iff]
  refine ⟨withBlueScore_hash_valid keccakHex block score, ?_, ?_, ?_, ?_, ?_, h7, ?_⟩
  · rw [← h2]
    simp only [validateProducer, withBlueScore]
  · rw [validateParents_ok] at h3 ⊢
    exact ⟨hnew, by simpa only [withBlueScore] using h3.2⟩
  · rw [← h4]
    simp only [validateTimestamp, withBlueScore]
  · unfold validateNoCycles at h5 ⊢
    rw [checkParentHeights_ok] at h5 ⊢
    simpa only [withBlueScore] using h5
  · rw [← h6]
    simp only [validateSignature, withBlueScore]
  · rw [h8]
    simp only [withBlueScore]

/-- Witness of C22: the example child block of `B` with the blue score `-1` is accepted. -/
theorem ValidateBlock_accepts_any_BlueScore_witness :
    (withBlueScore exampleKeccakHex exampleChild (-1)).BlueScore = -1 ∧
    ValidateBlock exampleKeccakHex 1000 12345 (withBlueScore exampleKeccakHex exampleChild (-1))
      exampleParentGraph exampleEngine =
        some (Except.ok (exampleEngine.RecordParticipation 6 "v1")) :=
  ValidateBlock_accepts_any_BlueScore exampleKeccakHex 1000 12345 exampleChild
    exampleParentGraph exampleEngine (exampleEngine.RecordParticipation 6 "v1") (-1)
    (by decide) (by decide)

/-! ## C23 to C26: transaction selection of the block producer -/

theorem ValidateTransaction_ok (tv : TransactionValidator) (tx : Transaction)
    (h : tv.ValidateTransaction tx = some (Except.ok ())) :
    tv.validateBasicFields tx = Except.ok () ∧ tv.validateGas tx = some (Except.ok ()) ∧
      tv.validateAccountState tx = Except.ok () := by
  unfold TransactionValidator.ValidateTransaction at h
  rcases h1 : tv.validateBasicFields tx with e | u
  · rw [h1] at h; simp at h
  rw [h1] at h
  simp only at h
  cases h2 : tv.validateGas tx with
  | none => rw [h2] at h; simp at h
  | some r =>
    rw [h2] at h
    rcases r with e | u
    · simp at h
    simp only at h
    rcases h3 : tv.validateAccountState tx with e | u
    · rw [h3] at h; simp at h
    · exact ⟨rfl, rfl, rfl⟩

theorem validateGas_ok_bounds (tv : TransactionValidator) (tx : Transaction)
    (h : tv.validateGas tx = some (Except.ok ())) :
    1 ≤ tx.GasLimit ∧ tx.GasLimit ≤ tv.maxGasLimit := by
  unfold TransactionValidator.validateGas at h
  cases hg : tx.GasPrice with
  | none => rw [hg] at h; simp at h
  | some g =>
    rw [hg] at h
    simp only at h
    by_cases h1 : g ≤ 0
    · rw [if_pos h1] at h; simp at h
    rw [if_neg h1] at h
    by_cases h2 : g < tv.minGasPrice
    · rw [if_pos h2] at h; simp at h
    rw [if_neg h2] at h
    by_cases h3 : tx.GasLimit = 0
    · rw [if_pos h3] at h; simp at h
    rw [if_neg h3] at h
    by_cases h4 : tx.GasLimit > tv.maxGasLimit
    · rw [if_pos h4] at h; simp at h
    exact ⟨by omega, by omega⟩

theorem Add_validator (m m1 : Mempool) (tx : Transaction) (r : Option TxError)
    (h : m.Add tx = some (m1, r)) : m1.validator = m.validator ∧ m1.maxSize = m.maxSize := by
  unfold Mempool.Add at h
  by_cases hfull : (m.txs.length : Int) ≥ m.maxSize
  · rw [if_pos hfull] at h
    simp only [Option.some.injEq, Prod.mk.injEq] at h
    rw [← h.1]; exact ⟨rfl, rfl⟩
  rw [if_neg hfull] at h
  cases hget : mapGet m.txs tx.Hash with
  | some t =>
    rw [hget] at h
    simp only [Option.some.injEq, Prod.mk.injEq] at h
    rw [← h.1]; exact ⟨rfl, rfl⟩
  | none =>
    rw [hget] at h
    simp only at h
    cases hv : m.validator.ValidateTransaction tx with
    | none => rw [hv] at h; simp at h
    | some res =>
      rw [hv] at h
      rcases res with e | u
      · simp only [Option.some.injEq, Prod.mk.injEq] at h
        rw [← h.1]; exact ⟨rfl, rfl⟩
      · simp only [Option.some.injEq, Prod.mk.injEq] at h
        rw [← h.1]; exact ⟨rfl, rfl⟩

theorem returnTransactionsToMempool_validator :
    ∀ (txs : List Transaction) (m m1 : Mempool),
      returnTransactionsToMempool m txs = some m1 → m1.validator = m.validator
  | [], m, m1, h => by
    simp only [returnTransactionsToMempool, Option.some.injEq] at h
    rw [h]
  | tx :: rest, m, m1, h => by
    unfold returnTransactionsToMempool at h
    cases ha : m.Add tx with
    | none => rw [ha] at h; simp at h
    | some r =>
      obtain ⟨m2, e⟩ := r
      rw [ha] at h
      simp only at h
      rw [returnTransactionsToMempool_validator rest m2 m1 h]
      exact (Add_validator m m2 tx e ha).1

/-- The invariant of the selection loop with respect to the validator `tv` of the
mempool: the transactions selected so far have strictly increasing nonces per sender,
`processedNonces` holds for each of their senders a nonce that is at least theirs, and
each of them was accepted by `tv`. -/
theorem selectionLoop_invariant (config : BlockProducerConfig) (candidateTxs : List Transaction)
    (tv : TransactionValidator) :
    ∀ (rest : List Transaction) (s s1 : Selection),
      selectionLoop config candidateTxs rest s = some s1 →
      s.mempool.validator = tv →
      s.validTxs.Pairwise (fun a b => a.From = b.From → a.Nonce < b.Nonce) →
      (∀ tx ∈ s.validTxs, ∃ n, mapGet s.processedNonces tx.From = some n ∧ tx.Nonce ≤ n) →
      (∀ tx ∈ s.validTxs, tv.ValidateTransaction tx = some (Except.ok ())) →
      s1.mempool.validator = tv ∧
      s1.validTxs.Pairwise (fun a b => a.From = b.From → a.Nonce < b.Nonce) ∧
      (∀ tx ∈ s1.validTxs, tv.ValidateTransaction tx = some (Except.ok ()))
  | [], s, s1, h, hv, hp, _, hok => by
    simp only [selectionLoop, Option.some.injEq] at h
    subst h
    exact ⟨hv, hp, hok⟩
  | tx :: rest, s, s1, h, hv, hp, hn, hok => by
    unfold selectionLoop at h
    by_cases hskip : (match mapGet s.processedNonces tx.From with
        | some lastNonce => decide (tx.Nonce ≤ lastNonce)
        | none => false) = true
    · rw [if_pos hskip] at h
      exact selectionLoop_invariant config candidateTxs tv rest s s1 h hv hp hn hok
    rw [if_neg hskip] at h
    by_cases hgas : config.MaxGasLimit > 0 ∧
        u64 (s.totalGas + tx.GasLimit) > (config.MaxGasLimit % 2 ^ 64).toNat
    · rw [if_pos hgas] at h
      cases hr : returnTransactionsToMempool s.mempool (candidateTxs.drop s.validTxs.length) with
      | none => rw [hr] at h; simp at h
      | some m =>
        rw [hr] at h
        simp only [Option.some.injEq] at h
        subst h
        refine ⟨?_, hp, hok⟩
        simp only
        rw [returnTransactionsToMempool_validator _ _ _ hr]
        exact hv
    rw [if_neg hgas] at h
    cases hval : s.mempool.validator.ValidateTransaction tx with
    | none => rw [hval] at h; simp at h
    | some res =>
      rw [hval] at h
      rcases res with e | u
      · exact selectionLoop_invariant config candidateTxs tv rest s s1 h hv hp hn hok
      · simp only at h
        refine selectionLoop_invariant config candidateTxs tv rest _ s1 h hv ?_ ?_ ?_
        · simp only
          rw [List.pairwise_append]
          refine ⟨hp, List.pairwise_singleton _ _, ?_⟩
          intro a ha b hb hfrom
          rw [List.mem_singleton] at hb
          subst hb
          obtain ⟨n, hget, hle⟩ := hn a ha
          rw [hfrom] at hget
          rw [hget] at hskip
          simp only [decide_eq_true_eq, not_le] at hskip
          omega
        · intro a ha
          simp only [List.mem_append, List.mem_singleton] at ha
          simp only
          rcases ha with ha | rfl
          · obtain ⟨n, hget, hle⟩ := hn a ha
            by_cases hfrom : a.From = tx.From
            · rw [hfrom, mapGet_mapSet_same]
              refine ⟨_, rfl, ?_⟩
              rw [hfrom] at hget
              rw [hget] at hskip
              simp only [decide_eq_true_eq, not_le] at hskip
              omega
            · rw [mapGet_mapSet_other _ _ _ _ hfrom]
              exact ⟨n, hget, hle⟩
          · rw [mapGet_mapSet_same]
            exact ⟨_, rfl, le_refl _⟩
        · intro a ha
          simp only [List.mem_append, List.mem_singleton] at ha
          rcases ha with ha | rfl
          · exact hok a ha
          · rw [← hv]; exact hval

theorem selectAndValidateTransactions_spec (config : BlockProducerConfig) (m m1 : Mempool)
    (sorted batch : List Transaction)
    (h : selectAndValidateTransactions config m sorted = some (m1, batch)) :
    batch = [] ∨ ∃ s, s.validTxs = batch ∧
      selectionLoop config (m.Pop config.MaxTxsPerBlock sorted).2
        (m.Pop config.MaxTxsPerBlock sorted).2
        { mempool := (m.Pop config.MaxTxsPerBlock sorted).1, validTxs := [], totalGas := 0,
          processedNonces := [] } = some s := by
  unfold selectAndValidateTransactions at h
  by_cases h0 : m.Size = 0
  · rw [if_pos h0] at h
    simp only [Option.some.injEq, Prod.mk.injEq] at h
    exact Or.inl h.2.symm
  rw [if_neg h0] at h
  simp only at h
  by_cases h1 : (m.Pop config.MaxTxsPerBlock sorted).2.length = 0
  · rw [if_pos h1] at h
    simp only [Option.some.injEq, Prod.mk.injEq] at h
    exact Or.inl h.2.symm
  rw [if_neg h1] at h
  cases hl : selectionLoop config (m.Pop config.MaxTxsPerBlock sorted).2
      (m.Pop config.MaxTxsPerBlock sorted).2
      { mempool := (m.Pop config.MaxTxsPerBlock sorted).1, validTxs := [], totalGas := 0,
        processedNonces := [] } with
  | none => rw [hl] at h; simp at h
  | some s =>
    rw [hl] at h
    simp only at h
    by_cases hmin : s.validTxs.length > 0 ∧ (s.validTxs.length : Int) < config.MinTxsPerBlock
    · rw [if_pos hmin] at h
      cases hr : returnTransactionsToMempool s.mempool s.validTxs with
      | none => rw [hr] at h; simp at h
      | some m2 =>
        rw [hr] at h
        simp only [Option.some.injEq, Prod.mk.injEq] at h
        exact Or.inl h.2.symm
    · rw [if_neg hmin] at h
      simp only [Option.some.injEq, Prod.mk.injEq] at h
      exact Or.inr ⟨s, h.2, rfl⟩

theorem Pop_validator (m : Mempool) (max : Int) (sorted : List Transaction) :
    (m.Pop max sorted).1.validator = m.validator := by
  obtain ⟨txs, h, _⟩ := Pop_fst m max sorted
  rw [h]

/-- C23: in every batch returned by `selectAndValidateTransactions` the transactions of
any one sender appear with strictly increasing `Nonce`, and the sender of every included
transaction has an account state in the validator of the mempool whose nonce is at most
the `Nonce` of the transaction. -/
theorem selectAndValidateTransactions_nonces (config : BlockProducerConfig) (m m1 : Mempool)
    (sorted batch : List Transaction)
    (h : selectAndValidateTransactions config m sorted = some (m1, batch)) :
    batch.Pairwise (fun a b => a.From = b.From → a.Nonce < b.Nonce) ∧
    ∀ tx ∈ batch, ∃ account,
      mapGet m.validator.accountStates tx.From = some account ∧ account.Nonce ≤ tx.Nonce := by
  rcases selectAndValidateTransactions_spec config m m1 sorted batch h with hnil | ⟨s, hs, hl⟩
  · subst hnil
    exact ⟨List.Pairwise.nil, fun tx htx => absurd htx (List.not_mem_nil _)⟩
  · obtain ⟨_, hp, hok⟩ := selectionLoop_invariant config _ m.validator _ _ s hl
      (Pop_validator m _ sorted) List.Pairwise.nil
      (fun tx htx => absurd htx (List.not_mem_nil _))
      (fun tx htx => absurd htx (List.not_mem_nil _))
    rw [hs] at hp hok
    refine ⟨hp, fun tx htx => ?_⟩
    obtain ⟨_, _, h3⟩ := ValidateTransaction_ok _ _ (hok tx htx)
    obtain ⟨account, hget, hle, _⟩ := (validateAccountState_ok _ _).1 h3
    exact ⟨account, hget, hle⟩

/-- Witness of C23: on the example pool the selection visits the nonces 8, 10 and 9 of
`alice` in this order (descending gas price), skips the last one and returns the
transactions with the nonces 8 and 10; the account nonce is 7. -/
theorem selectAndValidateTransactions_nonces_witness :
    selectAndValidateTransactions exampleProducerConfig examplePool examplePoolSorted =
      some ({ examplePool with txs := [] }, [exampleTx2, exampleTx3]) ∧
    [exampleTx2, exampleTx3].Pairwise (fun a b => a.From = b.From → a.Nonce < b.Nonce) ∧
    ∀ tx ∈ [exampleTx2, exampleTx3], ∃ account,
      mapGet examplePool.validator.accountStates tx.From = some account ∧
        account.Nonce ≤ tx.Nonce :=
  ⟨by decide,
    selectAndValidateTransactions_nonces exampleProducerConfig examplePool
      { examplePool with txs := [] } examplePoolSorted [exampleTx2, exampleTx3] (by decide)⟩

theorem gasSum_append (xs : List Transaction) (tx : Transaction) :
    ((xs ++ [tx]).map (fun t => t.GasLimit)).sum = (xs.map (fun t => t.GasLimit)).sum + tx.GasLimit := by
  simp

/-- The gas invariant of the selection loop: when the validator of the mempool admits gas
limits up to `limit` and `limit + MaxGasLimit` stays below `2^64`, `totalGas` is the sum
of the gas limits selected so far, computed without wrap-around, and is at most
`MaxGasLimit`. -/
theorem selectionLoop_gas (config : BlockProducerConfig) (candidateTxs : List Transaction)
    (limit : Nat) (hpos : 0 < config.MaxGasLimit) (hint : config.MaxGasLimit < 2 ^ 63)
    (hlimit : limit ≤ 2 ^ 63) :
    ∀ (rest : List Transaction) (s s1 : Selection),
      selectionLoop config candidateTxs rest s = some s1 →
      s.mempool.validator.maxGasLimit = limit →
      s.totalGas = (s.validTxs.map (fun t => t.GasLimit)).sum →
      (s.totalGas : Int) ≤ config.MaxGasLimit →
      s1.totalGas = (s1.validTxs.map (fun t => t.GasLimit)).sum ∧
      (s1.totalGas : Int) ≤ config.MaxGasLimit
  | [], s, s1, h, _, hsum, hle => by
    simp only [selectionLoop, Option.some.injEq] at h
    subst h
    exact ⟨hsum, hle⟩
  | tx :: rest, s, s1, h, hv, hsum, hle => by
    unfold selectionLoop at h
    by_cases hskip : (match mapGet s.processedNonces tx.From with
        | some lastNonce => decide (tx.Nonce ≤ lastNonce)
        | none => false) = true
    · rw [if_pos hskip] at h
      exact selectionLoop_gas config candidateTxs limit hpos hint hlimit rest s s1 h hv hsum hle
    rw [if_neg hskip] at h
    by_cases hgas : config.MaxGasLimit > 0 ∧
        u64 (s.totalGas + tx.GasLimit) > (config.MaxGasLimit % 2 ^ 64).toNat
    · rw [if_pos hgas] at h
      cases hr : returnTransactionsToMempool s.mempool (candidateTxs.drop s.validTxs.length) with
      | none => rw [hr] at h; simp at h
      | some m =>
        rw [hr] at h
        simp only [Option.some.injEq] at h
        subst h
        exact ⟨hsum, hle⟩
    rw [if_neg hgas] at h
    cases hval : s.mempool.validator.ValidateTransaction tx with
    | none => rw [hval] at h; simp at h
    | some res =>
      rw [hval] at h
      rcases res with e | u
      · exact selectionLoop_gas config candidateTxs limit hpos hint hlimit rest s s1 h hv hsum hle
      · simp only at h
        obtain ⟨_, hg, _⟩ := ValidateTransaction_ok _ _ hval
        obtain ⟨_, hgl⟩ := validateGas_ok_bounds _ _ hg
        rw [hv] at hgl
        have hnowrap : u64 (s.totalGas + tx.GasLimit) = s.totalGas + tx.GasLimit := by
          unfold u64
          apply Nat.mod_eq_of_lt
          omega
        have hfit : ((s.totalGas + tx.GasLimit : Nat) : Int) ≤ config.MaxGasLimit := by
          have hng : ¬ u64 (s.totalGas + tx.GasLimit) > (config.MaxGasLimit % 2 ^ 64).toNat :=
            fun hc => hgas ⟨hpos, hc⟩
          rw [hnowrap] at hng
          have hm : config.MaxGasLimit % 2 ^ 64 = config.MaxGasLimit :=
            Int.emod_eq_of_lt (by omega) (by omega)
          rw [hm] at hng
          omega
        refine selectionLoop_gas config candidateTxs limit hpos hint hlimit rest _ s1 h hv ?_ ?_
        · simp only
          rw [hnowrap, gasSum_append, hsum]
        · simp only
          rw [hnowrap]
          exact hfit

/-- C25: for a producer configured with `MaxGasLimit > 0` (an `int`, so below `2^63`) over
a mempool whose validator has the `maxGasLimit` that `NewMempool` configures (no method
changes it), the sum of `GasLimit` over the batch returned by
`selectAndValidateTransactions` never exceeds `MaxGasLimit`. -/
theorem selectAndValidateTransactions_gas (config : BlockProducerConfig) (m m1 : Mempool)
    (sorted batch : List Transaction)
    (hcreated : m.validator.maxGasLimit = (NewMempool m.maxSize).validator.maxGasLimit)
    (hpos : 0 < config.MaxGasLimit) (hint : config.MaxGasLimit < 2 ^ 63)
    (h : selectAndValidateTransactions config m sorted = some (m1, batch)) :
    (((batch.map (fun tx => tx.GasLimit)).sum : Nat) : Int) ≤ config.MaxGasLimit := by
  rcases selectAndValidateTransactions_spec config m m1 sorted batch h with hnil | ⟨s, hs, hl⟩
  · subst hnil
    simp only [List.map_nil, List.sum_nil, Nat.cast_zero]
    omega
  · have hlim : (m.Pop config.MaxTxsPerBlock sorted).1.validator.maxGasLimit = 1000000 := by
      rw [Pop_validator, hcreated]
      rfl
    obtain ⟨hsum, hle⟩ := selectionLoop_gas config _ 1000000 hpos hint (by norm_num) _ _ s hl
      hlim rfl (by simp only [Nat.cast_zero]; omega)
    rw [← hs, ← hsum]
    exact hle

theorem call_maxGasLimit (m m1 : Mempool) (c : MempoolCall) (h : m.call c = some m1) :
    m1.validator.maxGasLimit = m.validator.maxGasLimit := by
  cases c with
  | Add tx =>
    simp only [Mempool.call, Option.map_eq_some'] at h
    obtain ⟨⟨m2, e⟩, ha, rfl⟩ := h
    rw [(Add_validator m m2 tx e ha).1]
  | AddWithAccountState tx fromBalance fromNonce =>
    simp only [Mempool.call, Option.map_eq_some', Mempool.AddWithAccountState] at h
    obtain ⟨⟨m2, e⟩, ha, rfl⟩ := h
    rw [(Add_validator _ m2 tx e ha).1]
    rfl
  | Pop max sorted =>
    simp only [Mempool.call, Option.some.injEq] at h
    rw [← h, Pop_validator]
  | PopByNonce fromAddress max sorted =>
    simp only [Mempool.call, Option.map_eq_some'] at h
    obtain ⟨⟨m2, r⟩, ha, rfl⟩ := h
    obtain ⟨txs, hm, _⟩ := PopByNonce_fst m m2 fromAddress max sorted r ha
    rw [hm]
  | RemoveTransactions txHashes =>
    simp only [Mempool.call, Option.some.injEq] at h
    rw [← h]
    rfl

/-- Every pool reached from `NewMempool` by calls of its methods has the validator limits
that `NewMempool` configures. -/
theorem calls_maxGasLimit : ∀ (cs : List MempoolCall) (m m1 : Mempool),
    m.calls cs = some m1 → m1.validator.maxGasLimit = m.validator.maxGasLimit
  | [], m, m1, h => by
    simp only [Mempool.calls, Option.some.injEq] at h
    rw [h]
  | c :: rest, m, m1, h => by
    unfold Mempool.calls at h
    cases hc : m.call c with
    | none => rw [hc] at h; simp at h
    | some m2 =>
      rw [hc] at h
      rw [calls_maxGasLimit rest m2 m1 h, call_maxGasLimit m m2 c hc]

/-- Witness of C25: the pool of four transactions is reached from `NewMempool(100)`; with
the budget 50000 the batch holds two transactions of 21000 gas each. -/
theorem selectAndValidateTransactions_gas_witness :
    (NewMempool 100).calls exampleGasCalls = some exampleGasPool ∧
    selectAndValidateTransactions exampleGasConfig exampleGasPool exampleGasTxs =
      some ({ exampleGasPool with
              txs := [("t6", exampleGasTxs.getD 2 default), ("t7", exampleGasTxs.getD 3 default)] },
        [exampleGasTxs.getD 0 default, exampleGasTxs.getD 2 default]) ∧
    ((([exampleGasTxs.getD 0 default, exampleGasTxs.getD 2 default].map
      (fun tx => tx.GasLimit)).sum : Nat) : Int) ≤ exampleGasConfig.MaxGasLimit :=
  ⟨by decide, by decide,
    selectAndValidateTransactions_gas exampleGasConfig exampleGasPool
      { exampleGasPool with
        txs := [("t6", exampleGasTxs.getD 2 default), ("t7", exampleGasTxs.getD 3 default)] }
      exampleGasTxs [exampleGasTxs.getD 0 default, exampleGasTxs.getD 2 default]
      (by decide) (by decide) (by decide) (by decide)⟩

/-- C26 (defect): the `break` branch hands `candidateTxs[len(validTxs):]` back to the
mempool, which is the unused suffix only when no candidate was skipped. On the pool of
four transactions, visited in the order of the nonces 5, 3, 6, 7 (descending gas price)
with the budget 50000, the nonce 3 is skipped and the selection stops at the nonce 7;
the slice handed back starts at index 2, so the transaction with the nonce 6 is both in
the returned batch and back in the mempool. -/
theorem selection_hands_back_selected_transaction :
    (NewMempool 100).calls exampleGasCalls = some exampleGasPool ∧
    exampleGasTxs.Perm exampleGasPool.pending ∧
    exampleGasTxs.Pairwise (fun a b => gasPriceLess b a = false) ∧
    (∃ m1 batch,
      selectAndValidateTransactions exampleGasConfig exampleGasPool exampleGasTxs =
        some (m1, batch) ∧
      batch.map (fun tx => tx.Nonce) = [5, 6] ∧
      exampleGasTxs.drop batch.length = exampleGasTxs.drop 2 ∧
      (exampleGasTxs.drop 2).map (fun tx => tx.Nonce) = [6, 7] ∧
      m1.pending.map (fun tx => tx.Nonce) = [6, 7] ∧
      ∃ tx, tx.Nonce = 6 ∧ tx ∈ batch ∧ tx ∈ m1.pending) := by
  refine ⟨by decide, by decide, by decide,
    { exampleGasPool with
      txs := [("t6", exampleGasTxs.getD 2 default), ("t7", exampleGasTxs.getD 3 default)] },
    [exampleGasTxs.getD 0 default, exampleGasTxs.getD 2 default], by decide, by decide,
    by decide, by decide, by decide, exampleGasTxs.getD 2 default, by decide, by decide,
    by decide⟩

theorem perm_pair {α : Type} (l : List α) (a b : α) (h : l.Perm [a, b]) :
    l = [a, b] ∨ l = [b, a] := by
  have hlen := h.length_eq
  match l, hlen with
  | [x, y], _ =>
    have hx : x ∈ [a, b] := h.subset (List.mem_cons_self _ _)
    simp only [List.mem_cons, List.mem_singleton, List.not_mem_nil, or_false] at hx
    rcases hx with rfl | rfl
    · have := List.Perm.cons_inv h
      rw [List.perm_singleton] at this
      left; rw [List.singleton_inj.1 this]
    · have h2 : [x, y].Perm [x, a] := h.trans (List.Perm.swap _ _ _)
      have := List.Perm.cons_inv h2
      rw [List.perm_singleton] at this
      right; rw [List.singleton_inj.1 this]

theorem gas_fits (config : BlockProducerConfig) (total gasLimit : Nat)
    (hint : config.MaxGasLimit < 2 ^ 63)
    (hgas : config.MaxGasLimit ≤ 0 ∨ ((total + gasLimit : Nat) : Int) ≤ config.MaxGasLimit) :
    ¬ (config.MaxGasLimit > 0 ∧
      u64 (total + gasLimit) > (config.MaxGasLimit % 2 ^ 64).toNat) := by
  rintro ⟨hpos, hgt⟩
  rcases hgas with hle | hle
  · omega
  · have hm : config.MaxGasLimit % 2 ^ 64 = config.MaxGasLimit :=
      Int.emod_eq_of_lt (by omega) (by omega)
    rw [hm] at hgt
    have hu : u64 (total + gasLimit) = total + gasLimit := by
      unfold u64
      apply Nat.mod_eq_of_lt
      omega
    rw [hu] at hgt
    omega

/-- The selection loop on two candidates of one sender in ascending nonce order: both are
selected. -/
theorem selectionLoop_pair_both (config : BlockProducerConfig) (c : List Transaction)
    (m0 : Mempool) (ta tb : Transaction)
    (hva : m0.validator.ValidateTransaction ta = some (Except.ok ()))
    (hvb : m0.validator.ValidateTransaction tb = some (Except.ok ()))
    (hfrom : ta.From = tb.From) (hn : ta.Nonce < tb.Nonce)
    (hint : config.MaxGasLimit < 2 ^ 63) (hsmall : ta.GasLimit + tb.GasLimit < 2 ^ 64)
    (hgas : config.MaxGasLimit ≤ 0 ∨
      ((ta.GasLimit + tb.GasLimit : Nat) : Int) ≤ config.MaxGasLimit) :
    ∃ s, selectionLoop config c [ta, tb]
        { mempool := m0, validTxs := [], totalGas := 0, processedNonces := [] } = some s ∧
      s.validTxs = [ta, tb] ∧ s.mempool = m0 := by
  have hga : ¬ (config.MaxGasLimit > 0 ∧
      u64 (0 + ta.GasLimit) > (config.MaxGasLimit % 2 ^ 64).toNat) :=
    gas_fits config 0 ta.GasLimit hint (by
      rcases hgas with h | h
      · exact Or.inl h
      · right; push_cast at h ⊢; omega)
  have hua : u64 (0 + ta.GasLimit) = ta.GasLimit := by
    unfold u64
    rw [Nat.zero_add]
    exact Nat.mod_eq_of_lt (by omega)
  have hgb : ¬ (config.MaxGasLimit > 0 ∧
      u64 (ta.GasLimit + tb.GasLimit) > (config.MaxGasLimit % 2 ^ 64).toNat) :=
    gas_fits config ta.GasLimit tb.GasLimit hint hgas
  have hskip : ¬ (match mapGet (mapSet ([] : List (String × Nat)) ta.From ta.Nonce) tb.From with
      | some lastNonce => decide (tb.Nonce ≤ lastNonce)
      | none => false) = true := by
    rw [← hfrom, mapGet_mapSet_same]
    simp only [decide_eq_true_eq, not_le]
    exact hn
  refine ⟨{ mempool := m0
            validTxs := [ta, tb]
            totalGas := u64 (ta.GasLimit + tb.GasLimit)
            processedNonces := mapSet (mapSet [] ta.From ta.Nonce) tb.From tb.Nonce },
    ?_, rfl, rfl⟩
  · unfold selectionLoop
    simp only [mapGet]
    rw [if_neg (by simp), if_neg hga, hva]
    simp only
    unfold selectionLoop
    simp only
    rw [if_neg hskip, hua, if_neg hgb, hvb]
    simp only
    unfold selectionLoop
    rfl

/-- The selection loop on two candidates of one sender of which the second has no higher
nonce than the first: the second is skipped. -/
theorem selectionLoop_pair_skip (config : BlockProducerConfig) (c : List Transaction)
    (m0 : Mempool) (ta tb : Transaction)
    (hva : m0.validator.ValidateTransaction ta = some (Except.ok ()))
    (hfrom : ta.From = tb.From) (hn : tb.Nonce ≤ ta.Nonce)
    (hint : config.MaxGasLimit < 2 ^ 63)
    (hgas : config.MaxGasLimit ≤ 0 ∨ ((ta.GasLimit : Nat) : Int) ≤ config.MaxGasLimit) :
    ∃ s, selectionLoop config c [ta, tb]
        { mempool := m0, validTxs := [], totalGas := 0, processedNonces := [] } = some s ∧
      s.validTxs = [ta] ∧ s.mempool = m0 := by
  have hga : ¬ (config.MaxGasLimit > 0 ∧
      u64 (0 + ta.GasLimit) > (config.MaxGasLimit % 2 ^ 64).toNat) :=
    gas_fits config 0 ta.GasLimit hint (by
      rcases hgas with h | h
      · exact Or.inl h
      · right; push_cast at h ⊢; omega)
  have hskip : (match mapGet (mapSet ([] : List (String × Nat)) ta.From ta.Nonce) tb.From with
      | some lastNonce => decide (tb.Nonce ≤ lastNonce)
      | none => false) = true := by
    rw [← hfrom, mapGet_mapSet_same]
    simp only [decide_eq_true_eq]
    exact hn
  refine ⟨{ mempool := m0
            validTxs := [ta]
            totalGas := u64 (0 + ta.GasLimit)
            processedNonces := mapSet [] ta.From ta.Nonce }, ?_, rfl, rfl⟩
  · unfold selectionLoop
    simp only [mapGet]
    rw [if_neg (by simp), if_neg hga, hva]
    simp only
    unfold selectionLoop
    simp only
    rw [if_pos hskip]
    unfold selectionLoop
    rfl

theorem Pop_pair (m : Mempool) (max : Int) (t1 t2 : Transaction) (sorted : List Transaction)
    (htxs : m.txs = [(t1.Hash, t1), (t2.Hash, t2)] ∨ m.txs = [(t2.Hash, t2), (t1.Hash, t1)])
    (hsorted : sorted = [t1, t2] ∨ sorted = [t2, t1]) (hmax : 2 ≤ max) :
    m.Pop max sorted = ({ m with txs := [] }, sorted) := by
  have hlen : m.txs.length = 2 := by
    rcases htxs with h | h <;> rw [h] <;> rfl
  unfold Mempool.Pop
  rw [if_neg (by rw [hlen]; omega)]
  have hcount : (if (m.txs.length : Int) < max then (m.txs.length : Int) else max).toNat = 2 := by
    rw [hlen]
    split_ifs with h
    · rfl
    · have : max = 2 := by push_cast at h; omega
      rw [this]; rfl
  simp only [hcount]
  have htake : sorted.take 2 = sorted := by
    rcases hsorted with h | h <;> rw [h] <;> rfl
  rw [htake]
  have hdel : deleteAll m.txs sorted = [] := by
    rw [deleteAll_eq_filter]
    rcases htxs with h | h <;> rcases hsorted with h' | h' <;> rw [h, h'] <;> simp
  rw [hdel]

/-- C24 as amended: if the mempool holds two valid transactions of one sender with the
nonces 1 and 2 (and `MaxTxsPerBlock`, `MinTxsPerBlock` and the gas budget allow two
transactions), the selected batch contains both, nonce 1 before nonce 2, when the nonce-1
transaction has the higher gas price; when the nonce-2 transaction has the higher gas
price (and `MinTxsPerBlock` is at most 1) the selected batch is the nonce-2 transaction
alone. The statement is about the batch; it says nothing on where a transaction that is
not selected ends up. -/
theorem selection_of_nonce_pair (config : BlockProducerConfig) (m : Mempool)
    (sorted : List Transaction) (t1 t2 : Transaction) (p1 p2 : Int)
    (htxs : m.txs = [(t1.Hash, t1), (t2.Hash, t2)] ∨ m.txs = [(t2.Hash, t2), (t1.Hash, t1)])
    (hfrom : t1.From = t2.From) (hn1 : t1.Nonce = 1) (hn2 : t2.Nonce = 2)
    (hp1 : t1.GasPrice = some p1) (hp2 : t2.GasPrice = some p2)
    (hv1 : m.validator.ValidateTransaction t1 = some (Except.ok ()))
    (hv2 : m.validator.ValidateTransaction t2 = some (Except.ok ()))
    (hlimit : m.validator.maxGasLimit < 2 ^ 63)
    (hmax : 2 ≤ config.MaxTxsPerBlock) (hmin : config.MinTxsPerBlock ≤ 2)
    (hint : config.MaxGasLimit < 2 ^ 63)
    (hgas : config.MaxGasLimit ≤ 0 ∨
      ((t1.GasLimit + t2.GasLimit : Nat) : Int) ≤ config.MaxGasLimit)
    (hsort : SortSliceResult gasPriceLess m.pending sorted) :
    (p2 < p1 →
      (selectAndValidateTransactions config m sorted).map Prod.snd = some [t1, t2]) ∧
    (p1 < p2 → config.MinTxsPerBlock ≤ 1 →
      (selectAndValidateTransactions config m sorted).map Prod.snd = some [t2]) := by
  obtain ⟨hperm, hord⟩ := hsort
  have hpend : m.pending.Perm [t1, t2] := by
    unfold Mempool.pending
    rcases htxs with h | h <;> rw [h]
    · exact List.Perm.refl _
    · exact List.Perm.swap _ _ _
  have hsorted := perm_pair sorted t1 t2 (hperm.trans hpend)
  have hsize : ¬ m.Size = 0 := by
    unfold Mempool.Size
    rcases htxs with h | h <;> rw [h] <;> simp
  have hpop := Pop_pair m config.MaxTxsPerBlock t1 t2 sorted htxs hsorted hmax
  obtain ⟨_, hg1, _⟩ := ValidateTransaction_ok _ _ hv1
  obtain ⟨_, hg2, _⟩ := ValidateTransaction_ok _ _ hv2
  obtain ⟨_, hl1⟩ := validateGas_ok_bounds _ _ hg1
  obtain ⟨_, hl2⟩ := validateGas_ok_bounds _ _ hg2
  constructor
  · intro hlt
    have hs : sorted = [t1, t2] := by
      rcases hsorted with h | h
      · exact h
      · rw [h] at hord
        have := List.rel_of_pairwise_cons hord (List.mem_singleton_self t1)
        simp [gasPriceLess, hp1, hp2] at this
        omega
    obtain ⟨s, hloop, hvalid, hmem⟩ := selectionLoop_pair_both config [t1, t2]
      { m with txs := [] } t1 t2 hv1 hv2 hfrom (by omega) hint (by omega) hgas
    subst hs
    unfold selectAndValidateTransactions
    rw [if_neg hsize]
    simp only [hpop]
    rw [if_neg (by simp), hloop]
    simp only [hvalid, hmem]
    rw [if_neg (by simp; omega)]
    rfl
  · intro hlt hmin1
    have hs : sorted = [t2, t1] := by
      rcases hsorted with h | h
      · rw [h] at hord
        have := List.rel_of_pairwise_cons hord (List.mem_singleton_self t2)
        simp [gasPriceLess, hp1, hp2] at this
        omega
      · exact h
    obtain ⟨s, hloop, hvalid, hmem⟩ := selectionLoop_pair_skip config [t2, t1]
      { m with txs := [] } t2 t1 hv2 hfrom.symm (by omega) hint (by
        rcases hgas with h | h
        · exact Or.inl h
        · right; push_cast at h ⊢; omega)
    subst hs
    unfold selectAndValidateTransactions
    rw [if_neg hsize]
    simp only [hpop]
    rw [if_neg (by simp), hloop]
    simp only [hvalid, hmem]
    rw [if_neg (by simp; omega)]
    rfl

/-- Counterexample to C24: the pool created by `NewMempool(100)` holds two valid
transactions of `alice` with the nonces 2 (gas price 2 gwei) and 1 (gas price 1 gwei);
the configuration allows ten transactions and 50000 gas. The selected batch is the
nonce-2 transaction alone: it does not contain both transactions. -/
theorem selection_drops_lower_nonce :
    (NewMempool 100).calls
      [MempoolCall.AddWithAccountState exampleNonce2 1000000000000000000 0,
        MempoolCall.Add exampleNonce1] = some exampleNoncePool ∧
    exampleNoncePool.validator.ValidateTransaction exampleNonce1 = some (Except.ok ()) ∧
    exampleNoncePool.validator.ValidateTransaction exampleNonce2 = some (Except.ok ()) ∧
    exampleNonce1.From = exampleNonce2.From ∧
    exampleNonce1.Nonce = 1 ∧ exampleNonce2.Nonce = 2 ∧
    [exampleNonce2, exampleNonce1].Perm exampleNoncePool.pending ∧
    [exampleNonce2, exampleNonce1].Pairwise (fun a b => gasPriceLess b a = false) ∧
    ¬ [exampleNonce1, exampleNonce2].Pairwise (fun a b => gasPriceLess b a = false) ∧
    (selectAndValidateTransactions exampleGasConfig exampleNoncePool
        [exampleNonce2, exampleNonce1]).map Prod.snd = some [exampleNonce2] ∧
    exampleNonce1 ∉ [exampleNonce2] := by
  decide

/-- Witness of C24 as amended, on the pool of the counterexample: the nonce-2 transaction
has the higher gas price and is the only one selected. -/
theorem selection_of_nonce_pair_witness :
    (selectAndValidateTransactions exampleGasConfig exampleNoncePool
        [exampleNonce2, exampleNonce1]).map Prod.snd = some [exampleNonce2] :=
  (selection_of_nonce_pair exampleGasConfig exampleNoncePool [exampleNonce2, exampleNonce1]
    exampleNonce1 exampleNonce2 1000000000 2000000000 (Or.inr (by decide)) (by decide) (by decide)
    (by decide) (by decide) (by decide) (by decide) (by decide) (by decide) (by decide)
    (by decide) (by decide) (by decide) ⟨by decide, by decide⟩).2 (by decide) (by decide)

/-! ## C27, C28: block assembly and submission -/

theorem stringBytes_ne_nil (s : String) (h : s.data ≠ []) : ¬ (stringBytes s).length = 0 := by
  obtain ⟨c, rest, hc⟩ := List.exists_cons_of_ne_nil h
  unfold stringBytes
  rw [hc]
  simp only [List.flatMap_cons, List.length_append, List.length_map,
    String.length_utf8EncodeChar]
  have := Char.utf8Size_pos c
  omega

theorem prepareEnhancedBlockData_ne_nil (gd : GhostDAG) (transactions : List Transaction)
    (parents : List String) (totalGas : Nat) (dataTime : Int) :
    ¬ (prepareEnhancedBlockData gd transactions parents totalGas dataTime).length = 0 := by
  unfold prepareEnhancedBlockData
  apply stringBytes_ne_nil
  simp only [String.data_append]
  intro h
  have := congrArg List.length h
  simp at this

/-- The block that `createEnhancedBlock` builds: the call does not panic, and the fields
are as follows. -/
theorem createEnhancedBlock_fields (gd : GhostDAG) (tips : List Block) (random : List Nat)
    (dataTime now : Int) (transactions : List Transaction) (validator : Validator)
    (totalGas : Nat) :
    ∃ block, createEnhancedBlock gd tips random dataTime now transactions validator totalGas =
        some block ∧
      block.Hash = generateBlockHash random ∧
      block.Parents = (if tips.length = 0 then ["genesis"] else tips.map (fun tip => tip.Hash)) ∧
      block.Height = ((gd.GetBlockCount + 1 : Nat) : Int) ∧
      block.BlueScore = 1 ∧ block.SelectedParent = "" ∧ block.Timestamp = now ∧
      block.Transactions = transactions ∧ block.ProducerID = validator.ID ∧
      block.ProducerPubKeyHash = validator.PQPubKeyHash := by
  unfold createEnhancedBlock
  simp only [List.length_map]
  generalize hd : prepareEnhancedBlockData gd transactions
    (if tips.length = 0 then ["genesis"] else tips.map (fun tip => tip.Hash)) totalGas dataTime = d
  have hne : ¬ d.length = 0 := by
    rw [← hd]
    exact prepareEnhancedBlockData_ne_nil _ _ _ _ _
  unfold SignBlock
  rw [if_neg hne]
  exact ⟨_, rfl, rfl, rfl, rfl, rfl, rfl, rfl, rfl, rfl, rfl⟩

/-- C27 (defect): `createEnhancedBlock` never reads the height of a parent: it sets
`Height` to the number of blocks stored in the graph plus one. On the graph that holds
the genesis block (height 0) only, the block built over the tip `genesis` has the height
2, not 1. On the graph that holds only the block `B` of height 5, the block built over
the tip `B` has the height 2, below its parent, and the height check of the validator
(`validateNoCycles`) answers it with the cycle-detected error. -/
theorem createEnhancedBlock_height_ignores_parents :
    (∀ (gd : GhostDAG) (tips : List Block) (random : List Nat) (dataTime now : Int)
        (transactions : List Transaction) (validator : Validator) (totalGas : Nat),
      ∃ block, createEnhancedBlock gd tips random dataTime now transactions validator
          totalGas = some block ∧
        block.Height = (gd.GetBlockCount : Int) + 1) ∧
    exampleTestGraph.unsortedTips exampleTestGraph.stored = [exampleTestGenesis] ∧
    exampleTestGraph.GetTipsResult exampleTestGraph.stored [exampleTestGenesis] ∧
    exampleTestGraph.GetBlock "genesis" = some exampleTestGenesis ∧
    exampleTestGenesis.Height = 0 ∧
    (createEnhancedBlock exampleTestGraph [exampleTestGenesis] (List.replicate 32 0) 1000 1000 []
      exampleLeader 0).map
        (fun block => (block.Parents, block.Height)) = some (["genesis"], 2) ∧
    exampleParentGraph.unsortedTips exampleParentGraph.stored = [exampleParent] ∧
    exampleParentGraph.GetTipsResult exampleParentGraph.stored [exampleParent] ∧
    exampleParentGraph.GetBlock "B" = some exampleParent ∧
    exampleParent.Height = 5 ∧
    (∃ block, createEnhancedBlock exampleParentGraph [exampleParent] (List.replicate 32 0) 1000
        1000 [] exampleLeader 0 = some block ∧
      block.Parents = ["B"] ∧ block.Height = 2 ∧
      validateNoCycles block exampleParentGraph =
        Except.error (ValidationError.cycleDetected 2 5)) := by
  refine ⟨?_, by decide, ⟨by decide, by decide⟩, by decide, by decide, ?_,
    by decide, ⟨by decide, by decide⟩, by decide, by decide, ?_⟩
  · intro gd tips random dataTime now transactions validator totalGas
    obtain ⟨block, hb, _, _, hh, _⟩ := createEnhancedBlock_fields gd tips random dataTime now
      transactions validator totalGas
    exact ⟨block, hb, by rw [hh]; push_cast; rfl⟩
  · obtain ⟨block, hb, _, hp, hh, _⟩ := createEnhancedBlock_fields exampleTestGraph
      [exampleTestGenesis] (List.replicate 32 0) 1000 1000 [] exampleLeader 0
    rw [hb]
    simp only [Option.map_some', Option.some.injEq, Prod.mk.injEq]
    exact ⟨hp, hh⟩
  · obtain ⟨block, hb, _, hp, hh, _⟩ := createEnhancedBlock_fields exampleParentGraph
      [exampleParent] (List.replicate 32 0) 1000 1000 [] exampleLeader 0
    have hp1 : block.Parents = ["B"] := hp
    have hh1 : block.Height = 2 := hh
    refine ⟨block, hb, hp1, hh1, ?_⟩
    have hle : block.Height ≤ exampleParent.Height := by
      rw [hh1]
      decide
    rw [validateNoCycles_single block exampleParentGraph "B" exampleParent hp1 (by decide) hle,
      hh1]
    rfl

theorem hexEncode_length (bytes : List Nat) : (hexEncode bytes).data.length = 2 * bytes.length := by
  unfold hexEncode
  simp only
  induction bytes with
  | nil => rfl
  | cons b rest ih =>
    simp only [List.flatMap_cons, List.length_append, List.length_cons, List.length_nil, ih]
    omega

theorem generateBlockHash_length (random : List Nat) (h : random.length = 32) :
    (generateBlockHash random).data.length = 22 := by
  unfold generateBlockHash
  rw [String.data_append, List.length_append, String.data_take, List.length_take,
    hexEncode_length, h]
  rfl

/-- A hash drawn by `generateBlockHash` is never the hash that `computeBlockHash`
recomputes: it has 22 characters, the recomputed hash is `genesis` or has at most 16. -/
theorem generateBlockHash_ne_computeBlockHash (keccakHex : String → String) (block : Block)
    (random : List Nat) (hrandom : random.length = 32)
    (hhash : block.Hash = generateBlockHash random) :
    block.Hash ≠ computeBlockHash keccakHex block := by
  have hlen : block.Hash.data.length = 22 := by
    rw [hhash]
    exact generateBlockHash_length random hrandom
  have hg : block.Hash ≠ "genesis" := by
    intro hc
    rw [hc] at hlen
    revert hlen
    decide
  rw [computeBlockHash_of_ne_genesis keccakHex block hg]
  intro hc
  have := congrArg (fun s : String => s.data.length) hc
  simp only [String.data_take, List.length_take] at this
  rw [hlen] at this
  omega

/-- C28 (defect): the producer hands the block built by `createEnhancedBlock` to
`AddBlock` without calling `ValidateBlock`. The hash of that block is drawn at random by
`generateBlockHash`, so `ValidateBlock` would reject the block as invalid hash, whatever
the graph, the engine and the clock are; `submitBlockForVoting` inserts it whenever its
hash is not stored yet. -/
theorem produced_block_fails_validation (keccakHex : String → String) (gd : GhostDAG)
    (tips : List Block) (random : List Nat) (dataTime now : Int)
    (transactions : List Transaction) (validator : Validator) (totalGas : Nat)
    (currentTime unixNano layerTime : Int) (posEngine : POSEngine)
    (hrandom : random.length = 32) :
    ∃ block, createEnhancedBlock gd tips random dataTime now transactions validator totalGas =
        some block ∧
      block.Hash ≠ computeBlockHash keccakHex block ∧
      ValidateBlock keccakHex currentTime unixNano block gd posEngine =
        some (Except.error (ValidationError.blockRejected
          (ValidationError.invalidHash (computeBlockHash keccakHex block) block.Hash))) ∧
      (gd.GetBlock block.Hash = none →
        (submitBlockForVoting gd posEngine layerTime block).2 = none ∧
        (submitBlockForVoting gd posEngine layerTime block).1.1.GetBlock block.Hash =
          some block) := by
  obtain ⟨block, hb, hhash, _⟩ := createEnhancedBlock_fields gd tips random dataTime now
    transactions validator totalGas
  have hne := generateBlockHash_ne_computeBlockHash keccakHex block random hrandom hhash
  have hv : validateHash keccakHex block =
      Except.error (ValidationError.invalidHash (computeBlockHash keccakHex block) block.Hash) := by
    unfold validateHash
    simp only
    rw [if_pos hne]
  refine ⟨block, hb, hne, ?_, ?_⟩
  · unfold ValidateBlock
    rw [hv]
  · intro hnew
    unfold submitBlockForVoting
    rw [AddBlock_of_absent gd block hnew]
    exact ⟨rfl, mapGet_mapSet_same _ _ _⟩

/-- Witness of C28: on the graph that holds `B`, with 32 random bytes equal to zero, the
produced block has the hash `block_0000000000000000`, is rejected by `ValidateBlock` and
is inserted by `submitBlockForVoting`. -/
theorem produced_block_fails_validation_witness :
    (List.replicate 32 0).length = 32 ∧
    generateBlockHash (List.replicate 32 0) = "block_0000000000000000" ∧
    ∃ block, createEnhancedBlock exampleParentGraph [exampleParent] (List.replicate 32 0) 1000
        1000 [] exampleLeader 0 =
        some block ∧
      block.Hash ≠ computeBlockHash exampleKeccakHex block ∧
      ValidateBlock exampleKeccakHex 1000 12345 block exampleParentGraph exampleEngine =
        some (Except.error (ValidationError.blockRejected
          (ValidationError.invalidHash (computeBlockHash exampleKeccakHex block) block.Hash))) ∧
      (exampleParentGraph.GetBlock block.Hash = none →
        (submitBlockForVoting exampleParentGraph exampleEngine 1000 block).2 = none ∧
        (submitBlockForVoting exampleParentGraph exampleEngine 1000 block).1.1.GetBlock
          block.Hash = some block) :=
  ⟨by decide, by decide,
    produced_block_fails_validation exampleKeccakHex exampleParentGraph [exampleParent]
      (List.replicate 32 0) 1000 1000 [] exampleLeader 0 1000 12345 1000 exampleEngine
      (by decide)⟩

/-! ## C29, C30: past and anticone -/

theorem pendingParents_cons_le (blocks : List (String × Block)) (past : List String)
    (c : String) : pendingParents blocks (c :: past) ≤ pendingParents blocks past := by
  unfold pendingParents
  induction blocks with
  | nil => simp
  | cons kv rest ih =>
    by_cases h1 : kv.1 ∈ past
    · have h2 : kv.1 ∈ c :: past := List.mem_cons_of_mem _ h1
      simp only [List.filter_cons, h1, h2, not_true_eq_false, decide_False, Bool.false_eq_true,
        if_false]
      exact ih
    · by_cases h2 : kv.1 ∈ c :: past
      · simp only [List.filter_cons, h1, h2, not_true_eq_false, not_false_eq_true, decide_False,
          decide_True, Bool.false_eq_true, if_false, if_true, List.map_cons, List.sum_cons]
        omega
      · simp only [List.filter_cons, h1, h2, not_false_eq_true, decide_True, if_true,
          List.map_cons, List.sum_cons]
        omega

theorem pendingParents_expand (blocks : List (String × Block)) (past : List String)
    (c : String) (block : Block) (hget : mapGet blocks c = some block) (hc : c ∉ past) :
    pendingParents blocks (c :: past) + block.Parents.length ≤ pendingParents blocks past := by
  induction blocks with
  | nil => simp [mapGet] at hget
  | cons kv rest ih =>
    obtain ⟨k, v⟩ := kv
    by_cases hk : k = c
    · subst hk
      simp only [mapGet, if_true, Option.some.injEq] at hget
      subst hget
      have hle := pendingParents_cons_le rest past k
      have hk2 : k ∈ k :: past := List.mem_cons_self _ _
      unfold pendingParents at hle ⊢
      simp only [List.filter_cons, hk2, not_true_eq_false, decide_False,
        Bool.false_eq_true, if_false, hc, not_false_eq_true, decide_True, if_true, List.map_cons,
        List.sum_cons]
      omega
    · simp only [mapGet, hk, if_false] at hget
      have ih' := ih hget
      unfold pendingParents at ih' ⊢
      by_cases h1 : k ∈ past
      · have h2 : k ∈ c :: past := List.mem_cons_of_mem _ h1
        simp only [List.filter_cons, h1, h2, not_true_eq_false, decide_False, Bool.false_eq_true,
          if_false]
        exact ih'
      · have h2 : k ∉ c :: past := by
          simp only [List.mem_cons, not_or]
          exact ⟨hk, h1⟩
        simp only [List.filter_cons, h1, h2, not_false_eq_true, decide_True, if_true,
          List.map_cons, List.sum_cons]
        omega

theorem getPastLoop_nil (gd : GhostDAG) (fuel : Nat) (past : List String) :
    getPastLoop gd fuel past [] = some past := by
  cases fuel <;> simp [getPastLoop]

/-- The loop of `getPast` ends within the fuel: every iteration takes one element from the
queue, and the elements still to come are bounded by `pendingParents`. -/
theorem getPastLoop_total (gd : GhostDAG) :
    ∀ (fuel : Nat) (past queue : List String),
      queue.length + pendingParents gd.blocks past ≤ fuel →
      ∃ result, getPastLoop gd fuel past queue = some result
  | fuel, past, [], _ => ⟨past, getPastLoop_nil gd fuel past⟩
  | 0, _, _ :: _, h => by simp at h
  | fuel + 1, past, current :: queue, h => by
    unfold getPastLoop
    simp only [List.length_cons] at h
    by_cases hin : current ∈ past
    · rw [if_pos hin]
      exact getPastLoop_total gd fuel past queue (by omega)
    · rw [if_neg hin]
      cases hget : mapGet gd.blocks current with
      | none =>
        have := pendingParents_cons_le gd.blocks past current
        exact getPastLoop_total gd fuel (current :: past) queue (by omega)
      | some block =>
        have := pendingParents_expand gd.blocks past current block hget hin
        have hf := List.length_filter_le (fun parent => decide (parent ∉ current :: past))
          block.Parents
        exact getPastLoop_total gd fuel (current :: past) _ (by
          rw [List.length_append]
          omega)

/-- The loop of `getPast` computes the past-cone of `h`, provided that the hashes seen so
far are in the past-cone, that `h` is among them, and that the parents of every hash in
`past` are in `past` or in the queue. -/
theorem getPastLoop_spec (gd : GhostDAG) (h : String) :
    ∀ (fuel : Nat) (past queue result : List String),
      getPastLoop gd fuel past queue = some result →
      (∀ x, x ∈ past ∨ x ∈ queue → gd.InPastCone h x) →
      (h ∈ past ∨ h ∈ queue) →
      (∀ x ∈ past, ∀ y, gd.ParentLink x y → y ∈ past ∨ y ∈ queue) →
      ∀ x, x ∈ result ↔ gd.InPastCone h x
  | fuel, past, [], result, hres, hreach, hroot, hclosed => by
    rw [getPastLoop_nil] at hres
    simp only [Option.some.injEq] at hres
    subst hres
    intro x
    constructor
    · exact fun hx => hreach x (Or.inl hx)
    · intro hx
      induction hx with
      | refl =>
        rcases hroot with hr | hr
        · exact hr
        · simp at hr
      | tail _ hlink ih =>
        rcases hclosed _ ih _ hlink with hy | hy
        · exact hy
        · simp at hy
  | 0, _, _ :: _, _, hres, _, _, _ => by
    unfold getPastLoop at hres
    simp at hres
  | fuel + 1, past, current :: queue, result, hres, hreach, hroot, hclosed => by
    unfold getPastLoop at hres
    by_cases hin : current ∈ past
    · rw [if_pos hin] at hres
      refine getPastLoop_spec gd h fuel past queue result hres ?_ ?_ ?_
      · rintro x (hx | hx)
        · exact hreach x (Or.inl hx)
        · exact hreach x (Or.inr (List.mem_cons_of_mem _ hx))
      · rcases hroot with hr | hr
        · exact Or.inl hr
        · rcases List.mem_cons.1 hr with hr | hr
          · exact Or.inl (hr ▸ hin)
          · exact Or.inr hr
      · intro x hx y hlink
        rcases hclosed x hx y hlink with hy | hy
        · exact Or.inl hy
        · rcases List.mem_cons.1 hy with hy | hy
          · exact Or.inl (hy ▸ hin)
          · exact Or.inr hy
    · rw [if_neg hin] at hres
      have hcur : gd.InPastCone h current := hreach current (Or.inr (List.mem_cons_self _ _))
      cases hget : mapGet gd.blocks current with
      | none =>
        rw [hget] at hres
        refine getPastLoop_spec gd h fuel (current :: past) queue result hres ?_ ?_ ?_
        · rintro x (hx | hx)
          · rcases List.mem_cons.1 hx with hx | hx
            · exact hx ▸ hcur
            · exact hreach x (Or.inl hx)
          · exact hreach x (Or.inr (List.mem_cons_of_mem _ hx))
        · rcases hroot with hr | hr
          · exact Or.inl (List.mem_cons_of_mem _ hr)
          · rcases List.mem_cons.1 hr with hr | hr
            · exact Or.inl (hr ▸ List.mem_cons_self _ _)
            · exact Or.inr hr
        · intro x hx y hlink
          rcases List.mem_cons.1 hx with hx | hx
          · subst hx
            obtain ⟨block, hb, _⟩ := hlink
            unfold GhostDAG.GetBlock at hb
            rw [hget] at hb
            cases hb
          · rcases hclosed x hx y hlink with hy | hy
            · exact Or.inl (List.mem_cons_of_mem _ hy)
            · rcases List.mem_cons.1 hy with hy | hy
              · exact Or.inl (hy ▸ List.mem_cons_self _ _)
              · exact Or.inr hy
      | some block =>
        rw [hget] at hres
        refine getPastLoop_spec gd h fuel (current :: past) _ result hres ?_ ?_ ?_
        · rintro x (hx | hx)
          · rcases List.mem_cons.1 hx with hx | hx
            · exact hx ▸ hcur
            · exact hreach x (Or.inl hx)
          · rcases List.mem_append.1 hx with hx | hx
            · exact hreach x (Or.inr (List.mem_cons_of_mem _ hx))
            · exact Relation.ReflTransGen.tail hcur ⟨block, hget, (List.mem_filter.1 hx).1⟩
        · rcases hroot with hr | hr
          · exact Or.inl (List.mem_cons_of_mem _ hr)
          · rcases List.mem_cons.1 hr with hr | hr
            · exact Or.inl (hr ▸ List.mem_cons_self _ _)
            · exact Or.inr (List.mem_append_left _ hr)
        · intro x hx y hlink
          rcases List.mem_cons.1 hx with hx | hx
          · subst hx
            obtain ⟨block1, hb, hy⟩ := hlink
            unfold GhostDAG.GetBlock at hb
            rw [hget] at hb
            cases hb
            by_cases hyp : y ∈ x :: past
            · exact Or.inl hyp
            · exact Or.inr (List.mem_append_right _
                (List.mem_filter.2 ⟨hy, by simpa using hyp⟩))
          · rcases hclosed x hx y hlink with hy | hy
            · exact Or.inl (List.mem_cons_of_mem _ hy)
            · rcases List.mem_cons.1 hy with hy | hy
              · exact Or.inl (hy ▸ List.mem_cons_self _ _)
              · exact Or.inr (List.mem_append_left _ hy)

/-- `getPast` returns, and the returned map marks exactly the past-cone of `h`. -/
theorem getPast_spec (gd : GhostDAG) (h : String) :
    ∃ past, gd.getPast h = some past ∧ ∀ x, x ∈ past ↔ gd.InPastCone h x := by
  obtain ⟨past, hp⟩ := getPastLoop_total gd
    (1 + (gd.blocks.map (fun kv => kv.2.Parents.length)).sum) [] [h] (by
      unfold pendingParents
      simp)
  refine ⟨past, hp, ?_⟩
  refine getPastLoop_spec gd h _ [] [h] past hp ?_ ?_ ?_
  · rintro x (hx | hx)
    · simp at hx
    · rw [List.mem_singleton] at hx
      subst hx
      exact Relation.ReflTransGen.refl
  · exact Or.inr (List.mem_singleton_self _)
  · intro x hx
    simp at hx

theorem GetAnticone_ok (gd : GhostDAG) (iter : List Block) (h : String) (b0 : Block)
    (hs : gd.GetBlock h = some b0) :
    ∃ result, gd.GetAnticone iter h = some (Except.ok result) ∧ result.Sublist iter ∧
      ∀ c, c ∈ result ↔ c ∈ iter ∧ c.Hash ≠ h ∧ ¬ gd.InPastCone h c.Hash := by
  obtain ⟨past, hp, hpast⟩ := getPast_spec gd h
  unfold GhostDAG.GetBlock at hs
  unfold GhostDAG.GetAnticone
  rw [hs]
  simp only
  rw [hp]
  refine ⟨_, rfl, List.filter_sublist _, ?_⟩
  intro c
  rw [List.mem_filter]
  simp only [GhostDAG.isInPast, decide_eq_false_iff_not, Bool.decide_and, Bool.and_eq_true,
    decide_eq_true_eq, ne_eq, decide_not, Bool.not_eq_true']
  rw [hpast]

theorem mapGet_map_hash : ∀ (bs : List Block) (k : String) (c : Block),
    (bs.map (fun b => b.Hash)).Nodup →
    (mapGet (bs.map (fun b => (b.Hash, b))) k = some c ↔ c ∈ bs ∧ c.Hash = k)
  | [], k, c, _ => by simp [mapGet]
  | b :: rest, k, c, hnd => by
    rw [List.map_cons, List.nodup_cons] at hnd
    have ih := mapGet_map_hash rest k c hnd.2
    simp only [List.map_cons, mapGet]
    by_cases hk : b.Hash = k
    · rw [if_pos hk]
      constructor
      · intro h
        simp only [Option.some.injEq] at h
        subst h
        exact ⟨List.mem_cons_self _ _, hk⟩
      · rintro ⟨hc, hck⟩
        rcases List.mem_cons.1 hc with hc | hc
        · rw [hc]
        · exfalso
          apply hnd.1
          rw [hk, ← hck]
          exact List.mem_map_of_mem _ hc
    · rw [if_neg hk, ih]
      constructor
      · rintro ⟨hc, hck⟩
        exact ⟨List.mem_cons_of_mem _ hc, hck⟩
      · rintro ⟨hc, hck⟩
        rcases List.mem_cons.1 hc with hc | hc
        · subst hc
          exact absurd hck hk
        · exact ⟨hc, hck⟩

/-- In a graph built by `AddBlock` calls the stored blocks are the inserted ones, each
once, and each is found under its own hash. -/
theorem built_graph_stored (bs : List Block) (gd : GhostDAG)
    (hbuilt : NewGhostDAG.AddBlocks bs = some gd) :
    gd.stored = bs ∧ bs.Nodup ∧ ∀ c, c ∈ gd.stored ↔ gd.GetBlock c.Hash = some c := by
  obtain ⟨hblocks, _, hnd⟩ := AddBlocks_blocks bs NewGhostDAG gd hbuilt
  have hb : gd.blocks = bs.map (fun b => (b.Hash, b)) := by
    rw [hblocks]
    simp [NewGhostDAG]
  have hst : gd.stored = bs := by
    simp [GhostDAG.stored, hb, Function.comp_def]
  refine ⟨hst, List.Nodup.of_map _ hnd, fun c => ?_⟩
  unfold GhostDAG.GetBlock
  rw [hst, hb, mapGet_map_hash bs c.Hash c hnd]
  exact ⟨fun h => ⟨h, rfl⟩, fun h => h.1⟩

/-- C29: in a graph built by `AddBlock` calls, for every stored hash `h` and every order of
iteration over the block map, `GetAnticone(h)` returns, each once, exactly the stored
blocks other than the one stored under `h` that are not reached from `h` by following
`Parents` links zero or more times; for a hash that is not stored it returns the error
"block not found". -/
theorem GetAnticone_contract (bs : List Block) (gd : GhostDAG) (iter : List Block) (h : String)
    (hbuilt : NewGhostDAG.AddBlocks bs = some gd) (hiter : iter.Perm gd.stored) :
    (gd.GetBlock h = none →
      gd.GetAnticone iter h = some (Except.error (DagError.notFound h))) ∧
    (∀ b0, gd.GetBlock h = some b0 →
      ∃ result, gd.GetAnticone iter h = some (Except.ok result) ∧ result.Nodup ∧
        ∀ c, c ∈ result ↔
          gd.GetBlock c.Hash = some c ∧ c.Hash ≠ h ∧ ¬ gd.InPastCone h c.Hash) := by
  obtain ⟨hst, hnd, hmem⟩ := built_graph_stored bs gd hbuilt
  constructor
  · intro hnone
    unfold GhostDAG.GetBlock at hnone
    unfold GhostDAG.GetAnticone
    rw [hnone]
  · intro b0 hs
    obtain ⟨result, hres, hsub, hchar⟩ := GetAnticone_ok gd iter h b0 hs
    have hind : iter.Nodup := by
      rw [hiter.nodup_iff, hst]
      exact hnd
    refine ⟨result, hres, hsub.nodup hind, fun c => ?_⟩
    rw [hchar, hiter.mem_iff, hmem]

/-- Witness of C29 on the graph that holds `B` and its child: the anticone of the child
is empty, since `B` is in its past. -/
theorem GetAnticone_contract_witness :
    NewGhostDAG.AddBlocks [exampleParent, exampleChild] = some exampleChainGraph ∧
    exampleChainGraph.GetAnticone exampleChainGraph.stored exampleChild.Hash =
      some (Except.ok []) ∧
    ∃ result, exampleChainGraph.GetAnticone exampleChainGraph.stored exampleChild.Hash =
        some (Except.ok result) ∧ result.Nodup ∧
      ∀ c, c ∈ result ↔
        exampleChainGraph.GetBlock c.Hash = some c ∧ c.Hash ≠ exampleChild.Hash ∧
          ¬ exampleChainGraph.InPastCone exampleChild.Hash c.Hash :=
  ⟨by decide, by decide,
    (GetAnticone_contract [exampleParent, exampleChild] exampleChainGraph
      exampleChainGraph.stored exampleChild.Hash (by decide) (List.Perm.refl _)).2
      exampleChild (by decide)⟩

/-- Counterexample to C30: in the graph that holds `B` and its child, the child is a
descendant of `B` (the hash `B` is among its parents), and `GetAnticone(B)` returns it. -/
theorem GetAnticone_returns_child :
    NewGhostDAG.AddBlocks [exampleParent, exampleChild] = some exampleChainGraph ∧
    exampleChainGraph.GetBlock exampleChild.Hash = some exampleChild ∧
    "B" ∈ exampleChild.Parents ∧
    exampleChainGraph.GetAnticone exampleChainGraph.stored "B" =
      some (Except.ok [exampleChild]) ∧
    exampleChainGraph.GetAnticone exampleChainGraph.stored.reverse "B" =
      some (Except.ok [exampleChild]) := by
  decide

theorem height_of_InPastCone (gd : GhostDAG) (hbelow : gd.ParentsBelow) (a b : String)
    (ba : Block) (ha : gd.GetBlock a = some ba) (hreach : gd.InPastCone a b) :
    b = a ∨ ∃ bb, gd.GetBlock b = some bb ∧ bb.Height < ba.Height := by
  induction hreach with
  | refl => exact Or.inl rfl
  | tail _ hlink ih =>
    obtain ⟨block, hblock, hp⟩ := hlink
    obtain ⟨pb, hpb, hlt⟩ := hbelow _ block hblock _ hp
    rcases ih with hm | ⟨bm, hbm, hlt2⟩
    · subst hm
      rw [ha] at hblock
      cases hblock
      exact Or.inr ⟨pb, hpb, hlt⟩
    · rw [hbm] at hblock
      cases hblock
      exact Or.inr ⟨pb, hpb, by omega⟩

/-- C30 as amended: `GetAnticone(h)` leaves out the past of `h` only, not its future. In a
graph in which every parent of a stored block is stored with a strictly smaller `Height`
(the invariant that `ValidateBlock` maintains), every stored descendant of a stored `h`
other than `h` itself, that is, every stored block from which `h` is reached by following
`Parents` links, is returned by `GetAnticone(h)`. -/
theorem GetAnticone_contains_descendants (gd : GhostDAG) (iter : List Block) (h : String)
    (b0 d : Block) (hiter : iter.Perm gd.stored) (hbelow : gd.ParentsBelow)
    (hs : gd.GetBlock h = some b0) (hd : gd.GetBlock d.Hash = some d) (hne : d.Hash ≠ h)
    (hdesc : gd.InPastCone d.Hash h) :
    ∃ result, gd.GetAnticone iter h = some (Except.ok result) ∧ d ∈ result := by
  obtain ⟨result, hres, _, hchar⟩ := GetAnticone_ok gd iter h b0 hs
  refine ⟨result, hres, (hchar d).2 ⟨?_, hne, ?_⟩⟩
  · exact hiter.symm.subset (mem_of_mapGet gd.blocks d.Hash d hd)
  · intro hpast
    rcases height_of_InPastCone gd hbelow d.Hash h d hd hdesc with h1 | ⟨bh, hbh, hlt1⟩
    · exact hne h1.symm
    · rcases height_of_InPastCone gd hbelow h d.Hash b0 hs hpast with h2 | ⟨bd, hbd, hlt2⟩
      · exact hne h2
      · rw [hs] at hbh
        rw [hd] at hbd
        cases hbh
        cases hbd
        omega

/-- Witness of C30 as amended: the child of `B` is returned by `GetAnticone(B)`. -/
theorem GetAnticone_contains_descendants_witness :
    ∃ result, exampleChainGraph.GetAnticone exampleChainGraph.stored "B" =
      some (Except.ok result) ∧ exampleChild ∈ result :=
  GetAnticone_contains_descendants exampleChainGraph exampleChainGraph.stored "B" exampleParent
    exampleChild (List.Perm.refl _)
    (ValidateBlock_AddBlock_preserves exampleKeccakHex 1000 12345 exampleChild exampleParentGraph
      exampleEngine (exampleEngine.RecordParticipation 6 "v1") exampleParentGraph_ParentsBelow
      (by decide)).2
    (by decide) (by decide) (by decide)
    (Relation.ReflTransGen.single ⟨exampleChild, by decide, by decide⟩)

/-! ## C33, C39, C40: layers and the stake history -/

theorem setLast_map_layer (history : List StakeSnapshot) (last stored : StakeSnapshot)
    (hlast : history.getLast? = some last) (hlayer : stored.Layer = last.Layer) :
    (setLast history stored).length = history.length ∧
    (setLast history stored).map (fun snap => snap.Layer) =
      history.map (fun snap => snap.Layer) := by
  have hsplit : history = history.dropLast ++ [last] :=
    (List.dropLast_append_getLast? last hlast).symm
  unfold setLast
  constructor
  · conv_rhs => rw [hsplit]
    simp
  · conv_rhs => rw [hsplit]
    simp [hlayer]

theorem RemoveValidator_history (p : POSEngine) (validatorID : String) :
    (p.RemoveValidator validatorID).1.CurrentLayer = p.CurrentLayer ∧
    (p.RemoveValidator validatorID).1.LayerTimestamps = p.LayerTimestamps ∧
    (p.RemoveValidator validatorID).1.StakeHistory.length = p.StakeHistory.length ∧
    (p.RemoveValidator validatorID).1.StakeHistory.map (fun snap => snap.Layer) =
      p.StakeHistory.map (fun snap => snap.Layer) := by
  unfold POSEngine.RemoveValidator
  by_cases hany : p.Validators.any (fun v => decide (v.ID = validatorID)) = true
  · rw [if_pos hany]
    simp only
    cases hl : p.StakeHistory.getLast? with
    | none => exact ⟨rfl, rfl, rfl, rfl⟩
    | some currentStake =>
      simp only
      cases hg : mapGet currentStake.Stake validatorID with
      | none => exact ⟨rfl, rfl, rfl, rfl⟩
      | some stake =>
        simp only
        obtain ⟨h1, h2⟩ := setLast_map_layer p.StakeHistory currentStake
          { currentStake with Stake := mapDelete currentStake.Stake validatorID } hl rfl
        simp [h1, h2]
  · rw [if_neg hany]
    exact ⟨rfl, rfl, rfl, rfl⟩

theorem UpdateValidatorStake_history (p : POSEngine) (validatorID : String) (newStake : Nat) :
    (p.UpdateValidatorStake validatorID newStake).1.CurrentLayer = p.CurrentLayer ∧
    (p.UpdateValidatorStake validatorID newStake).1.LayerTimestamps = p.LayerTimestamps ∧
    (p.UpdateValidatorStake validatorID newStake).1.StakeHistory.length =
      p.StakeHistory.length ∧
    (p.UpdateValidatorStake validatorID newStake).1.StakeHistory.map (fun snap => snap.Layer) =
      p.StakeHistory.map (fun snap => snap.Layer) := by
  unfold POSEngine.UpdateValidatorStake
  cases hf : p.Validators.find? (fun v => decide (v.ID = validatorID)) with
  | none => exact ⟨rfl, rfl, rfl, rfl⟩
  | some v =>
    simp only
    cases hl : p.StakeHistory.getLast? with
    | none => exact ⟨rfl, rfl, rfl, rfl⟩
    | some currentStake =>
      simp only
      cases hg : mapGet currentStake.Stake validatorID with
      | none => exact ⟨rfl, rfl, rfl, rfl⟩
      | some stake =>
        simp only
        obtain ⟨h1, h2⟩ := setLast_map_layer p.StakeHistory currentStake
          { currentStake with Stake := mapSet currentStake.Stake validatorID newStake } hl rfl
        simp [h1, h2]

theorem AdvanceLayer_fields (p : POSEngine) (now : Int) :
    (p.AdvanceLayer now).CurrentLayer = p.CurrentLayer + 1 ∧
    (p.AdvanceLayer now).LayerTimestamps = p.LayerTimestamps ++ [now] ∧
    (p.AdvanceLayer now).Participation = p.Participation := by
  unfold POSEngine.AdvanceLayer
  simp only
  cases p.StakeHistory.getLast? <;> exact ⟨rfl, rfl, rfl⟩

theorem RecordParticipation_layers (p : POSEngine) (layer : Nat) (id : String) :
    (p.RecordParticipation layer id).CurrentLayer = p.CurrentLayer ∧
    (p.RecordParticipation layer id).LayerTimestamps = p.LayerTimestamps := by
  unfold POSEngine.RecordParticipation
  simp only
  split_ifs <;> exact ⟨rfl, rfl⟩

theorem HistoryIndexed_call (p : POSEngine) (c : EngineCall) (h : p.HistoryIndexed) :
    (p.call c).HistoryIndexed := by
  obtain ⟨h1, h2, h3⟩ := h
  cases c with
  | AddValidator validator =>
    simp only [POSEngine.call]
    rw [AddValidator_fst]
    split_ifs
    · exact ⟨h1, h2, h3⟩
    · exact ⟨h1, h2, h3⟩
  | RemoveValidator validatorID =>
    obtain ⟨a, b, c, d⟩ := RemoveValidator_history p validatorID
    simp only [POSEngine.call]
    unfold POSEngine.HistoryIndexed
    rw [a, b, c, d]
    exact ⟨h1, h2, h3⟩
  | UpdateValidatorStake validatorID newStake =>
    obtain ⟨a, b, c, d⟩ := UpdateValidatorStake_history p validatorID newStake
    simp only [POSEngine.call]
    unfold POSEngine.HistoryIndexed
    rw [a, b, c, d]
    exact ⟨h1, h2, h3⟩
  | AdvanceLayer now =>
    have hne : p.StakeHistory ≠ [] := by
      intro hnil
      rw [hnil] at h1
      simp only [List.length_nil, Nat.cast_zero] at h1
      have : (0 : Int) ≤ (p.LayerTimestamps.length : Int) := Int.natCast_nonneg _
      omega
    obtain ⟨last, _, hh, _, _⟩ := AdvanceLayer_history p now hne
    obtain ⟨a, b, _⟩ := AdvanceLayer_fields p now
    simp only [POSEngine.call]
    unfold POSEngine.HistoryIndexed
    rw [a, b, hh]
    refine ⟨?_, ?_, ?_⟩
    · simp only [List.length_append, List.length_singleton, Nat.cast_add, Nat.cast_one]
      omega
    · simp only [List.length_append, List.length_singleton, Nat.cast_add, Nat.cast_one]
      omega
    · simp only [List.map_append, List.map_cons, List.map_nil, List.length_append,
        List.length_singleton, List.range_succ]
      rw [h3]
      congr 1
      simp only [List.cons.injEq, and_true]
      omega
  | RecordParticipation layer validatorID =>
    obtain ⟨_, b, _⟩ := RecordParticipation_fields p layer validatorID
    obtain ⟨a, c⟩ := RecordParticipation_layers p layer validatorID
    simp only [POSEngine.call]
    unfold POSEngine.HistoryIndexed
    rw [a, b, c]
    exact ⟨h1, h2, h3⟩

theorem HistoryIndexed_calls (cs : List EngineCall) :
    ∀ p : POSEngine, p.HistoryIndexed → (p.calls cs).HistoryIndexed := by
  induction cs with
  | nil => intro p h; exact h
  | cons c rest ih =>
    intro p h
    exact ih (p.call c) (HistoryIndexed_call p c h)

theorem HistoryIndexed_new (validators : List Validator) (finalityConfig : FinalityConfig) :
    (NewPOSEngine validators finalityConfig).HistoryIndexed :=
  ⟨rfl, rfl, rfl⟩

theorem HistoryIndexed_ne_nil (p : POSEngine) (h : p.HistoryIndexed) : p.StakeHistory ≠ [] := by
  obtain ⟨h1, h2, _⟩ := h
  intro hnil
  rw [hnil] at h1
  simp only [List.length_nil, Nat.cast_zero] at h1
  have : (0 : Int) ≤ (p.LayerTimestamps.length : Int) := Int.natCast_nonneg _
  omega

/-- C39: in every engine state reachable from `NewPOSEngine` by `AdvanceLayer`,
`AddValidator`, `RemoveValidator`, `UpdateValidatorStake` and `RecordParticipation`,
`len(StakeHistory) = CurrentLayer + 1`, `len(LayerTimestamps) = CurrentLayer`, and the
snapshot at every index `i` of `StakeHistory` has `Layer = i`. -/
theorem history_indexing_invariant (validators : List Validator)
    (finalityConfig : FinalityConfig) (cs : List EngineCall) :
    (((NewPOSEngine validators finalityConfig).calls cs).StakeHistory.length : Int) =
      ((NewPOSEngine validators finalityConfig).calls cs).CurrentLayer + 1 ∧
    (((NewPOSEngine validators finalityConfig).calls cs).LayerTimestamps.length : Int) =
      ((NewPOSEngine validators finalityConfig).calls cs).CurrentLayer ∧
    ∀ (i : Nat) (snap : StakeSnapshot),
      ((NewPOSEngine validators finalityConfig).calls cs).StakeHistory[i]? = some snap →
      snap.Layer = (i : Int) := by
  obtain ⟨h1, h2, h3⟩ := HistoryIndexed_calls cs _ (HistoryIndexed_new validators finalityConfig)
  refine ⟨h1, h2, ?_⟩
  intro i snap hi
  have hlt : i < ((NewPOSEngine validators finalityConfig).calls cs).StakeHistory.length := by
    by_contra hge
    rw [List.getElem?_eq_none (by omega)] at hi
    cases hi
  have hm := congrArg (fun l => l[i]?) h3
  simp only [List.getElem?_map, hi, Option.map_some'] at hm
  rw [List.getElem?_range hlt] at hm
  simpa using hm

/-- C33: for every engine reached from `NewPOSEngine`, a call of `AdvanceLayer` increases
`CurrentLayer` by exactly 1, appends exactly one layer timestamp, and appends exactly one
snapshot to `StakeHistory`, whose `Layer` is the new `CurrentLayer` and whose `Stake` map
and `Total` are those of the previously last snapshot; the earlier snapshots, the
validator list, the configuration and the participation map are unchanged. -/
theorem AdvanceLayer_contract (validators : List Validator) (finalityConfig : FinalityConfig)
    (cs : List EngineCall) (now : Int) :
    (((NewPOSEngine validators finalityConfig).calls cs).AdvanceLayer now).CurrentLayer =
      ((NewPOSEngine validators finalityConfig).calls cs).CurrentLayer + 1 ∧
    (((NewPOSEngine validators finalityConfig).calls cs).AdvanceLayer now).LayerTimestamps =
      ((NewPOSEngine validators finalityConfig).calls cs).LayerTimestamps ++ [now] ∧
    (∃ last, ((NewPOSEngine validators finalityConfig).calls cs).StakeHistory.getLast? =
        some last ∧
      (((NewPOSEngine validators finalityConfig).calls cs).AdvanceLayer now).StakeHistory =
        ((NewPOSEngine validators finalityConfig).calls cs).StakeHistory ++
          [{ Layer := (((NewPOSEngine validators finalityConfig).calls cs).AdvanceLayer
                now).CurrentLayer,
             Stake := last.Stake, Total := last.Total }]) ∧
    (((NewPOSEngine validators finalityConfig).calls cs).AdvanceLayer now).Validators =
      ((NewPOSEngine validators finalityConfig).calls cs).Validators ∧
    (((NewPOSEngine validators finalityConfig).calls cs).AdvanceLayer now).FinalityConfig =
      ((NewPOSEngine validators finalityConfig).calls cs).FinalityConfig ∧
    (((NewPOSEngine validators finalityConfig).calls cs).AdvanceLayer now).Participation =
      ((NewPOSEngine validators finalityConfig).calls cs).Participation := by
  obtain ⟨p, hp⟩ : ∃ p, p = (NewPOSEngine validators finalityConfig).calls cs := ⟨_, rfl⟩
  rw [← hp]
  have hinv : p.HistoryIndexed := by
    rw [hp]
    exact HistoryIndexed_calls cs _ (HistoryIndexed_new validators finalityConfig)
  obtain ⟨last, hl, hh, hv, hc⟩ := AdvanceLayer_history p now (HistoryIndexed_ne_nil p hinv)
  obtain ⟨a, b, c⟩ := AdvanceLayer_fields p now
  exact ⟨a, b, ⟨last, hl, by rw [hh, a]⟩, hv, hc, c⟩

theorem hardFinalityLoop_total (scale : Nat → Float64 → Nat) (p : POSEngine)
    (hhist : p.StakeHistory ≠ []) :
    ∀ indices : List Nat, ∃ b, hardFinalityLoop scale p indices = some b
  | [] => ⟨true, rfl⟩
  | i :: rest => by
    obtain ⟨snap, _, hc⟩ := checkLayerStakeThreshold_eq scale p (i : Int)
      p.FinalityConfig.HardFinalityThreshold hhist (Int.natCast_nonneg i)
    unfold hardFinalityLoop
    rw [hc]
    cases decide (participatingStake snap.Stake p.Validators ≥
      scale snap.Total p.FinalityConfig.HardFinalityThreshold) with
    | false => exact ⟨false, rfl⟩
    | true => exact hardFinalityLoop_total scale p hhist rest

theorem checkLayerStakeThreshold_negative (scale : Nat → Float64 → Nat) (p : POSEngine)
    (i : Int) (thr : Float64) (hi : i < 0) : p.checkLayerStakeThreshold scale i thr = none := by
  have hge : ¬ i ≥ (p.StakeHistory.length : Int) := by omega
  unfold POSEngine.checkLayerStakeThreshold
  simp only [hge, if_false]
  rw [if_pos hi]

/-- With one finality layer, `CheckSoftFinality(2^63 - 1)` panics on every engine with a
stake snapshot whose last snapshot meets the threshold. -/
theorem CheckSoftFinality_max_layer_one (scale : Nat → Float64 → Nat) (p : POSEngine)
    (hone : p.FinalityConfig.SoftFinalityLayers = 1)
    (hpass : p.checkLayerStakeThreshold scale (2 ^ 63 - 1)
      p.FinalityConfig.SoftFinalityThreshold = some true) :
    p.CheckSoftFinality scale (2 ^ 63 - 1) = none := by
  have hw : wrap64 (wrap64 (2 ^ 63 - 1 - 1) + 1) = 2 ^ 63 - 1 := by decide
  have hw2 : wrap64 (2 ^ 63 - 1 + 1) = -(2 ^ 63) := by decide
  unfold POSEngine.CheckSoftFinality
  rw [hone, if_neg (by decide)]
  simp only [hw]
  have hfuel : ((2 ^ 63 - 1 : Int) - (2 ^ 63 - 1)).toNat + 2 = 2 := by decide
  rw [hfuel]
  unfold softFinalityLoop
  rw [if_pos (le_refl _), hpass]
  simp only [hw2]
  unfold softFinalityLoop
  rw [if_pos (by decide), checkLayerStakeThreshold_negative scale p _ _ (by decide)]

/-- C40 (defect): `checkLayerStakeThreshold` guards the upper end of the index only. In
`CheckSoftFinality(layer)` with `layer = 2^63 - 1` the loop condition `i <= layer` never
fails, the increment wraps `i` around to `-2^63`, and `StakeHistory` is read at a negative
index: on the example engine (one validator, two finality layers), also after a call of
`AdvanceLayer`, the call panics, and so it does with one finality layer on every engine
whose last snapshot meets the threshold. `CheckHardFinality` reads indices between 0 and
`len(LayerTimestamps) - 1` only and returns in every state reached from `NewPOSEngine`. -/
theorem CheckSoftFinality_panics_at_max_layer :
    exampleEngine.FinalityConfig.SoftFinalityLayers = 2 ∧
    exampleEngine.checkLayerStakeThreshold exampleScale (2 ^ 63 - 2)
      exampleEngine.FinalityConfig.SoftFinalityThreshold = some true ∧
    exampleEngine.checkLayerStakeThreshold exampleScale (2 ^ 63 - 1)
      exampleEngine.FinalityConfig.SoftFinalityThreshold = some true ∧
    wrap64 (2 ^ 63 - 1 + 1) = -(2 ^ 63) ∧
    exampleEngine.checkLayerStakeThreshold exampleScale (-(2 ^ 63))
      exampleEngine.FinalityConfig.SoftFinalityThreshold = none ∧
    exampleEngine.CheckSoftFinality exampleScale (2 ^ 63 - 1) = none ∧
    (exampleEngine.AdvanceLayer 1000).CheckSoftFinality exampleScale (2 ^ 63 - 1) = none ∧
    (∀ (scale : Nat → Float64 → Nat) (p : POSEngine),
      p.FinalityConfig.SoftFinalityLayers = 1 →
      p.checkLayerStakeThreshold scale (2 ^ 63 - 1)
        p.FinalityConfig.SoftFinalityThreshold = some true →
      p.CheckSoftFinality scale (2 ^ 63 - 1) = none) ∧
    (∀ (scale : Nat → Float64 → Nat) (validators : List Validator)
        (finalityConfig : FinalityConfig) (cs : List EngineCall) (currentTime : Int),
      ∃ b, ((NewPOSEngine validators finalityConfig).calls cs).CheckHardFinality scale
        currentTime = some b) := by
  refine ⟨by decide, by decide, by decide, by decide, by decide, by decide, by decide,
    CheckSoftFinality_max_layer_one, ?_⟩
  intro scale validators finalityConfig cs currentTime
  have hne := HistoryIndexed_ne_nil _
    (HistoryIndexed_calls cs _ (HistoryIndexed_new validators finalityConfig))
  unfold POSEngine.CheckHardFinality
  simp only
  split_ifs
  · exact ⟨false, rfl⟩
  · exact hardFinalityLoop_total scale _ hne _

/-! ## C31: tips -/

theorem heightLess_iff (a b : Block) :
    heightLess a b = true ↔
      a.Height < b.Height ∨ (a.Height = b.Height ∧ a.Hash < b.Hash) := by
  unfold heightLess
  split_ifs with h
  · simp only [decide_eq_true_eq]
    constructor
    · exact fun hlt => Or.inl hlt
    · rintro (hlt | ⟨he, _⟩)
      · exact hlt
      · exact absurd he h
  · push_neg at h
    rw [strLess_iff]
    constructor
    · exact fun hlt => Or.inr ⟨h, hlt⟩
    · rintro (hlt | ⟨_, hlt⟩)
      · omega
      · exact hlt

theorem heightLess_false_iff (a b : Block) :
    heightLess b a = false ↔
      a.Height < b.Height ∨ (a.Height = b.Height ∧ a.Hash ≤ b.Hash) := by
  rw [← Bool.not_eq_true, heightLess_iff]
  constructor
  · intro h
    push_neg at h
    rcases lt_trichotomy a.Height b.Height with h1 | h1 | h1
    · exact Or.inl h1
    · exact Or.inr ⟨h1, h.2 h1.symm⟩
    · exact absurd h1 (not_lt.mpr h.1)
  · rintro (h | ⟨h1, h2⟩)
    · push_neg
      exact ⟨le_of_lt h, fun e => by omega⟩
    · push_neg
      exact ⟨le_of_eq h1, fun _ => h2⟩

/-- `sort.Slice` can return: every slice of blocks has a rearrangement that is ordered by
`heightLess`. -/
theorem SortByHeight_exists (blocks : List Block) :
    ∃ sorted, SortSliceResult heightLess blocks sorted := by
  haveI : IsTotal Block (fun a b => heightLess b a = false) :=
    ⟨fun a b => by
      rw [heightLess_false_iff, heightLess_false_iff]
      rcases lt_trichotomy a.Height b.Height with h | h | h
      · exact Or.inl (Or.inl h)
      · rcases le_total a.Hash b.Hash with h2 | h2
        · exact Or.inl (Or.inr ⟨h, h2⟩)
        · exact Or.inr (Or.inr ⟨h.symm, h2⟩)
      · exact Or.inr (Or.inl h)⟩
  haveI : IsTrans Block (fun a b => heightLess b a = false) :=
    ⟨fun a b c => by
      rw [heightLess_false_iff, heightLess_false_iff, heightLess_false_iff]
      rintro (h1 | ⟨h1, h2⟩) (h3 | ⟨h3, h4⟩)
      · exact Or.inl (by omega)
      · exact Or.inl (by omega)
      · exact Or.inl (by omega)
      · exact Or.inr ⟨by omega, le_trans h2 h4⟩⟩
  exact ⟨blocks.insertionSort (fun a b => heightLess b a = false),
    List.perm_insertionSort _ _, List.sorted_insertionSort _ _⟩

/-- C31: in a graph built by `AddBlock` calls, for every order of iteration over the block
map, `GetTips` returns (and `SortByHeight` can return) a slice that holds, each once,
exactly the stored blocks whose `Hash` is not listed in the `Parents` of any stored block,
sorted by `Height` ascending and then `Hash` ascending. -/
theorem GetTips_contract (bs : List Block) (gd : GhostDAG) (iter tips : List Block)
    (hbuilt : NewGhostDAG.AddBlocks bs = some gd) (hiter : iter.Perm gd.stored)
    (htips : gd.GetTipsResult iter tips) :
    (∃ sorted, gd.GetTipsResult iter sorted) ∧
    tips.Nodup ∧
    (∀ b, b ∈ tips ↔
      gd.GetBlock b.Hash = some b ∧ ∀ c, gd.GetBlock c.Hash = some c → b.Hash ∉ c.Parents) ∧
    tips.Pairwise (fun a b =>
      a.Height < b.Height ∨ (a.Height = b.Height ∧ a.Hash < b.Hash)) := by
  obtain ⟨hst, hnd, hmem⟩ := built_graph_stored bs gd hbuilt
  obtain ⟨hperm, hsorted⟩ := htips
  have hind : iter.Nodup := by
    rw [hiter.nodup_iff, hst]
    exact hnd
  have hund : (gd.unsortedTips iter).Nodup := hind.sublist (List.filter_sublist _)
  have htnd : tips.Nodup := hperm.nodup_iff.2 hund
  have hchar : ∀ b, b ∈ tips ↔
      gd.GetBlock b.Hash = some b ∧ ∀ c, gd.GetBlock c.Hash = some c → b.Hash ∉ c.Parents := by
    intro b
    rw [hperm.mem_iff]
    unfold GhostDAG.unsortedTips
    rw [List.mem_filter, hiter.mem_iff, hmem]
    simp only [decide_not, Bool.not_eq_true', decide_eq_false_iff_not, List.any_eq_true,
      List.contains_iff_exists_mem_beq, beq_iff_eq, exists_eq_right', not_exists, not_and,
      Bool.decide_eq_true, decide_eq_true_eq]
    constructor
    · rintro ⟨h1, h2⟩
      exact ⟨h1, fun c hc => h2 c ((hmem c).2 hc)⟩
    · rintro ⟨h1, h2⟩
      exact ⟨h1, fun c hc => h2 c ((hmem c).1 hc)⟩
  refine ⟨SortByHeight_exists _, htnd, hchar, ?_⟩
  have hhash : tips.Pairwise (fun a b => a.Hash ≠ b.Hash) := by
    rw [List.Nodup] at htnd
    refine ((List.Pairwise.and_mem.1 htnd).imp ?_)
    rintro a b ⟨ha, hb, hne⟩ he
    apply hne
    have h1 := ((hchar a).1 ha).1
    have h2 := ((hchar b).1 hb).1
    rw [he, h2] at h1
    exact (Option.some.inj h1).symm
  refine (hsorted.and hhash).imp ?_
  rintro a b ⟨h, hne⟩
  rcases (heightLess_false_iff a b).1 h with h1 | ⟨h1, h2⟩
  · exact Or.inl h1
  · exact Or.inr ⟨h1, lt_of_le_of_ne h2 hne⟩

/-- Witness of C31 on the graph that holds `B` and its child: the child is the only tip. -/
theorem GetTips_contract_witness :
    NewGhostDAG.AddBlocks [exampleParent, exampleChild] = some exampleChainGraph ∧
    exampleChainGraph.unsortedTips exampleChainGraph.stored = [exampleChild] ∧
    [exampleChild].Nodup ∧
    (∀ b, b ∈ [exampleChild] ↔
      exampleChainGraph.GetBlock b.Hash = some b ∧
        ∀ c, exampleChainGraph.GetBlock c.Hash = some c → b.Hash ∉ c.Parents) :=
  ⟨by decide, by decide,
    ((GetTips_contract [exampleParent, exampleChild] exampleChainGraph exampleChainGraph.stored
      [exampleChild] (by decide) (List.Perm.refl _) ⟨by decide, by decide⟩).2.1),
    ((GetTips_contract [exampleParent, exampleChild] exampleChainGraph exampleChainGraph.stored
      [exampleChild] (by decide) (List.Perm.refl _) ⟨by decide, by decide⟩).2.2.1)⟩

/-! ## C32, C38: selected-parent chain and blue score -/

theorem selectedParentChainLoop_empty (gd : GhostDAG) (fuel : Nat) (chain : List Block) :
    selectedParentChainLoop gd fuel "" chain = some (Except.ok chain) := by
  cases fuel <;> simp [selectedParentChainLoop]

theorem selectedParentChainLoop_of_walk (gd : GhostDAG) (h : String) (path : List Block)
    (hwalk : SelectedParentWalk gd h path) :
    h ≠ "" → ∀ (fuel : Nat) (chain : List Block), path.length ≤ fuel →
      selectedParentChainLoop gd fuel h chain = some (Except.ok (path.reverse ++ chain)) := by
  induction hwalk with
  | last h b hb hsel =>
    intro hne fuel chain hfuel
    obtain ⟨f, rfl⟩ : ∃ f, fuel = f + 1 := ⟨fuel - 1, by simp at hfuel; omega⟩
    unfold GhostDAG.GetBlock at hb
    unfold selectedParentChainLoop
    rw [if_neg hne, hb]
    simp only
    rw [hsel, selectedParentChainLoop_empty]
    simp
  | step h b path hb hsel _ ih =>
    intro hne fuel chain hfuel
    obtain ⟨f, rfl⟩ : ∃ f, fuel = f + 1 := ⟨fuel - 1, by simp at hfuel; omega⟩
    unfold GhostDAG.GetBlock at hb
    unfold selectedParentChainLoop
    rw [if_neg hne, hb]
    simp only
    rw [ih hsel f (b :: chain) (by simp at hfuel; omega)]
    simp

theorem CalculateBlueScore_of_walk (gd : GhostDAG) (h : String) (path : List Block)
    (hwalk : SelectedParentWalk gd h path) :
    ∀ fuel : Nat, path.length ≤ fuel → path.length < 2 ^ 63 →
      gd.CalculateBlueScore fuel h = some (Except.ok (path.length : Int)) := by
  induction hwalk with
  | last h b hb hsel =>
    intro fuel hfuel _
    obtain ⟨f, rfl⟩ : ∃ f, fuel = f + 1 := ⟨fuel - 1, by simp at hfuel; omega⟩
    unfold GhostDAG.GetBlock at hb
    unfold GhostDAG.CalculateBlueScore
    rw [hb]
    simp only
    rw [if_pos hsel]
    rfl
  | step h b path hb hsel _ ih =>
    intro fuel hfuel hsmall
    obtain ⟨f, rfl⟩ : ∃ f, fuel = f + 1 := ⟨fuel - 1, by simp at hfuel; omega⟩
    unfold GhostDAG.GetBlock at hb
    simp only [List.length_cons] at hfuel hsmall
    unfold GhostDAG.CalculateBlueScore
    rw [hb]
    simp only
    rw [if_neg hsel, ih f (by omega) (by omega)]
    simp only [List.length_cons, Nat.cast_add, Nat.cast_one]
    rw [wrap64_of_range _ (by omega) (by omega)]

theorem selectedParentChainLoop_of_fails (gd : GhostDAG) (h : String) (path : List Block)
    (missing : String) (hwalk : SelectedParentWalkFails gd h path missing) :
    h ≠ "" → ∀ (fuel : Nat) (chain : List Block), path.length + 1 ≤ fuel →
      selectedParentChainLoop gd fuel h chain =
        some (Except.error (DagError.notFound missing)) := by
  induction hwalk with
  | missing h hb =>
    intro hne fuel chain hfuel
    obtain ⟨f, rfl⟩ : ∃ f, fuel = f + 1 := ⟨fuel - 1, by omega⟩
    unfold GhostDAG.GetBlock at hb
    unfold selectedParentChainLoop
    rw [if_neg hne, hb]
  | step h b path missing hb hsel _ ih =>
    intro hne fuel chain hfuel
    obtain ⟨f, rfl⟩ : ∃ f, fuel = f + 1 := ⟨fuel - 1, by omega⟩
    unfold GhostDAG.GetBlock at hb
    unfold selectedParentChainLoop
    rw [if_neg hne, hb]
    simp only
    exact ih hsel f (b :: chain) (by simp at hfuel; omega)

theorem CalculateBlueScore_of_fails (gd : GhostDAG) (h : String) (path : List Block)
    (missing : String) (hwalk : SelectedParentWalkFails gd h path missing) :
    ∀ fuel : Nat, path.length + 1 ≤ fuel →
      gd.CalculateBlueScore fuel h = some (Except.error (DagError.notFound missing)) := by
  induction hwalk with
  | missing h hb =>
    intro fuel hfuel
    obtain ⟨f, rfl⟩ : ∃ f, fuel = f + 1 := ⟨fuel - 1, by omega⟩
    unfold GhostDAG.GetBlock at hb
    unfold GhostDAG.CalculateBlueScore
    rw [hb]
  | step h b path missing hb hsel _ ih =>
    intro fuel hfuel
    obtain ⟨f, rfl⟩ : ∃ f, fuel = f + 1 := ⟨fuel - 1, by omega⟩
    unfold GhostDAG.GetBlock at hb
    unfold GhostDAG.CalculateBlueScore
    rw [hb]
    simp only
    rw [if_neg hsel, ih f (by simp at hfuel; omega)]

/-- Counterexample to C32: for the empty hash the two functions disagree. On the empty
graph `CalculateBlueScore("")` returns the error "block not found", while
`GetSelectedParentChain("")` returns the empty chain without error; on the graph that
stores a block under the empty hash the blue score is 1, and the chain is empty. -/
theorem empty_hash_chain_and_score_disagree :
    NewGhostDAG.GetBlock "" = none ∧
    NewGhostDAG.CalculateBlueScore 5 "" = some (Except.error (DagError.notFound "")) ∧
    NewGhostDAG.GetSelectedParentChain 5 "" = some (Except.ok []) ∧
    (NewGhostDAG.AddBlock exampleEmptyHashBlock).2 = none ∧
    exampleEmptyHashGraph.GetBlock "" = some exampleEmptyHashBlock ∧
    exampleEmptyHashBlock.SelectedParent = "" ∧
    exampleEmptyHashGraph.CalculateBlueScore 5 "" = some (Except.ok 1) ∧
    exampleEmptyHashGraph.GetSelectedParentChain 5 "" = some (Except.ok []) := by
  decide

/-- C32 as amended: `CalculateBlueScore(h)` is 1 for a stored block with empty
`SelectedParent` and otherwise one more than the blue score of its selected parent.
Hence, for every non-empty `h` whose `SelectedParent` walk ends at a stored block with
empty `SelectedParent`, `CalculateBlueScore(h)` equals the number of blocks in
`GetSelectedParentChain(h)`, whose first element is that last block of the walk and whose
last element is the block stored under `h`; and for every non-empty `h` whose walk
reaches a hash missing from the graph both return the error "block not found" for that
hash. (For the empty `h` the chain is empty and no error is returned.) -/
theorem chain_and_score_agree (gd : GhostDAG) (h : String) (fuel : Nat) :
    (∀ b, gd.GetBlock h = some b → b.SelectedParent = "" →
      gd.CalculateBlueScore (fuel + 1) h = some (Except.ok 1)) ∧
    (∀ b parentScore, gd.GetBlock h = some b → b.SelectedParent ≠ "" →
      gd.CalculateBlueScore fuel b.SelectedParent = some (Except.ok parentScore) →
      parentScore + 1 < 2 ^ 63 → -(2 ^ 63) ≤ parentScore + 1 →
      gd.CalculateBlueScore (fuel + 1) h = some (Except.ok (parentScore + 1))) ∧
    (∀ path, SelectedParentWalk gd h path → h ≠ "" → path.length ≤ fuel →
      path.length < 2 ^ 63 →
      gd.CalculateBlueScore fuel h = some (Except.ok (path.length : Int)) ∧
      ∃ chain, gd.GetSelectedParentChain fuel h = some (Except.ok chain) ∧
        (chain.length : Int) = path.length ∧ chain = path.reverse ∧
        chain.head? = path.getLast? ∧ chain.getLast? = gd.GetBlock h ∧
        ∃ first, chain.head? = some first ∧ first.SelectedParent = "") ∧
    (∀ path missing, SelectedParentWalkFails gd h path missing → h ≠ "" →
      path.length + 1 ≤ fuel →
      gd.GetBlock missing = none ∧
      gd.CalculateBlueScore fuel h = some (Except.error (DagError.notFound missing)) ∧
      gd.GetSelectedParentChain fuel h = some (Except.error (DagError.notFound missing))) ∧
    gd.GetSelectedParentChain fuel "" = some (Except.ok []) := by
  refine ⟨?_, ?_, ?_, ?_, ?_⟩
  · intro b hb hsel
    unfold GhostDAG.GetBlock at hb
    unfold GhostDAG.CalculateBlueScore
    rw [hb]
    simp only
    rw [if_pos hsel]
  · intro b parentScore hb hsel hparent h1 h2
    unfold GhostDAG.GetBlock at hb
    unfold GhostDAG.CalculateBlueScore
    rw [hb]
    simp only
    rw [if_neg hsel, hparent]
    simp only
    rw [wrap64_of_range _ h2 h1]
  · intro path hwalk hne hfuel hsmall
    refine ⟨CalculateBlueScore_of_walk gd h path hwalk fuel hfuel hsmall, path.reverse, ?_, ?_,
      rfl, ?_, ?_, ?_⟩
    · unfold GhostDAG.GetSelectedParentChain
      rw [selectedParentChainLoop_of_walk gd h path hwalk hne fuel [] hfuel]
      simp
    · simp
    · simp
    · rw [List.getLast?_reverse]
      cases hwalk with
      | last _ b hb _ => rw [hb]; rfl
      | step _ b path hb _ _ => rw [hb]; rfl
    · rw [List.head?_reverse]
      clear hfuel hsmall hne
      induction hwalk with
      | last _ b _ hsel => exact ⟨b, rfl, hsel⟩
      | step _ b path _ _ hrest ih =>
        obtain ⟨first, hf, hs⟩ := ih
        refine ⟨first, ?_, hs⟩
        cases path with
        | nil => simp at hf
        | cons c rest => simpa using hf
  · intro path missing hfails hne hfuel
    refine ⟨?_, CalculateBlueScore_of_fails gd h path missing hfails fuel hfuel, ?_⟩
    · clear hfuel hne
      induction hfails with
      | missing _ hb => exact hb
      | step _ _ _ _ _ _ _ ih => exact ih
    · unfold GhostDAG.GetSelectedParentChain
      exact selectedParentChainLoop_of_fails gd h path missing hfails hne fuel [] hfuel
  · unfold GhostDAG.GetSelectedParentChain
    exact selectedParentChainLoop_empty gd fuel []

/-- Witness of C32 as amended on the graph that holds `B` and a child with the selected
parent `B`: the blue score of the child is 2 and its chain is `B`, child. -/
theorem chain_and_score_agree_witness :
    exampleSelectedGraph.CalculateBlueScore 2 exampleSelectedChild.Hash =
      some (Except.ok (([exampleSelectedChild, exampleParent].length : Nat) : Int)) ∧
    ∃ chain, exampleSelectedGraph.GetSelectedParentChain 2 exampleSelectedChild.Hash =
        some (Except.ok chain) ∧
      (chain.length : Int) = [exampleSelectedChild, exampleParent].length ∧
      chain = [exampleSelectedChild, exampleParent].reverse ∧
      chain.head? = [exampleSelectedChild, exampleParent].getLast? ∧
      chain.getLast? = exampleSelectedGraph.GetBlock exampleSelectedChild.Hash ∧
      ∃ first, chain.head? = some first ∧ first.SelectedParent = "" :=
  (chain_and_score_agree exampleSelectedGraph exampleSelectedChild.Hash 2).2.2.1
    [exampleSelectedChild, exampleParent]
    (SelectedParentWalk.step _ exampleSelectedChild [exampleParent] (by decide) (by decide)
      (SelectedParentWalk.last _ exampleParent (by decide) (by decide)))
    (by decide) (by decide) (by decide)

theorem blocksBelow_lt (blocks : List (String × Block)) (k : String) (b : Block) (height : Int)
    (hget : mapGet blocks k = some b) (hlt : b.Height < height) :
    blocksBelow blocks b.Height < blocksBelow blocks height := by
  unfold blocksBelow
  induction blocks with
  | nil => simp [mapGet] at hget
  | cons kv rest ih =>
    obtain ⟨k1, v1⟩ := kv
    have hmono : (rest.filter (fun kv => decide (kv.2.Height < b.Height))).length ≤
        (rest.filter (fun kv => decide (kv.2.Height < height))).length := by
      clear ih hget
      induction rest with
      | nil => simp
      | cons x xs ihx =>
        simp only [List.filter_cons]
        by_cases h1 : x.2.Height < b.Height
        · have h2 : x.2.Height < height := by omega
          simp only [h1, h2, decide_True, if_true, List.length_cons]
          omega
        · by_cases h2 : x.2.Height < height
          · simp only [h1, h2, decide_True, decide_False, if_true, Bool.false_eq_true, if_false,
              List.length_cons]
            omega
          · simp only [h1, h2, decide_False, Bool.false_eq_true, if_false]
            exact ihx
    by_cases hk : k1 = k
    · simp only [mapGet, hk, if_true, Option.some.injEq] at hget
      subst hget
      simp only [List.filter_cons, lt_self_iff_false, decide_False, Bool.false_eq_true, if_false,
        hlt, decide_True, if_true, List.length_cons]
      omega
    · simp only [mapGet, hk, if_false] at hget
      have ih' := ih hget
      simp only [List.filter_cons]
      by_cases h1 : v1.Height < b.Height
      · have h2 : v1.Height < height := by omega
        simp only [h1, h2, decide_True, if_true, List.length_cons]
        omega
      · by_cases h2 : v1.Height < height
        · simp only [h1, h2, decide_True, decide_False, if_true, Bool.false_eq_true, if_false,
            List.length_cons]
          omega
        · simp only [h1, h2, decide_False, Bool.false_eq_true, if_false]
          exact ih'

theorem blocksBelow_lt_length (blocks : List (String × Block)) (k : String) (b : Block)
    (hget : mapGet blocks k = some b) : blocksBelow blocks b.Height < blocks.length := by
  unfold blocksBelow
  induction blocks with
  | nil => simp [mapGet] at hget
  | cons kv rest ih =>
    obtain ⟨k1, v1⟩ := kv
    have hle := List.length_filter_le (fun kv : String × Block => decide (kv.2.Height < b.Height))
      rest
    by_cases hk : k1 = k
    · simp only [mapGet, hk, if_true, Option.some.injEq] at hget
      subst hget
      simp only [List.filter_cons, lt_self_iff_false, decide_False, Bool.false_eq_true, if_false,
        List.length_cons]
      omega
    · simp only [mapGet, hk, if_false] at hget
      have ih' := ih hget
      simp only [List.filter_cons, List.length_cons]
      split_ifs
      · simp only [List.length_cons]; omega
      · omega

/-- Under `SelectedParentBelow` the walk from a stored hash either ends or reaches a
missing hash after at most `blocksBelow + 1` stored blocks, whose heights decrease
strictly. -/
theorem walk_exists (gd : GhostDAG) (hbelow : gd.SelectedParentBelow) :
    ∀ (k : Nat) (h : String) (b : Block), gd.GetBlock h = some b →
      blocksBelow gd.blocks b.Height ≤ k →
      ∃ path, (SelectedParentWalk gd h path ∨ ∃ missing, SelectedParentWalkFails gd h path missing) ∧
        path.length ≤ blocksBelow gd.blocks b.Height + 1 ∧
        path.Pairwise (fun a c => c.Height < a.Height) ∧
        ∀ c ∈ path, c.Height ≤ b.Height := by
  intro k
  induction k with
  | zero =>
    intro h b hb hk
    by_cases hsel : b.SelectedParent = ""
    · exact ⟨[b], Or.inl (SelectedParentWalk.last h b hb hsel), by simp, by simp, by simp⟩
    · cases hp : gd.GetBlock b.SelectedParent with
      | none =>
        exact ⟨[b], Or.inr ⟨_, SelectedParentWalkFails.step h b [] _ hb hsel
          (SelectedParentWalkFails.missing _ hp)⟩, by simp, by simp, by simp⟩
      | some pb =>
        have hlt := hbelow h b hb hsel pb hp
        have := blocksBelow_lt gd.blocks b.SelectedParent pb b.Height hp hlt
        omega
  | succ k ih =>
    intro h b hb hk
    by_cases hsel : b.SelectedParent = ""
    · exact ⟨[b], Or.inl (SelectedParentWalk.last h b hb hsel), by simp, by simp, by simp⟩
    · cases hp : gd.GetBlock b.SelectedParent with
      | none =>
        exact ⟨[b], Or.inr ⟨_, SelectedParentWalkFails.step h b [] _ hb hsel
          (SelectedParentWalkFails.missing _ hp)⟩, by simp, by simp, by simp⟩
      | some pb =>
        have hlt := hbelow h b hb hsel pb hp
        have hm := blocksBelow_lt gd.blocks b.SelectedParent pb b.Height hp hlt
        obtain ⟨path, hwalk, hlen, hpw, hall⟩ := ih b.SelectedParent pb hp (by omega)
        refine ⟨b :: path, ?_, by simp only [List.length_cons]; omega, ?_, ?_⟩
        · rcases hwalk with hw | ⟨missing, hw⟩
          · exact Or.inl (SelectedParentWalk.step h b path hb hsel hw)
          · exact Or.inr ⟨missing, SelectedParentWalkFails.step h b path missing hb hsel hw⟩
        · rw [List.pairwise_cons]
          exact ⟨fun c hc => by have := hall c hc; omega, hpw⟩
        · intro c hc
          rcases List.mem_cons.1 hc with hc | hc
          · rw [hc]
          · have := hall c hc
            omega

theorem CalculateBlueScore_returns_of_walk (gd : GhostDAG) (h : String) (path : List Block)
    (hwalk : SelectedParentWalk gd h path) :
    ∀ fuel : Nat, path.length ≤ fuel → ∃ score, gd.CalculateBlueScore fuel h =
      some (Except.ok score) := by
  induction hwalk with
  | last h b hb hsel =>
    intro fuel hfuel
    obtain ⟨f, rfl⟩ : ∃ f, fuel = f + 1 := ⟨fuel - 1, by simp at hfuel; omega⟩
    unfold GhostDAG.GetBlock at hb
    unfold GhostDAG.CalculateBlueScore
    rw [hb]
    simp only
    rw [if_pos hsel]
    exact ⟨1, rfl⟩
  | step h b path hb hsel _ ih =>
    intro fuel hfuel
    obtain ⟨f, rfl⟩ : ∃ f, fuel = f + 1 := ⟨fuel - 1, by simp at hfuel; omega⟩
    unfold GhostDAG.GetBlock at hb
    simp only [List.length_cons] at hfuel
    obtain ⟨score, hs⟩ := ih f (by omega)
    unfold GhostDAG.CalculateBlueScore
    rw [hb]
    simp only
    rw [if_neg hsel, hs]
    exact ⟨_, rfl⟩

/-- C38: on every graph in which the non-empty `SelectedParent` of each stored block,
when it is stored, has a strictly smaller `Height` than the block, the loop of
`GetSelectedParentChain(h)` and the recursion of `CalculateBlueScore(h)` end for every `h`
after at most `len(blocks) + 1` steps, and the returned chain has strictly increasing
`Height` from its first to its last element. -/
theorem chain_and_score_terminate (gd : GhostDAG) (hbelow : gd.SelectedParentBelow)
    (h : String) (fuel : Nat) (hfuel : gd.blocks.length + 1 ≤ fuel) :
    (∃ r, gd.GetSelectedParentChain fuel h = some r) ∧
    (∃ r, gd.CalculateBlueScore fuel h = some r) ∧
    (∀ chain, gd.GetSelectedParentChain fuel h = some (Except.ok chain) →
      chain.Pairwise (fun a c => a.Height < c.Height)) := by
  have hempty : ∀ chain, gd.GetSelectedParentChain fuel "" = some (Except.ok chain) →
      chain.Pairwise (fun a c => a.Height < c.Height) := by
    intro chain hchain
    unfold GhostDAG.GetSelectedParentChain at hchain
    rw [selectedParentChainLoop_empty] at hchain
    simp only [Option.some.injEq, Except.ok.injEq] at hchain
    rw [← hchain]
    exact List.Pairwise.nil
  cases hb : gd.GetBlock h with
  | none =>
    have hfails : SelectedParentWalkFails gd h [] h := SelectedParentWalkFails.missing h hb
    have hscore := CalculateBlueScore_of_fails gd h [] h hfails fuel
      (by simp only [List.length_nil]; omega)
    refine ⟨?_, ⟨_, hscore⟩, ?_⟩
    · by_cases hne : h = ""
      · subst hne
        exact ⟨_, selectedParentChainLoop_empty gd fuel []⟩
      · exact ⟨_, selectedParentChainLoop_of_fails gd h [] h hfails hne fuel []
          (by simp only [List.length_nil]; omega)⟩
    · intro chain hchain
      by_cases hne : h = ""
      · subst hne
        exact hempty chain hchain
      · unfold GhostDAG.GetSelectedParentChain at hchain
        rw [selectedParentChainLoop_of_fails gd h [] h hfails hne fuel []
          (by simp only [List.length_nil]; omega)] at hchain
        simp at hchain
  | some b =>
    have hbound := blocksBelow_lt_length gd.blocks h b hb
    obtain ⟨path, hwalk, hlen, hpw, _⟩ := walk_exists gd hbelow _ h b hb (le_refl _)
    rcases hwalk with hw | ⟨missing, hw⟩
    · obtain ⟨score, hscore⟩ := CalculateBlueScore_returns_of_walk gd h path hw fuel (by omega)
      refine ⟨?_, ⟨_, hscore⟩, ?_⟩
      · by_cases hne : h = ""
        · subst hne
          exact ⟨_, selectedParentChainLoop_empty gd fuel []⟩
        · exact ⟨_, selectedParentChainLoop_of_walk gd h path hw hne fuel [] (by omega)⟩
      · intro chain hchain
        by_cases hne : h = ""
        · subst hne
          exact hempty chain hchain
        · unfold GhostDAG.GetSelectedParentChain at hchain
          rw [selectedParentChainLoop_of_walk gd h path hw hne fuel [] (by omega)] at hchain
          simp only [List.append_nil, Option.some.injEq, Except.ok.injEq] at hchain
          rw [← hchain, List.pairwise_reverse]
          exact hpw
    · have hscore := CalculateBlueScore_of_fails gd h path missing hw fuel (by omega)
      refine ⟨?_, ⟨_, hscore⟩, ?_⟩
      · by_cases hne : h = ""
        · subst hne
          exact ⟨_, selectedParentChainLoop_empty gd fuel []⟩
        · exact ⟨_, selectedParentChainLoop_of_fails gd h path missing hw hne fuel [] (by omega)⟩
      · intro chain hchain
        by_cases hne : h = ""
        · subst hne
          exact hempty chain hchain
        · unfold GhostDAG.GetSelectedParentChain at hchain
          rw [selectedParentChainLoop_of_fails gd h path missing hw hne fuel [] (by omega)]
            at hchain
          simp at hchain

theorem exampleSelectedGraph_below : exampleSelectedGraph.SelectedParentBelow := by
  intro h b hb hsel pb hpb
  have hblocks : exampleSelectedGraph.blocks =
      [("B", exampleParent), ("0011223344556677", exampleSelectedChild)] := by decide
  unfold GhostDAG.GetBlock at hb hpb
  rw [hblocks] at hb hpb
  simp only [mapGet] at hb
  split_ifs at hb with h1 h2
  · simp only [Option.some.injEq] at hb
    subst hb
    exact absurd rfl hsel
  · simp only [Option.some.injEq] at hb
    subst hb
    have hp : mapGet [("B", exampleParent), ("0011223344556677", exampleSelectedChild)]
        exampleSelectedChild.SelectedParent = some exampleParent := by decide
    rw [hp] at hpb
    simp only [Option.some.injEq] at hpb
    subst hpb
    decide

/-- Witness of C38 on the graph that holds `B` (height 5) and a child (height 6) with the
selected parent `B`: with three steps the chain `B`, child is returned. -/
theorem chain_and_score_terminate_witness :
    exampleSelectedGraph.blocks.length + 1 ≤ 3 ∧
    exampleSelectedGraph.GetSelectedParentChain 3 exampleSelectedChild.Hash =
      some (Except.ok [exampleParent, exampleSelectedChild]) ∧
    exampleSelectedGraph.CalculateBlueScore 3 exampleSelectedChild.Hash = some (Except.ok 2) ∧
    [exampleParent, exampleSelectedChild].Pairwise (fun a c => a.Height < c.Height) :=
  ⟨by decide, by decide, by decide,
    (chain_and_score_terminate exampleSelectedGraph exampleSelectedGraph_below
      exampleSelectedChild.Hash 3 (by decide)).2.2 [exampleParent, exampleSelectedChild]
      (by decide)⟩

/-! ## C34, C35: block storage -/

theorem mapSet_mapSet_same {K V : Type} [DecidableEq K] (m : List (K × V)) (k : K) (v w : V) :
    mapSet (mapSet m k v) k w = mapSet m k w := by
  induction m with
  | nil => simp [mapSet]
  | cons kv rest ih =>
    obtain ⟨k1, v1⟩ := kv
    by_cases hk : k1 = k
    · simp [mapSet, hk]
    · simp [mapSet, hk, ih]

/-- C34 (defect): `StoreBlock` does not test whether the block file exists. After
`StoreBlock` of the same block twice on a fresh data directory the log holds two records
for the block, not one; the block file is as after the first call. On every data
directory the second call appends a second record, and a call for another block of the
same height and hash replaces the content of the stored file. -/
theorem StoreBlock_twice_logs_twice :
    (NewBlockStorage.StoreBlock exampleChild).log = [storeLogEntry exampleChild] ∧
    ((NewBlockStorage.StoreBlock exampleChild).StoreBlock exampleChild).log =
      [storeLogEntry exampleChild, storeLogEntry exampleChild] ∧
    ((NewBlockStorage.StoreBlock exampleChild).StoreBlock exampleChild).log ≠
      (NewBlockStorage.StoreBlock exampleChild).log ∧
    ((NewBlockStorage.StoreBlock exampleChild).StoreBlock exampleChild).files =
      (NewBlockStorage.StoreBlock exampleChild).files ∧
    (∀ (bs : BlockStorage) (block : Block),
      ((bs.StoreBlock block).StoreBlock block).log =
        bs.log ++ [storeLogEntry block, storeLogEntry block]) ∧
    (∀ (bs : BlockStorage) (block other : Block),
      other.Height = block.Height → other.Hash = block.Hash →
      mapGet ((bs.StoreBlock block).StoreBlock other).files (block.Height, block.Hash) =
        some (storedBlockData other)) := by
  refine ⟨by decide, by decide, by decide, by decide, ?_, ?_⟩
  · intro bs block
    simp only [BlockStorage.StoreBlock, List.append_assoc, List.singleton_append]
  · intro bs block other h1 h2
    simp only [BlockStorage.StoreBlock]
    rw [h1, h2]
    exact mapGet_mapSet_same _ _ _

/-- C35 (defect): `StoreBlock` writes eight fields of the block and `loadBlockFile`
rebuilds the block from them: whatever the data directory held before, the block loaded
after `StoreBlock(b)` has no transactions, an empty `ProducerID` and an empty
`ProducerPubKeyHash`. The example child block, whose producer is `v1`, comes back
different from the stored block, from `loadBlockFile`, `GetBlock` and `LoadBlocks`
alike, and `ValidateBlock` rejects the loaded block as coming from an unknown producer. -/
theorem load_after_store_drops_fields :
    (∀ (viaFloat64 : Int → Int) (bs : BlockStorage) (b : Block),
      (bs.StoreBlock b).loadBlockFile viaFloat64 (b.Height, b.Hash) =
        Except.ok { b with
          Height := viaFloat64 b.Height
          BlueScore := viaFloat64 b.BlueScore
          BlueWork := viaFloat64 b.BlueWork
          Timestamp := viaFloat64 b.Timestamp
          Transactions := []
          ProducerID := ""
          ProducerPubKeyHash := "" }) ∧
    exampleChild.ProducerID = "v1" ∧
    (NewBlockStorage.StoreBlock exampleChild).GetBlock exampleViaFloat64
        [(exampleChild.Height, exampleChild.Hash)] exampleChild.Hash =
      Except.ok { exampleChild with ProducerID := "", ProducerPubKeyHash := "" } ∧
    (NewBlockStorage.StoreBlock exampleChild).LoadBlocks exampleViaFloat64
        [(exampleChild.Height, exampleChild.Hash)] =
      Except.ok [{ exampleChild with ProducerID := "", ProducerPubKeyHash := "" }] ∧
    ({ exampleChild with ProducerID := "", ProducerPubKeyHash := "" } : Block) ≠ exampleChild ∧
    ValidateBlock exampleKeccakHex 1000 12345
        { exampleChild with ProducerID := "", ProducerPubKeyHash := "" } exampleParentGraph
        exampleEngine =
      some (Except.error (ValidationError.blockRejected (ValidationError.unknownProducer ""))) := by
  refine ⟨?_, by decide, by decide, by decide, by decide, by decide⟩
  intro viaFloat64 bs b
  unfold BlockStorage.loadBlockFile BlockStorage.StoreBlock
  simp only
  rw [mapGet_mapSet_same]
  rfl

/-! ## C36: conservation of transactions in the selection -/

/-- C36 (defect): a candidate that the selection loop skips is handed back nowhere. The
pool holds two valid transactions of `alice`, nonce 2 at 2 gwei and nonce 1 at 1 gwei;
`Pop` removes both; the nonce-1 transaction is skipped for nonce order and afterwards is
neither in the returned batch nor pending in the mempool. The same holds when the batch
is abandoned for `MinTxsPerBlock = 2`: the nonce-2 transaction is added again, the
nonce-1 transaction is not. -/
theorem selection_loses_skipped_transaction :
    (NewMempool 100).calls
      [MempoolCall.AddWithAccountState exampleNonce2 1000000000000000000 0,
        MempoolCall.Add exampleNonce1] = some exampleNoncePool ∧
    exampleNoncePool.validator.ValidateTransaction exampleNonce1 = some (Except.ok ()) ∧
    (exampleNoncePool.Pop exampleGasConfig.MaxTxsPerBlock [exampleNonce2, exampleNonce1]).2 =
      [exampleNonce2, exampleNonce1] ∧
    (∃ m1 batch,
      selectAndValidateTransactions exampleGasConfig exampleNoncePool
        [exampleNonce2, exampleNonce1] = some (m1, batch) ∧
      batch = [exampleNonce2] ∧ m1.pending = [] ∧
      exampleNonce1 ∉ batch ∧ exampleNonce1 ∉ m1.pending) ∧
    (∃ m1 batch,
      selectAndValidateTransactions { exampleGasConfig with MinTxsPerBlock := 2 }
        exampleNoncePool [exampleNonce2, exampleNonce1] = some (m1, batch) ∧
      batch = [] ∧ m1.pending = [exampleNonce2] ∧
      exampleNonce1 ∉ batch ∧ exampleNonce1 ∉ m1.pending) := by
  refine ⟨by decide, by decide, by decide,
    ⟨{ exampleNoncePool with txs := [] }, [exampleNonce2], by decide, rfl, by decide, by decide,
      by decide⟩,
    ⟨{ exampleNoncePool with txs := [("n2", exampleNonce2)] }, [], by decide, rfl, by decide,
      by decide, by decide⟩⟩

/-! ## C37: the preimage of the block hash -/

theorem computeBlockHash_eq_input (keccakHex : String → String) (block : Block)
    (h : block.Hash ≠ "genesis") :
    computeBlockHash keccakHex block = (keccakHex (blockHashInput block)).take 16 :=
  computeBlockHash_of_ne_genesis keccakHex block h

theorem sprintStrings_pair (a b : String) :
    sprintStrings [a, b] = sprintStrings [a ++ " " ++ b] := by
  unfold sprintStrings
  simp [String.intercalate, String.intercalate.go]

/-- Counterexample to C37: the blocks with the parents `["a b"]` and `["a", "b"]`, and the
blocks with (`SelectedParent` `x:y`, `ProducerID` `z`) and (`SelectedParent` `x`,
`ProducerID` `y:z`), differ in a covered field and have the same preimage. -/
theorem blockHashInput_collisions :
    ({ exampleChild with Parents := ["a b"] } : Block) ≠
      { exampleChild with Parents := ["a", "b"] } ∧
    blockHashInput { exampleChild with Parents := ["a b"] } =
      blockHashInput { exampleChild with Parents := ["a", "b"] } ∧
    ({ exampleChild with SelectedParent := "x:y", ProducerID := "z" } : Block) ≠
      { exampleChild with SelectedParent := "x", ProducerID := "y:z" } ∧
    blockHashInput { exampleChild with SelectedParent := "x:y", ProducerID := "z" } =
      blockHashInput { exampleChild with SelectedParent := "x", ProducerID := "y:z" } ∧
    blockHashInput { exampleChild with Parents := ["a", "b"] } = "[a b]:6:0:1000::v1:pk1" := by
  decide

/-- C37 as amended: the preimage built by `computeBlockHash` is a function of `Parents`,
`Height`, `BlueScore`, `Timestamp`, `SelectedParent`, `ProducerID` and
`ProducerPubKeyHash`, but it is not an injective encoding of them: the parents are
printed with blanks between them and the fields are joined by `:` without escaping. For
every block, the parents `[a, b]` and `[a ++ " " ++ b]` give the same preimage, and so
do (`SelectedParent` `x ++ ":" ++ y`, `ProducerID` `z`) and (`SelectedParent` `x`,
`ProducerID` `y ++ ":" ++ z`); blocks with the same preimage (and a hash other than
`genesis`) get the same hash. -/
theorem blockHashInput_not_injective (block : Block) (a b x y z : String) :
    blockHashInput { block with Parents := [a, b] } =
      blockHashInput { block with Parents := [a ++ " " ++ b] } ∧
    blockHashInput { block with SelectedParent := x ++ ":" ++ y, ProducerID := z } =
      blockHashInput { block with SelectedParent := x, ProducerID := y ++ ":" ++ z } ∧
    (∀ b1 b2 : Block,
      b1.Parents = b2.Parents → b1.Height = b2.Height → b1.BlueScore = b2.BlueScore →
      b1.Timestamp = b2.Timestamp → b1.SelectedParent = b2.SelectedParent →
      b1.ProducerID = b2.ProducerID → b1.ProducerPubKeyHash = b2.ProducerPubKeyHash →
      blockHashInput b1 = blockHashInput b2) ∧
    (∀ (keccakHex : String → String) (b1 b2 : Block),
      b1.Hash ≠ "genesis" → b2.Hash ≠ "genesis" → blockHashInput b1 = blockHashInput b2 →
      computeBlockHash keccakHex b1 = computeBlockHash keccakHex b2) := by
  refine ⟨?_, ?_, ?_, ?_⟩
  · unfold blockHashInput
    simp only
    rw [sprintStrings_pair]
  · unfold blockHashInput
    simp only [String.append_assoc]
  · intro b1 b2 h1 h2 h3 h4 h5 h6 h7
    unfold blockHashInput
    rw [h1, h2, h3, h4, h5, h6, h7]
  · intro keccakHex b1 b2 h1 h2 he
    rw [computeBlockHash_eq_input keccakHex b1 h1, computeBlockHash_eq_input keccakHex b2 h2, he]

end Lattice
